import Mathlib

/-!
# AgAIle OS command processor and command bridge

A shallow embedding of `.agaile-os/shared/command-processor.js` (class `CommandProcessor`)
and `.agaile-os/shared/command-bridge.js` (class `CommandBridge`).

Conventions of the embedding:

* JavaScript strings are lists of characters (`Text`).  Every regular expression of the two
  files only distinguishes ASCII characters and the white space class `\s`, all of which are
  single UTF-16 code units, so matching on code points and on code units agree.
* JavaScript values that the code treats dynamically (template variables, approval levels,
  phases) are values of `JSValue`; `toBoolean` and `toStr` are the coercions `ToBoolean` and
  `ToString` of the language.
* `String.prototype.replace` with a global pattern is a left-to-right scan: at every position
  the pattern is tried, a match is replaced by the result of the callback and the scan resumes
  right after the match, a position without a match contributes its character unchanged.
* The Node.js library (`path`, `fs`, `process.env`, `yaml.load`, the regular expression
  engine applied to a pattern built at run time, the clock) is not part of the repository: it
  is a parameter (`NodePath`, `FileSystem`, `Platform`, `Clock`) of every definition that
  uses it.
* The call stack is finite: include resolution takes the number of nested calls of
  `processIncludes` that the stack has room for, and a nested call beyond it throws (a
  `RangeError`), which the callback of `processIncludes` catches like every other exception.
  An exception that escapes is an `Except` error carrying the message of the exception, and
  `none` stands for a call that yields no result.
-/

namespace Agaile

/-! ## Strings and values -/

/-- A JavaScript string. -/
abbrev Text := List Char

/-- A file-system path (a string handed to `path` and `fs`). -/
abbrev Path := Text

/-- JavaScript values.  `num` carries integer-valued numbers (safe integers); `obj` is a plain
data object (own properties in enumeration order, prototype `Object.prototype`, no own
`toString`/`valueOf`); `fn` is a function object, given by the text `String` yields for it. -/
inductive JSValue where
  | undefined
  | null
  | bool (b : Bool)
  | num (n : Int)
  | str (s : Text)
  | arr (items : List JSValue)
  | obj (fields : List (Text × JSValue))
  | fn (source : Text)

namespace JSValue

/-- The coercion `ToBoolean`: `undefined`, `null`, `false`, `0` and `''` are falsy. -/
def toBoolean : JSValue → Bool
  | undefined => false
  | null => false
  | bool b => b
  | num n => n != 0
  | str s => !s.isEmpty
  | arr _ => true
  | obj _ => true
  | fn _ => true

mutual
/-- The coercion `ToString` (`String(v)`, also applied by `replace` to a callback's result and
by template literals). -/
def toStr : JSValue → Text
  | undefined => "undefined".toList
  | null => "null".toList
  | bool true => "true".toList
  | bool false => "false".toList
  | num n => (toString n).toList
  | str s => s
  | arr items => joinItems items
  | obj _ => "[object Object]".toList
  | fn source => source
termination_by structural v => v
/-- The text of `Array.prototype.join(',')`: `undefined` and `null` elements give the empty
string. -/
def joinItems : List JSValue → Text
  | [] => []
  | x :: rest =>
      (match x with
        | undefined => []
        | null => []
        | v => toStr v) ++
      (match rest with
        | [] => []
        | _ => ',' :: joinItems rest)
termination_by structural l => l
end

/-- The operator `a || b`. -/
def or (a b : JSValue) : JSValue :=
  if a.toBoolean then a else b

end JSValue

/-- The text `String` yields for a built-in function of the given name (V8). -/
def nativeFunction (name : Text) : JSValue :=
  .fn ("function ".toList ++ name ++ "() \x7b [native code] \x7d".toList)

/-- The names of the methods of `Object.prototype`. -/
def objectPrototypeMethods : List Text :=
  ["constructor", "__defineGetter__", "__defineSetter__", "hasOwnProperty",
   "__lookupGetter__", "__lookupSetter__", "isPrototypeOf", "propertyIsEnumerable",
   "toString", "valueOf", "toLocaleString"].map String.toList

/-- Property lookup on `Object.prototype`, the prototype of every object literal:
`constructor` is the function `Object`, the methods are native functions, `__proto__` reads
the prototype of the receiver (for an object literal `Object.prototype`, an object). -/
def objectPrototype (key : Text) : JSValue :=
  if key = "constructor".toList then nativeFunction "Object".toList
  else if key ∈ objectPrototypeMethods then nativeFunction key
  else if key = "__proto__".toList then .obj []
  else .undefined

/-- An object literal: its own properties, as an association list. -/
abbrev JSObject := List (Text × JSValue)

/-- The own property `key` of an object, if it has one. -/
def JSObject.own (o : JSObject) (key : Text) : Option JSValue :=
  o.lookup key

/-- The expression `o[key]` for an object literal `o`: the own property if there is one,
otherwise the property inherited from `Object.prototype`. -/
def JSObject.get (o : JSObject) (key : Text) : JSValue :=
  match o.own key with
  | some v => v
  | none => objectPrototype key

/-! ## Template substitution (`CommandProcessor.applyTemplate`) -/

/-- The part `([^}]+)\}` of the template pattern at the start of a text: the captured name,
when the text starts with at least one character other than `}` followed by `}`. -/
def matchName : Text → Option Text
  | [] => none
  | [_] => none
  | c :: d :: rest =>
      if c = '}' then none
      else if d = '}' then some [c]
      else (matchName (d :: rest)).map (c :: ·)

/-- The pattern `/\$\{([^}]+)\}/` tried at the start of a text: the captured variable name. -/
def matchTemplateToken : Text → Option Text
  | '$' :: '{' :: rest => matchName rest
  | _ => none

/-- The text `${name}`. -/
def templateToken (name : Text) : Text :=
  '$' :: '{' :: (name ++ ['}'])

/-- The callback of `applyTemplate`: `variables[varName] || match`, coerced to a string. -/
def templateReplacement (vars : JSObject) (varName : Text) : Text :=
  ((vars.get varName).or (.str (templateToken varName))).toStr

/-- The scan of `templateContent.replace(/\$\{([^}]+)\}/g, ...)`; `skip` is the number of
characters still covered by the last match. -/
def applyTemplateFrom (vars : JSObject) : Nat → Text → Text
  | _, [] => []
  | skip + 1, _ :: rest => applyTemplateFrom vars skip rest
  | 0, c :: rest =>
      match matchTemplateToken (c :: rest) with
      | some varName =>
          templateReplacement vars varName ++
            applyTemplateFrom vars (varName.length + 2) rest
      | none => c :: applyTemplateFrom vars 0 rest

/-- Source: `CommandProcessor.applyTemplate(templateContent, variables)`. -/
def applyTemplate (templateContent : Text) (vars : JSObject) : Text :=
  applyTemplateFrom vars 0 templateContent

/-- Some `${` of the text has no `}` after it (a token that starts in the text could end
beyond it). -/
def hasOpenToken : Text → Bool
  | [] => false
  | c :: rest =>
      (c == '$' && (match rest with
        | '{' :: w => !w.contains '}'
        | _ => false)) || hasOpenToken rest

/-- The template pattern matches somewhere in the text. -/
def hasTemplateToken : Text → Bool
  | [] => false
  | c :: rest => (matchTemplateToken (c :: rest)).isSome || hasTemplateToken rest

/-! ## The platform -/

/-- The functions of Node's `path` module that the code calls. -/
structure NodePath where
  /-- The call `path.resolve(from, to)`. -/
  resolve : Path → Text → Path
  /-- The call `path.join(...segments)`. -/
  join : List Text → Path
  /-- The call `path.dirname(p)`. -/
  dirname : Path → Path

/-- The file system as the code observes it through `fs`. -/
structure FileSystem where
  /-- The call `fs.existsSync(p)`. -/
  existsSync : Path → Bool
  /-- The call `fs.readFileSync(p, 'utf8')`: the contents, or `none` when the call throws. -/
  readFileSync : Path → Option Text
  /-- Whether `fs.writeFileSync(p, data)` succeeds at `p` (it throws otherwise). -/
  writable : Path → Bool

/-- The file system after a successful `fs.writeFileSync(p, data)`. -/
def FileSystem.write (fs : FileSystem) (p : Path) (data : Text) : FileSystem :=
  { existsSync := fun q => if q = p then true else fs.existsSync q
    readFileSync := fun q => if q = p then some data else fs.readFileSync q
    writable := fs.writable }

/-! ## Include resolution (`processIncludes`, the same in both classes) -/

/-- The character class `\s` of JavaScript regular expressions. -/
def isWhiteSpace (c : Char) : Bool :=
  let n := c.toNat
  n == 0x09 || n == 0x0A || n == 0x0B || n == 0x0C || n == 0x0D || n == 0x20 ||
  n == 0xA0 || n == 0x1680 || (0x2000 ≤ n && n ≤ 0x200A) || n == 0x2028 || n == 0x2029 ||
  n == 0x202F || n == 0x205F || n == 0x3000 || n == 0xFEFF

/-- The class `[^\s\n]`. -/
def isPathChar (c : Char) : Bool :=
  !isWhiteSpace c && c != '\n'

/-- The pattern `/@([^\s\n]+)/` tried at the start of a text: the captured include path. -/
def matchInclude : Text → Option Text
  | '@' :: rest =>
      let includePath := rest.takeWhile isPathChar
      if includePath.isEmpty then none else some includePath
  | _ => none

/-- The comment that replaces the token of a missing file. -/
def missingInclude (includePath : Text) : Text :=
  "<!-- MISSING INCLUDE: ".toList ++ includePath ++ " -->".toList

/-- The comment that replaces the token of a file that cannot be processed. -/
def errorInclude (includePath : Text) : Text :=
  "<!-- ERROR PROCESSING INCLUDE: ".toList ++ includePath ++ " -->".toList

/-- The callback of `processIncludes`; `resolveNested` is the recursive call
`this.processIncludes(includeContent, path.dirname(fullPath))`, `none` when it throws (the
call stack is exhausted).  The `try` of the callback encloses the read and the recursive
call, so both exceptions give the comment of the `catch`. -/
def includeReplacement (np : NodePath) (fs : FileSystem)
    (resolveNested : Text → Path → Option Text) (basePath : Path) (includePath : Text) :
    Option Text :=
  let fullPath := np.resolve basePath includePath
  if !fs.existsSync fullPath then some (missingInclude includePath)
  else match fs.readFileSync fullPath with
    | none => some (errorInclude includePath)
    | some includeContent =>
        match resolveNested includeContent (np.dirname fullPath) with
        | none => some (errorInclude includePath)
        | some resolved => some resolved

/-- The scan of `content.replace(/@([^\s\n]+)/g, callback)`; `skip` is the number of
characters still covered by the last match; `none` when a callback yields no result. -/
def replaceIncludes (callback : Text → Option Text) : Nat → Text → Option Text
  | _, [] => some []
  | skip + 1, _ :: rest => replaceIncludes callback skip rest
  | 0, c :: rest =>
      match matchInclude (c :: rest) with
      | some includePath =>
          (callback includePath).bind fun replacement =>
            (replaceIncludes callback includePath.length rest).map (replacement ++ ·)
      | none => (replaceIncludes callback 0 rest).map (c :: ·)

/-- Source: `processIncludes(content, basePath)`.  The first argument is the number of nested
calls of `processIncludes` that the call stack has room for: a nested call beyond it throws,
and the callback that made it catches the exception (so a cyclic chain of includes ends in
the comment of the `catch`).  The result is never `none`: the callback catches every
exception. -/
def processIncludes (np : NodePath) (fs : FileSystem) : Nat → Text → Path → Option Text
  | 0, content, basePath =>
      replaceIncludes (includeReplacement np fs (fun _ _ => none) basePath) 0 content
  | depth + 1, content, basePath =>
      replaceIncludes (includeReplacement np fs (processIncludes np fs depth) basePath) 0 content

/-- The text `@fragment`. -/
def includeToken (fragment : Text) : Text :=
  '@' :: fragment

/-- The text contains an include token: an `@` immediately followed by a character that is
not white space. -/
def hasIncludeToken : Text → Bool
  | [] => false
  | c :: rest =>
      (c == '@' && (match rest with
        | d :: _ => !isWhiteSpace d
        | [] => false)) || hasIncludeToken rest

/-- Some `@` of the text is followed by no white space up to the end of the text (a token
that starts in the text could extend beyond it). -/
def hasOpenInclude : Text → Bool
  | [] => false
  | c :: rest => (c == '@' && rest.all (fun d => !isWhiteSpace d)) || hasOpenInclude rest

/-- The text is empty or starts with white space (so that a token before it ends there). -/
def endsToken : Text → Bool
  | [] => true
  | c :: _ => isWhiteSpace c

/-- A path library for examples: `resolve` and `join` put `/` between the segments,
`dirname` drops the last segment. -/
def simplePath : NodePath :=
  { resolve := fun base target => base ++ '/' :: target
    join := fun segments => List.intercalate ['/'] segments
    dirname := fun p => (p.reverse.dropWhile (· != '/')).drop 1 |>.reverse }

/-- A file system for examples, given by the list of its readable files. -/
def filesOf (files : List (Path × Text)) : FileSystem :=
  { existsSync := fun p => (files.lookup p).isSome
    readFileSync := fun p => files.lookup p
    writable := fun _ => true }

/-! ## The command bridge: configuration and state (`CommandBridge`) -/

/-- An entry of `operation_overrides`. -/
structure OperationOverride where
  /-- The field `minimum_approval_level` (`undefined` when the entry has none). -/
  minimum_approval_level : JSValue

/-- An entry of `environment_overrides`. -/
structure EnvironmentOverride where
  /-- The field `approval_level` (`undefined` when the entry has none). -/
  approval_level : JSValue

/-- An entry of `hil_workflow.commands`. -/
structure HilCommand where
  /-- The field `phase` (`undefined` when the entry has none). -/
  phase : JSValue

/-- The section `feature_tracking` (also the legacy section `project`). -/
structure TrackingSection where
  /-- The field `master_tracking` (`undefined` when the section has none). -/
  master_tracking : JSValue

/-- The configuration document as `CommandBridge` reads it.  A section that is `none` is
absent (`undefined` or `null`); a section that maps names to entries lists the entries that
are objects (a name without such an entry yields no field, as does a property inherited
from a prototype). -/
structure Config where
  /-- The section `feature_tracking`. -/
  feature_tracking : Option TrackingSection
  /-- The section `project`. -/
  project : Option TrackingSection
  /-- The value `project_types?.default?.instructions`. -/
  instructions : JSValue
  /-- The section `operation_overrides`. -/
  operation_overrides : Option (List (Text × OperationOverride))
  /-- The section `environment_overrides`. -/
  environment_overrides : Option (List (Text × EnvironmentOverride))
  /-- The value `user_preferences?.default_approval_level`. -/
  default_approval_level : JSValue
  /-- The list `Object.values(hil_workflow?.phases || \x7b\x7d)`. -/
  phases : List JSValue
  /-- The section `hil_workflow?.commands`. -/
  commands : Option (List (Text × HilCommand))

/-- The expression `section?.[key]?.field` for a section that maps names to entries. -/
def sectionField {α : Type} (entries : Option (List (Text × α))) (key : Text)
    (field : α → JSValue) : JSValue :=
  match entries with
  | none => .undefined
  | some es =>
      match es.lookup key with
      | none => .undefined
      | some e => field e

/-- A record of the command history. -/
structure LogEntry where
  timestamp : Text
  command : Text
  sourceIde : Text
  success : JSValue
  error : JSValue
  duration : JSValue

/-- The fields that `logCommandExecution` reads from its `result` argument (`undefined` when
the object has no such field). -/
structure ExecutionSummary where
  success : JSValue
  error : JSValue
  duration : JSValue

/-- The instance state of a `CommandBridge`. -/
structure CommandBridge where
  config : Config
  projectRoot : Path
  masterTracking : Text
  commandHistory : List LogEntry

/-- What the code uses of the platform besides the file system. -/
structure Platform where
  /-- The module `path`. -/
  path : NodePath
  /-- The variable `process.env.NODE_ENV` (`none` when it is not set). -/
  nodeEnv : Option Text
  /-- The call `yaml.load(text)`: the document, or `none` when the call throws. -/
  yamlLoad : Text → Option JSValue
  /-- The search of `getCurrentHILPhase`: the pattern built from the feature name applied to
  the ledger text.  An error is the message of the exception of `new RegExp`, `ok none` is no
  match, `ok (some t)` a match whose first group is `t`. -/
  phaseSearch : Text → Text → Except Text (Option Text)
  /-- The message of the `TypeError` of `path.join` and `path.resolve` for an argument that
  is not a string. -/
  pathArgumentError : JSValue → Text
  /-- The message of the `TypeError` of reading the named property of `undefined`. -/
  nullishReadError : Text → Text

/-! ## Approval levels and phases -/

/-- The expression `process.env.NODE_ENV || 'development'`. -/
def currentEnvironment (P : Platform) : Text :=
  match P.nodeEnv with
  | some e => if e.isEmpty then "development".toList else e
  | none => "development".toList

/-- Source: `getRequiredApprovalLevel(commandName, currentPhase)`. -/
def getRequiredApprovalLevel (P : Platform) (config : Config) (commandName : Text)
    (_currentPhase : Text) : JSValue :=
  let commandLevel :=
    sectionField config.operation_overrides commandName (·.minimum_approval_level)
  if commandLevel.toBoolean then commandLevel
  else
    let environment := currentEnvironment P
    let envLevel := sectionField config.environment_overrides environment (·.approval_level)
    if envLevel.toBoolean then envLevel
    else config.default_approval_level.or (.str "CONFIRM".toList)

/-- The comparison `v === s` for a string `s`. -/
def strictEqualsString (s : Text) : JSValue → Bool
  | .str t => s == t
  | _ => false

/-- The call `phases.indexOf(s)` for a string `s`: the first index of a strictly equal
element, `-1` when there is none. -/
def indexOfString (s : Text) : List JSValue → Int
  | [] => -1
  | v :: rest =>
      if strictEqualsString s v then 0
      else
        let i := indexOfString s rest
        if i < 0 then -1 else i + 1

/-- Source: `getNextHILPhase(currentPhase)` for a phase that is a string. -/
def getNextHILPhase (config : Config) (currentPhase : Text) : JSValue :=
  let phases := config.phases
  let currentIndex := indexOfString currentPhase phases
  if currentIndex ≥ 0 ∧ currentIndex < (phases.length : Int) - 1 then
    phases.getD (currentIndex + 1).toNat .undefined
  else .str currentPhase

/-! ## The command history -/

/-- The record that `logCommandExecution` builds; `now` is the reading of the clock. -/
def makeLogEntry (commandName sourceIde : Text) (result : ExecutionSummary) (now : Text) :
    LogEntry :=
  { timestamp := now
    command := commandName
    sourceIde := sourceIde
    success := result.success
    error := result.error.or .null
    duration := result.duration.or (.num 0) }

/-- Source: `logCommandExecution(commandName, sourceIde, result)`, as a function of the history. -/
def logCommandExecution (commandHistory : List LogEntry) (commandName sourceIde : Text)
    (result : ExecutionSummary) (now : Text) : List LogEntry :=
  let pushed := commandHistory ++ [makeLogEntry commandName sourceIde result now]
  if pushed.length > 100 then pushed.drop (pushed.length - 100) else pushed

/-- One call of `logCommandExecution`: its arguments and the reading of the clock. -/
structure Recording where
  commandName : Text
  sourceIde : Text
  result : ExecutionSummary
  now : Text

/-- The record of a recording. -/
def Recording.entry (r : Recording) : LogEntry :=
  makeLogEntry r.commandName r.sourceIde r.result r.now

/-- The history after a sequence of calls of `logCommandExecution`. -/
def recordAll (commandHistory : List LogEntry) (recordings : List Recording) : List LogEntry :=
  recordings.foldl (fun h r => logCommandExecution h r.commandName r.sourceIde r.result r.now)
    commandHistory

/-! ## Instructions: metadata and workflow steps -/

/-- Source: `String.prototype.trim`. -/
def trim (s : Text) : Text :=
  ((s.dropWhile isWhiteSpace).reverse.dropWhile isWhiteSpace).reverse

/-- Source: `haystack.includes(needle)`. -/
def includes : Text → Text → Bool
  | [], needle => needle.isEmpty
  | c :: rest, needle => needle.isPrefixOf (c :: rest) || includes rest needle

/-- The part `\n---\s*\n` of the front-matter pattern at the start of a text. -/
def closesFrontmatter : Text → Bool
  | '\n' :: '-' :: '-' :: '-' :: rest => (rest.takeWhile isWhiteSpace).contains '\n'
  | _ => false

/-- The part `([\s\S]*?)\n---\s*\n` at the start of a text: the shortest body that is
followed by the closing line. -/
def frontmatterBody : Text → Option Text
  | [] => none
  | c :: rest =>
      if closesFrontmatter (c :: rest) then some []
      else (frontmatterBody rest).map (c :: ·)

/-- The part `\s*\n([\s\S]*?)\n---\s*\n` at the start of a text: `\s*` takes as much white
space as it can and gives characters back until the rest matches. -/
def matchFrontmatterOpen : Text → Option Text
  | [] => none
  | c :: rest =>
      if isWhiteSpace c then
        match matchFrontmatterOpen rest with
        | some body => some body
        | none => if c = '\n' then frontmatterBody rest else none
      else none

/-- The pattern `/^---\s*\n([\s\S]*?)\n---\s*\n/` on a text: the captured body. -/
def matchFrontmatter : Text → Option Text
  | '-' :: '-' :: '-' :: rest => matchFrontmatterOpen rest
  | _ => none

/-- Source: `extractMetadata(content)` (the same in both classes); `yamlLoad` is `yaml.load`. -/
def extractMetadata (yamlLoad : Text → Option JSValue) (content : Text) : JSValue :=
  match matchFrontmatter content with
  | some body =>
      match yamlLoad body with
      | some metadata => metadata
      | none => .obj []
  | none => .obj []

/-- A step of a workflow. -/
structure WorkflowStep where
  number : Nat
  name : Text
  content : Text
  critical : Bool

/-- The text `### Step `. -/
def stepHeading : Text := "### Step ".toList

/-- The part `### Step (\d+):` of the step pattern at the start of a text: the digits and
the text after the colon. -/
def matchStepHeading (s : Text) : Option (Text × Text) :=
  if stepHeading.isPrefixOf s then
    let afterPrefix := s.drop stepHeading.length
    match afterPrefix.takeWhile Char.isDigit, afterPrefix.dropWhile Char.isDigit with
    | d :: digits, ':' :: rest => some (d :: digits, rest)
    | _, _ => none
  else none

/-- The part `\s*([^\n]+)` of the step pattern at the start of a text: the number of
characters that `\s*` takes and the captured name.  `\s*` takes as much white space as it
can and gives characters back until a character other than a line feed follows. -/
def matchStepName : Text → Option (Nat × Text)
  | [] => none
  | c :: rest =>
      if isWhiteSpace c then
        match matchStepName rest with
        | some (k, name) => some (k + 1, name)
        | none =>
            if c = '\n' then none
            else some (0, (c :: rest).takeWhile (· != '\n'))
      else some (0, (c :: rest).takeWhile (· != '\n'))

/-- The part `([\s\S]*?)(?=### Step \d+:|$)` of the step pattern at the start of a text:
the shortest text that is followed by a step heading or by the end of the input. -/
def takeStepContent : Text → Text
  | [] => []
  | c :: rest =>
      if (matchStepHeading (c :: rest)).isSome then []
      else c :: takeStepContent rest

/-- The call `parseInt(digits)` for a text of decimal digits (exact below `2^53`). -/
def parseInt (digits : Text) : Nat :=
  digits.foldl (fun n c => 10 * n + (c.toNat - '0'.toNat)) 0

/-- The step pattern tried at the start of a text: the step that `parseWorkflowSteps` pushes
and the length of the match. -/
def matchStep (s : Text) : Option (WorkflowStep × Nat) :=
  match matchStepHeading s with
  | none => none
  | some (digits, afterColon) =>
      match matchStepName afterColon with
      | none => none
      | some (k, name) =>
          let content := takeStepContent (afterColon.drop (k + name.length))
          some ({ number := parseInt digits
                  name := trim name
                  content := trim content
                  critical := true },
            stepHeading.length + digits.length + 1 + k + name.length + content.length)

/-- The loop `while ((match = stepPattern.exec(content)) !== null)`; `skip` is the number of
characters still covered by the last match. -/
def parseWorkflowStepsFrom : Nat → Text → List WorkflowStep
  | _, [] => []
  | skip + 1, _ :: rest => parseWorkflowStepsFrom skip rest
  | 0, c :: rest =>
      match matchStep (c :: rest) with
      | some (step, length) => step :: parseWorkflowStepsFrom (length - 1) rest
      | none => parseWorkflowStepsFrom 0 rest

/-- Source: `parseWorkflowSteps(content)`. -/
def parseWorkflowSteps (content : Text) : List WorkflowStep :=
  parseWorkflowStepsFrom 0 content

/-! ## Command execution (`CommandBridge.executeCommand`) -/

/-- The object that `loadCommandInstruction` returns. -/
structure Instruction where
  name : Text
  content : Text
  metadata : JSValue
  path : Path

/-- The object that `validateCommand` returns. -/
inductive Validation where
  | valid
  | invalid (reason : Text)

/-- The path `path.join(projectRoot, instructionsRoot, 'core', commandName + '.md')` of
`validateCommand` and `loadCommandInstruction`; an error is the message of the `TypeError`
of `path.join` for an instructions root that is not a string. -/
def instructionPath (P : Platform) (b : CommandBridge) (commandName : Text) :
    Except Text Path :=
  match b.config.instructions.or (.str ".agaile-os/instructions".toList) with
  | .str instructionsRoot =>
      .ok (P.path.join [b.projectRoot, instructionsRoot, "core".toList,
        commandName ++ ".md".toList])
  | v => .error (P.pathArgumentError v)

/-- Source: `hasNodeModules()`. -/
def hasNodeModules (P : Platform) (fs : FileSystem) (b : CommandBridge) : Bool :=
  fs.existsSync (P.path.join [b.projectRoot, "node_modules".toList])

/-- Source: `hasDatabase()`. -/
def hasDatabase (P : Platform) (fs : FileSystem) (b : CommandBridge) : Bool :=
  fs.existsSync (P.path.join [b.projectRoot, "prisma".toList, "schema.prisma".toList])

/-- Source: `hasDeploymentConfig()`. -/
def hasDeploymentConfig (P : Platform) (fs : FileSystem) (b : CommandBridge) : Bool :=
  fs.existsSync (P.path.join [b.projectRoot, "vercel.json".toList]) ||
    fs.existsSync (P.path.join [b.projectRoot, ".vercel".toList])

/-- Source: `checkDependencies(commandName)`: the list `missing` (`satisfied` is its emptiness). -/
def checkDependencies (P : Platform) (fs : FileSystem) (b : CommandBridge)
    (commandName : Text) : List Text :=
  let missing : List Text :=
    if !hasNodeModules P fs b then ["node_modules (run package install)".toList] else []
  if commandName = "db-migrate".toList then
    if !hasDatabase P fs b then missing ++ ["Database connection".toList] else missing
  else if commandName = "verify-deployment".toList then
    if !hasDeploymentConfig P fs b then missing ++ ["Deployment configuration".toList]
    else missing
  else missing

/-- Source: `validateCommand(commandName, context)`; an error is an exception of the call. -/
def validateCommand (P : Platform) (fs : FileSystem) (b : CommandBridge)
    (commandName : Text) : Except Text Validation :=
  match instructionPath P b commandName with
  | .error message => .error message
  | .ok path =>
      if !fs.existsSync path then
        .ok (.invalid ("Instruction file not found: ".toList ++ path))
      else if !fs.existsSync (P.path.join [b.projectRoot, "package.json".toList]) then
        .ok (.invalid "Not a valid project directory".toList)
      else
        let missing := checkDependencies P fs b commandName
        if !missing.isEmpty then
          .ok (.invalid ("Dependencies not satisfied: ".toList ++
            List.intercalate ", ".toList missing))
        else .ok .valid

/-- Source: `loadCommandInstruction(commandName)`.  The outer `none` is a call without a result
(include resolution always gives one, so it does not arise), an error is an exception of the
call, the inner `none` is the result `null`.  `depth` is the room of the call stack for
nested includes. -/
def loadCommandInstruction (P : Platform) (fs : FileSystem) (b : CommandBridge) (depth : Nat)
    (commandName : Text) : Option (Except Text (Option Instruction)) :=
  match instructionPath P b commandName with
  | .error message => some (.error message)
  | .ok path =>
      match fs.readFileSync path with
      | none => some (.ok none)
      | some raw =>
          match processIncludes P.path fs depth raw (P.path.dirname path) with
          | none => none
          | some content =>
              some (.ok (some
                { name := commandName
                  content := content
                  metadata := extractMetadata P.yamlLoad content
                  path := path }))

/-- Source: `getCurrentHILPhase(featureName)`; an error is the exception of `new RegExp`. -/
def getCurrentHILPhase (P : Platform) (b : CommandBridge) (featureName : JSValue) :
    Except Text Text :=
  if !featureName.toBoolean || b.masterTracking.isEmpty then .ok "development".toList
  else
    match P.phaseSearch featureName.toStr b.masterTracking with
    | .error message => .error message
    | .ok (some group) => .ok (trim group)
    | .ok none => .ok "development".toList

/-- The object that `checkHILWorkflowStatus` returns. -/
structure HilStatus where
  currentPhase : Text
  requiresApproval : Bool
  approvalLevel : JSValue
  commandPhase : JSValue

/-- Source: `checkHILWorkflowStatus(commandName, context)`, given `context.featureName`. -/
def checkHILWorkflowStatus (P : Platform) (b : CommandBridge) (commandName : Text)
    (featureName : JSValue) : Except Text HilStatus :=
  match getCurrentHILPhase P b featureName with
  | .error message => .error message
  | .ok currentPhase =>
      let approvalLevel := getRequiredApprovalLevel P b.config commandName currentPhase
      .ok { currentPhase := currentPhase
            requiresApproval := !strictEqualsString "NONE".toList approvalLevel
            approvalLevel := approvalLevel
            commandPhase :=
              (sectionField b.config.commands commandName (·.phase)).or
                (.str "development".toList) }

/-- The object that `executeWorkflowStep` returns. -/
structure StepResult where
  stepName : Text
  executed : Bool
  parameters : JSValue
  timestamp : Text

/-- Source: `executeWorkflowStep(step, parameters, metadata)`, the step executor of the code: it
performs no work and cannot fail; `now` is the reading of the clock. -/
def executeWorkflowStep (step : WorkflowStep) (parameters : JSValue) (_metadata : JSValue)
    (now : Text) : Except Text StepResult :=
  .ok { stepName := step.name, executed := true, parameters := parameters, timestamp := now }

/-- An element of `results` in `executeWorkflow`. -/
inductive StepRecord where
  | completed (step : Text) (result : StepResult)
  | failed (step : Text) (error : Text)

/-- The field `success` of an element of `results`. -/
def StepRecord.success : StepRecord → Bool
  | .completed _ _ => true
  | .failed _ _ => false

/-- The field `step` of an element of `results`. -/
def StepRecord.step : StepRecord → Text
  | .completed step _ => step
  | .failed step _ => step

/-- The object that `executeWorkflow` returns. -/
structure WorkflowResult where
  command : Text
  totalSteps : Nat
  completedSteps : Nat
  failedSteps : Nat
  results : List StepRecord
  success : Bool
  timestamp : Text

/-- The loop of `executeWorkflow` from step `i` on, with the records pushed so far: the
records at the end of the loop and the message of the error thrown, if one is.  The step
executor is a function of the position and the step to a result or the message of a
failure. -/
def runWorkflowSteps (executor : Nat → WorkflowStep → Except Text StepResult) :
    Nat → List WorkflowStep → List StepRecord → List StepRecord × Option Text
  | _, [], results => (results, none)
  | i, step :: rest, results =>
      match executor i step with
      | .ok stepResult =>
          runWorkflowSteps executor (i + 1) rest (results ++ [.completed step.name stepResult])
      | .error message =>
          let results := results ++ [.failed step.name message]
          if step.critical != false then
            (results, some ("Critical step failed: ".toList ++ step.name ++ " - ".toList ++
              message))
          else runWorkflowSteps executor (i + 1) rest results

/-- Source: `executeWorkflow(commandName, instruction, parameters)` with a given step executor: the
records of the steps attempted, in order, and the result or the message of the error
thrown; `now` is the reading of the clock at the end. -/
def executeWorkflow (executor : Nat → WorkflowStep → Except Text StepResult)
    (commandName : Text) (instruction : Instruction) (now : Text) :
    List StepRecord × Except Text WorkflowResult :=
  let steps := parseWorkflowSteps instruction.content
  match runWorkflowSteps executor 0 steps [] with
  | (results, some message) => (results, .error message)
  | (results, none) =>
      (results, .ok
        { command := commandName
          totalSteps := steps.length
          completedSteps := (results.filter (·.success)).length
          failedSteps := (results.filter (fun r => !r.success)).length
          results := results
          success := results.all (·.success)
          timestamp := now })

/-- The text that `updateTracking` appends to the ledger text. -/
def trackingLogEntry (commandName sourceIde : Text) (result : WorkflowResult) (now : Text) :
    Text :=
  "\n<!-- Command Execution Log -->\n".toList ++
  "<!-- ".toList ++ now ++ ": ".toList ++ commandName ++ " executed via ".toList ++
    sourceIde ++ " -->\n".toList ++
  "<!-- Success: ".toList ++ (JSValue.bool result.success).toStr ++ ", Steps: ".toList ++
    (toString result.completedSteps).toList ++ "/".toList ++
    (toString result.totalSteps).toList ++ " -->\n".toList

/-- Source: `updateTracking(commandName, result, sourceIde)`: the file system after the call and the
calls of `fs.writeFileSync` made; an error is the exception of computing `trackingPath`
(outside the `try` of the function). -/
def updateTracking (P : Platform) (fs : FileSystem) (b : CommandBridge)
    (commandName : Text) (result : WorkflowResult) (sourceIde : Text) (now : Text) :
    Except Text (FileSystem × List (Path × Text)) :=
  match b.config.feature_tracking with
  | none => .error (P.nullishReadError "master_tracking".toList)
  | some tracked =>
      match tracked.master_tracking with
      | .str relative =>
          let trackingPath := P.path.resolve b.projectRoot relative
          let tracking := b.masterTracking ++ trackingLogEntry commandName sourceIde result now
          if fs.writable trackingPath then
            .ok (fs.write trackingPath tracking, [(trackingPath, tracking)])
          else .ok (fs, [(trackingPath, tracking)])
      | v => .error (P.pathArgumentError v)

/-- Source: `getErrorSuggestions(commandName, error)`, given `error.message`. -/
def getErrorSuggestions (message : Text) : List Text :=
  (if includes message "not found".toList then
    ["Check if AgAIle OS is properly installed".toList,
     "Run .agaile-os/setup/install.sh to reinstall".toList] else []) ++
  (if includes message "Dependencies".toList then
    ["Install project dependencies: pnpm install".toList,
     "Check database configuration".toList] else []) ++
  (if includes message "approval".toList then
    ["Request required approval from team lead".toList,
     "Check HIL workflow phase requirements".toList] else [])

/-- The argument `options` of `executeCommand` (`undefined` for a field that is not given). -/
structure Options where
  sourceIde : Option Text
  featureName : JSValue
  parameters : JSValue
  approval : JSValue

/-- The value of `approval` after the default `'auto'` of the destructuring. -/
def Options.approvalMode (options : Options) : JSValue :=
  match options.approval with
  | .undefined => .str "auto".toList
  | v => v

/-- The value of `sourceIde` after the default `'unknown'` of the destructuring. -/
def Options.source (options : Options) : Text :=
  options.sourceIde.getD "unknown".toList

/-- The value of `parameters` after the default of the destructuring. -/
def Options.params (options : Options) : JSValue :=
  match options.parameters with
  | .undefined => .obj []
  | v => v

/-- The readings of the clock during one call of `executeCommand`: in the step executor for
the step at each position, at the end of `executeWorkflow`, in `updateTracking` and in
`logCommandExecution`. -/
structure Clock where
  step : Nat → Text
  workflowEnd : Text
  tracking : Text
  log : Text

/-- The object that `executeCommand` returns: one constructor for each of its three
`return` statements. -/
inductive Outcome where
  /-- The object with `success: false, requiresApproval: true, hilPhase, approvalLevel,
  message`. -/
  | blocked (hilPhase : Text) (approvalLevel : JSValue) (message : Text)
  /-- The object with `success: true, result, hilPhase, nextPhase, message,
  trackingUpdated: true`. -/
  | executed (result : WorkflowResult) (hilPhase : Text) (nextPhase : JSValue) (message : Text)
  /-- The object with `success: false, error, suggestions`. -/
  | failed (error : Text) (suggestions : List Text)

/-- The field `success` of the returned object. -/
def Outcome.success : Outcome → Bool
  | .blocked _ _ _ => false
  | .executed _ _ _ _ => true
  | .failed _ _ => false

/-- The field `requiresApproval` of the returned object is `true`. -/
def Outcome.requiresApproval : Outcome → Bool
  | .blocked _ _ _ => true
  | .executed _ _ _ _ => false
  | .failed _ _ => false

/-- The field `error` of the returned object, if it has one. -/
def Outcome.error : Outcome → Option Text
  | .blocked _ _ _ => none
  | .executed _ _ _ _ => none
  | .failed error _ => some error

/-- The field `approvalLevel` of the returned object, if it has one. -/
def Outcome.approvalLevel : Outcome → Option JSValue
  | .blocked _ level _ => some level
  | .executed _ _ _ _ => none
  | .failed _ _ => none

/-- The field `hilPhase` of the returned object, if it has one. -/
def Outcome.hilPhase : Outcome → Option Text
  | .blocked phase _ _ => some phase
  | .executed _ phase _ _ => some phase
  | .failed _ _ => none

/-- One call of `executeCommand`: the object returned, the instance state and the file system
after the call, the records of the workflow steps that were handed to the step executor and
the calls of `fs.writeFileSync` that were made. -/
structure Execution where
  outcome : Outcome
  bridge : CommandBridge
  fs : FileSystem
  attempted : List StepRecord
  writes : List (Path × Text)

/-- The `catch` block of `executeCommand` for an error with the given message. -/
def executionFailure (fs : FileSystem) (b : CommandBridge) (commandName : Text)
    (options : Options) (clock : Clock) (message : Text) (attempted : List StepRecord) :
    Execution :=
  { outcome := .failed message (getErrorSuggestions message)
    bridge :=
      { b with
        commandHistory :=
          logCommandExecution b.commandHistory commandName options.source
            { success := .bool false, error := .str message, duration := .undefined }
            clock.log }
    fs := fs
    attempted := attempted
    writes := [] }

/-- The statements of `executeCommand` after the approval gate: the workflow, the tracking
update, the log record and the object returned. -/
def executeApproved (P : Platform) (fs : FileSystem) (b : CommandBridge)
    (commandName : Text) (options : Options) (clock : Clock) (instruction : Instruction)
    (hilStatus : HilStatus) : Execution :=
  match executeWorkflow
      (fun i step => executeWorkflowStep step options.params instruction.metadata
        (clock.step i))
      commandName instruction clock.workflowEnd with
  | (attempted, .error message) =>
      executionFailure fs b commandName options clock message attempted
  | (attempted, .ok result) =>
      match updateTracking P fs b commandName result options.source clock.tracking with
      | .error message => executionFailure fs b commandName options clock message attempted
      | .ok (fs', writes) =>
          { outcome :=
              .executed result hilStatus.currentPhase
                (getNextHILPhase b.config hilStatus.currentPhase)
                ("Command ".toList ++ commandName ++ " executed successfully".toList)
            bridge :=
              { b with
                commandHistory :=
                  logCommandExecution b.commandHistory commandName options.source
                    { success := .bool result.success, error := .undefined,
                      duration := .undefined }
                    clock.log }
            fs := fs'
            attempted := attempted
            writes := writes }

/-- Source: `executeCommand(commandName, options)`.  `depth` bounds the include resolution of the
instruction; `none` is a call that does not return. -/
def executeCommand (P : Platform) (fs : FileSystem) (b : CommandBridge) (depth : Nat)
    (commandName : Text) (options : Options) (clock : Clock) : Option Execution :=
  match validateCommand P fs b commandName with
  | .error message => some (executionFailure fs b commandName options clock message [])
  | .ok (.invalid reason) =>
      some (executionFailure fs b commandName options clock
        ("Command validation failed: ".toList ++ reason) [])
  | .ok .valid =>
      match loadCommandInstruction P fs b depth commandName with
      | none => none
      | some (.error message) =>
          some (executionFailure fs b commandName options clock message [])
      | some (.ok none) =>
          some (executionFailure fs b commandName options clock
            ("Command instruction not found: ".toList ++ commandName) [])
      | some (.ok (some instruction)) =>
          match checkHILWorkflowStatus P b commandName options.featureName with
          | .error message =>
              some (executionFailure fs b commandName options clock message [])
          | .ok hilStatus =>
              if hilStatus.requiresApproval &&
                  strictEqualsString "auto".toList options.approvalMode then
                some
                  { outcome :=
                      .blocked hilStatus.currentPhase hilStatus.approvalLevel
                        ("Command ".toList ++ commandName ++ " requires ".toList ++
                          hilStatus.approvalLevel.toStr ++ " approval in ".toList ++
                          hilStatus.currentPhase ++ " phase".toList)
                    bridge := b
                    fs := fs
                    attempted := []
                    writes := [] }
              else some (executeApproved P fs b commandName options clock instruction hilStatus)

/-- A platform for examples: the simple path library, `NODE_ENV` as given, a YAML loader that
accepts nothing and a phase search that finds nothing. -/
def examplePlatform (nodeEnv : Option Text) : Platform :=
  { path := simplePath
    nodeEnv := nodeEnv
    yamlLoad := fun _ => none
    phaseSearch := fun _ _ => .ok none
    pathArgumentError := fun _ => "The path argument must be of type string".toList
    nullishReadError := fun name =>
      "Cannot read properties of undefined (reading '".toList ++ name ++ "')".toList }

/-- A configuration for examples: no section but the given overrides and phases. -/
def exampleConfig (operation_overrides : Option (List (Text × OperationOverride)))
    (environment_overrides : Option (List (Text × EnvironmentOverride)))
    (default_approval_level : JSValue) (phases : List JSValue) : Config :=
  { feature_tracking := none
    project := none
    instructions := .undefined
    operation_overrides := operation_overrides
    environment_overrides := environment_overrides
    default_approval_level := default_approval_level
    phases := phases
    commands := none }

/-- A bridge for examples: project root `/p`, an empty ledger text and an empty history. -/
def exampleBridge (config : Config) : CommandBridge :=
  { config := config
    projectRoot := "/p".toList
    masterTracking := []
    commandHistory := [] }

/-- A project for examples: the instruction `deploy` with one step, `package.json` and
`node_modules`. -/
def exampleProject : FileSystem :=
  filesOf
    [("/p/.agaile-os/instructions/core/deploy.md".toList, "### Step 1: Ship\nrun it\n".toList),
     ("/p/package.json".toList, "\x7b\x7d".toList),
     ("/p/node_modules".toList, [])]

/-- Options for examples: nothing given but the approval mode. -/
def exampleOptions (approval : JSValue) : Options :=
  { sourceIde := none, featureName := .undefined, parameters := .undefined,
    approval := approval }

/-- A clock for examples, which always reads the same time. -/
def exampleClock : Clock :=
  { step := fun _ => "T".toList, workflowEnd := "T".toList, tracking := "T".toList,
    log := "T".toList }

/-- A platform for examples whose regular expression engine rejects the pattern built from
the feature name `(`, an unterminated group, with the message of V8. -/
def rejectingPlatform : Platform :=
  { examplePlatform none with
    phaseSearch := fun featureName _ =>
      if featureName = "(".toList then
        .error ("Invalid regular expression: ".toList ++
          "/(:\\s*\\n(?:[^\\n]*\\n)*?\\s*phase:\\s*([^\\n]+)/i: Unterminated group".toList)
      else .ok none }

/-- The text holds a step heading `### Step N:` somewhere. -/
def hasStepHeading : Text → Bool
  | [] => false
  | c :: rest => (matchStepHeading (c :: rest)).isSome || hasStepHeading rest

/-- An instruction for examples with the given content. -/
def exampleInstruction (content : Text) : Instruction :=
  { name := "deploy".toList
    content := content
    metadata := .obj []
    path := "/p/.agaile-os/instructions/core/deploy.md".toList }

/-- A step executor for examples: the step at position 1 fails, every other step succeeds. -/
def secondStepFails (i : Nat) (step : WorkflowStep) : Except Text StepResult :=
  if i = 1 then .error "boom".toList
  else .ok { stepName := step.name, executed := true, parameters := .obj [],
             timestamp := "T".toList }

/-! ## Construction of a bridge and further examples -/

/-- The field `master_tracking` of a section that may be absent (`section?.master_tracking`). -/
def trackingField : Option TrackingSection → JSValue
  | none => .undefined
  | some tracked => tracked.master_tracking

/-- Source: `loadMasterTracking()`; an error is the exception of `path.resolve` for a ledger path
that is not a string. -/
def loadMasterTracking (P : Platform) (fs : FileSystem) (config : Config)
    (projectRoot : Path) : Except Text Text :=
  match ((trackingField config.feature_tracking).or (trackingField config.project)).or
      (.str ".agaile-os/MASTER_TRACKING.md".toList) with
  | .str masterTrackingPath =>
      let trackingPath := P.path.resolve projectRoot masterTrackingPath
      if fs.existsSync trackingPath then
        match fs.readFileSync trackingPath with
        | some text => .ok text
        | none => .ok []
      else .ok []
  | v => .error (P.pathArgumentError v)

/-- The constructor of `CommandBridge`, given the configuration that `loadConfig` returned and
the project root that `findProjectRoot` returned. -/
def newCommandBridge (P : Platform) (fs : FileSystem) (config : Config)
    (projectRoot : Path) : Except Text CommandBridge :=
  match loadMasterTracking P fs config projectRoot with
  | .error message => .error message
  | .ok masterTracking =>
      .ok { config := config
            projectRoot := projectRoot
            masterTracking := masterTracking
            commandHistory := [] }

/-- The field `suggestions` of the returned object, if it has one. -/
def Outcome.suggestions : Outcome → Option (List Text)
  | .blocked _ _ _ => none
  | .executed _ _ _ _ => none
  | .failed _ suggestions => some suggestions

/-- A configuration for examples: the ledger at `.agaile-os/MASTER_TRACKING.md` and the default
approval level `NONE`. -/
def trackedConfig : Config :=
  { feature_tracking := some ⟨.str ".agaile-os/MASTER_TRACKING.md".toList⟩
    project := none
    instructions := .undefined
    operation_overrides := none
    environment_overrides := none
    default_approval_level := .str "NONE".toList
    phases := []
    commands := none }

/-- The example project with a ledger file. -/
def trackedProject : FileSystem :=
  filesOf
    [("/p/.agaile-os/instructions/core/deploy.md".toList, "### Step 1: Ship\nrun it\n".toList),
     ("/p/package.json".toList, "\x7b\x7d".toList),
     ("/p/node_modules".toList, []),
     ("/p/.agaile-os/MASTER_TRACKING.md".toList, "# Ledger\n".toList)]

/-- A clock for examples, which always reads the given time. -/
def clockAt (now : Text) : Clock :=
  { step := fun _ => now, workflowEnd := now, tracking := now, log := now }

/-- A YAML loader for examples: like `js-yaml`, it yields `undefined` for the empty document
and an object for `name: foo`; it rejects every other text. -/
def exampleYaml (text : Text) : Option JSValue :=
  if text = [] then some .undefined
  else if text = "name: foo".toList then some (.obj [("name".toList, .str "foo".toList)])
  else none

/-! ## The command processor (`CommandProcessor`): variables and one command -/

/-- The functions of Node's `path` module that `CommandProcessor` calls. -/
structure ProcessorPath extends NodePath where
  /-- The call `path.basename(p, ext)` (`ext` empty for the call with one argument). -/
  basename : Path → Text → Text
  /-- The call `path.relative(from, to)`. -/
  relative : Path → Path → Path
  /-- The call `path.resolve(a, b, c)`. -/
  resolve3 : Path → Text → Text → Path

/-- An entry of the section `integrations`. -/
structure IdeConfig where
  /-- The field `enabled` (`undefined` when the entry has none). -/
  enabled : JSValue
  /-- The field `commands_directory` (`undefined` when the entry has none). -/
  commands_directory : JSValue

/-- An entry of `command_generation.mappings`. -/
structure TemplateMapping where
  /-- The field `template` (`undefined` when the entry has none). -/
  template : JSValue

/-- The configuration document as `CommandProcessor` reads it. -/
structure ProcessorConfig where
  /-- The value `project_types?.default`. -/
  project_type_default : JSValue
  /-- The entries `Object.entries(integrations || \x7b\x7d)`, in order. -/
  integrations : Option (List (Text × IdeConfig))
  /-- The section `command_generation?.mappings`. -/
  mappings : Option (List (Text × TemplateMapping))

/-- The instance state of a `CommandProcessor`: the directory of the configuration file
(`path.dirname(this.configPath)`), the configuration and the project root. -/
structure CommandProcessor where
  configDir : Path
  config : ProcessorConfig
  projectRoot : Path

/-- The expression `v?.key` for a key that no prototype defines: the own property of an
object, `undefined` for every other value. -/
def optField (v : JSValue) (key : Text) : JSValue :=
  match v with
  | .obj fields => JSObject.get fields key
  | _ => .undefined

/-- The expression `metadata.key` for a key that no prototype defines; `none` is the
`TypeError` of reading a property of `undefined` or `null`. -/
def metaField (metadata : JSValue) (key : Text) : Option JSValue :=
  match metadata with
  | .undefined => none
  | .null => none
  | v => some (optField v key)

/-- The text `items.map(item => '- ' + item).join('\n')`. -/
def bulleted (items : List JSValue) : Text :=
  List.intercalate "\n".toList (items.map fun item => "- ".toList ++ item.toStr)

/-- The text `items.join(separator)`: `undefined` and `null` elements give the empty string. -/
def joinWith (separator : Text) (items : List JSValue) : Text :=
  List.intercalate separator (items.map fun item =>
    match item with
    | .undefined => []
    | .null => []
    | v => v.toStr)

/-- Source: `formatIntegrationPoints(integrations)`. -/
def formatIntegrationPoints (integrations : JSValue) : Text :=
  match integrations with
  | .arr (point :: points) => bulleted (point :: points)
  | _ => "- AgAIle OS HIL Workflow\n- MASTER_TRACKING.md updates".toList

/-- Source: `formatContextRequirements(requirements)`. -/
def formatContextRequirements (requirements : JSValue) : Text :=
  match requirements with
  | .arr (req :: reqs) => bulleted (req :: reqs)
  | _ => "- Project context from .agaile-os/\n- Current HIL phase status".toList

/-- Source: `formatExpectedOutcomes(outcomes)`. -/
def formatExpectedOutcomes (outcomes : JSValue) : Text :=
  match outcomes with
  | .arr (outcome :: rest) => bulleted (outcome :: rest)
  | _ =>
    "- Successful workflow execution\n- Updated project tracking\n- HIL phase progression".toList

/-- Source: `formatDependencies(dependencies)`. -/
def formatDependencies (dependencies : JSValue) : Text :=
  match dependencies with
  | .arr (dependency :: rest) => joinWith ", ".toList (dependency :: rest)
  | _ => "None".toList

/-- Source: `generateVariables(instructionPath, metadata)`: the object returned, its properties in
the order of the object literal; `none` is the `TypeError` for a metadata value that is
`undefined` or `null`. -/
def generateVariables (pp : ProcessorPath) (proc : CommandProcessor) (instructionPath : Path)
    (metadata : JSValue) : Option JSObject :=
  let commandName := pp.basename instructionPath ".md".toList
  let relativePath := pp.relative proc.projectRoot instructionPath
  match metadata with
  | .undefined => none
  | .null => none
  | metadata =>
    some
      [("command_name".toList, (optField metadata "name".toList).or (.str commandName)),
       ("command_description".toList,
          (optField metadata "description".toList).or
            (.str ("Execute ".toList ++ commandName ++ " workflow".toList))),
       ("instruction_path".toList, .str relativePath),
       ("source_instruction".toList, .str relativePath),
       ("model".toList, (optField metadata "model".toList).or (.str "opus".toList)),
       ("color".toList, (optField metadata "color".toList).or (.str "blue".toList)),
       ("agent_integration".toList,
          (optField metadata "agent".toList).or (.str "general-purpose".toList)),
       ("integration_points".toList,
          .str (formatIntegrationPoints
            ((optField metadata "integrations".toList).or (.arr [])))),
       ("context_requirements".toList,
          .str (formatContextRequirements
            ((optField metadata "context".toList).or (.arr [])))),
       ("expected_outcomes".toList,
          .str (formatExpectedOutcomes
            ((optField metadata "outcomes".toList).or (.arr [])))),
       ("trigger".toList,
          (optField metadata "trigger".toList).or (.str ('@' :: commandName))),
       ("project_type".toList,
          proc.config.project_type_default.or (.str "default".toList)),
       ("dependencies".toList,
          .str (formatDependencies
            ((optField metadata "dependencies".toList).or (.arr []))))]

/-- The object that `generateCommand` returns (`vars` is its property `variables`). -/
structure GeneratedCommand where
  content : Text
  metadata : JSValue
  vars : JSObject

/-- The object literal `defaultTemplateByIde` of `generateCommand`. -/
def defaultTemplateByIde : JSObject :=
  [("claude_code".toList, .str "claude_command.md".toList),
   ("cursor".toList, .str "cursor_command.md".toList)]

/-- Source: `generateCommand(instructionPath, targetIde)`.  The outer `none` is a call without a
result (include resolution always gives one, so it does not arise), the inner `none` is the
result `null`; every exception after the first check is caught by the function.  `depth` is
the room of the call stack for nested includes. -/
def generateCommand (pp : ProcessorPath) (yamlLoad : Text → Option JSValue)
    (proc : CommandProcessor) (depth : Nat) (fs : FileSystem) (instructionPath : Path)
    (targetIde : Text) : Option (Option GeneratedCommand) :=
  if !(sectionField proc.config.integrations targetIde (·.enabled)).toBoolean then some none
  else
    match fs.readFileSync instructionPath with
    | none => some none
    | some instructionContent =>
      match processIncludes pp.toNodePath fs depth instructionContent
          (pp.dirname instructionPath) with
      | none => none
      | some processedContent =>
        let metadata := extractMetadata yamlLoad processedContent
        let configuredTemplate := sectionField proc.config.mappings targetIde (·.template)
        match (configuredTemplate.or (defaultTemplateByIde.get targetIde)).or
            (.str "claude_command.md".toList) with
        | .str templateFile =>
          let templatePath :=
            pp.join [proc.configDir, "commands".toList, "templates".toList, templateFile]
          if !fs.existsSync templatePath then some none
          else
            match fs.readFileSync templatePath with
            | none => some none
            | some templateContent =>
              match generateVariables pp proc instructionPath metadata with
              | none => some none
              | some vars =>
                some (some
                  { content := applyTemplate templateContent vars
                    metadata := metadata
                    vars := vars })
        | _ => some none

/-- A path library for examples: `basename` is the last segment without the extension,
`relative` drops the root and the separator, `resolve3` puts `/` between the segments. -/
def simpleProcessorPath : ProcessorPath :=
  { simplePath with
    basename := fun p ext =>
      let last := (p.reverse.takeWhile (· != '/')).reverse
      if !ext.isEmpty && ext.isSuffixOf last then last.take (last.length - ext.length)
      else last
    relative := fun root p => if root.isPrefixOf p then p.drop (root.length + 1) else p
    resolve3 := fun a b c => a ++ '/' :: (b ++ '/' :: c) }

/-- A processor for examples: configuration directory `/p/.agaile-os`, project root `/p`. -/
def exampleProcessor (integrations : List (Text × IdeConfig)) : CommandProcessor :=
  { configDir := "/p/.agaile-os".toList
    config :=
      { project_type_default := .undefined
        integrations := some integrations
        mappings := none }
    projectRoot := "/p".toList }

/-! ## The command processor: the catalog (`generateAllCommands`) -/

/-- The file system with its directories, as `generateAllCommands` observes and changes it. -/
structure Disk where
  /-- The files. -/
  files : FileSystem
  /-- The call `fs.readdirSync(dir)`: the entries, or `none` when the call throws. -/
  readdirSync : Path → Option (List Text)
  /-- The call `fs.statSync(p).isDirectory()`, or `none` when `statSync` throws. -/
  isDirectory : Path → Option Bool
  /-- Whether `fs.mkdirSync(p, \x7b recursive: true \x7d)` succeeds at `p`. -/
  creatable : Path → Bool

/-- A directory listing with an entry added, if it is not there yet (at the end: the order
of a listing is the platform's). -/
def addEntry (entries : List Text) (name : Text) : List Text :=
  if name ∈ entries then entries else entries ++ [name]

/-- The disk after a successful `fs.writeFileSync(p, data)`: the file exists with the data,
it is not a directory and it is listed in its directory. -/
def Disk.writeFile (pp : ProcessorPath) (d : Disk) (p : Path) (data : Text) : Disk :=
  { files := d.files.write p data
    readdirSync := fun q =>
      if q = pp.dirname p then some (addEntry ((d.readdirSync q).getD []) (pp.basename p []))
      else d.readdirSync q
    isDirectory := fun q => if q = p then some false else d.isDirectory q
    creatable := d.creatable }

/-- The disk after the directory `p` is made: it exists, it is a directory with a listing
(the one it had, if any) and it is listed in its parent. -/
def Disk.mkdir (pp : ProcessorPath) (d : Disk) (p : Path) : Disk :=
  { files :=
      { existsSync := fun q => if q = p then true else d.files.existsSync q
        readFileSync := d.files.readFileSync
        writable := d.files.writable }
    readdirSync := fun q =>
      if q = p then some ((d.readdirSync p).getD [])
      else if q = pp.dirname p then
        some (addEntry ((d.readdirSync q).getD []) (pp.basename p []))
      else d.readdirSync q
    isDirectory := fun q => if q = p then some true else d.isDirectory q
    creatable := d.creatable }

/-- The disk after a successful `fs.mkdirSync(p, \x7b recursive: true \x7d)` for a path that
does not exist: the missing ancestors are made first, up to the given number of levels. -/
def Disk.mkdirp (pp : ProcessorPath) : Nat → Disk → Path → Disk
  | 0, d, p => d.mkdir pp p
  | levels + 1, d, p =>
      if d.files.existsSync (pp.dirname p) then d.mkdir pp p
      else (Disk.mkdirp pp levels d (pp.dirname p)).mkdir pp p

/-- Source: `ensureDirectoryExists(dirPath)`; `none` is the exception of `mkdirSync`. -/
def ensureDirectoryExists (pp : ProcessorPath) (d : Disk) (dirPath : Path) : Option Disk :=
  if !d.files.existsSync dirPath then
    if d.creatable dirPath then some (Disk.mkdirp pp dirPath.length d dirPath) else none
  else some d

/-- The loop over the entries of `currentDir` in `traverse`; `traverseDir` is the recursive
call.  The outer `none` is a call that does not return, the inner `none` an exception. -/
def traverseEntries (np : NodePath) (d : Disk)
    (traverseDir : Path → Option (Option (List Path))) (currentDir : Path) :
    List Text → Option (Option (List Path))
  | [] => some (some [])
  | entry :: rest =>
      let fullPath := np.join [currentDir, entry]
      match d.isDirectory fullPath with
      | none => some none
      | some true =>
          match traverseDir fullPath with
          | none => none
          | some none => some none
          | some (some found) =>
              match traverseEntries np d traverseDir currentDir rest with
              | none => none
              | some none => some none
              | some (some more) => some (some (found ++ more))
      | some false =>
          match traverseEntries np d traverseDir currentDir rest with
          | none => none
          | some none => some none
          | some (some more) =>
              some (some (if ".md".toList.isSuffixOf entry then fullPath :: more else more))

/-- The function `traverse(currentDir)` of `findInstructionFiles`: the files pushed, in
order.  The first argument bounds the depth of the directories that are entered. -/
def traverse (np : NodePath) (d : Disk) : Nat → Path → Option (Option (List Path))
  | 0, _ => none
  | depth + 1, currentDir =>
      match d.readdirSync currentDir with
      | none => some none
      | some entries => traverseEntries np d (traverse np d depth) currentDir entries

/-- Source: `findInstructionFiles(dir)`. -/
def findInstructionFiles (np : NodePath) (d : Disk) (depth : Nat) (dir : Path) :
    Option (Option (List Path)) :=
  traverse np d depth dir

/-- The statements of `generateAllCommands` that resolve `targetPath` for an integration;
`none` is the `TypeError` of `path.resolve` for a configured directory that is not a
string. -/
def targetPath (pp : ProcessorPath) (proc : CommandProcessor) (ideKey : Text)
    (ideConfig : IdeConfig) : Option Path :=
  if ideKey = "claude_code".toList then
    match ideConfig.commands_directory.or (.str ".claude/commands".toList) with
    | .str configured => some (pp.resolve proc.projectRoot configured)
    | _ => none
  else if ideKey = "cursor".toList then
    match ideConfig.commands_directory.or (.str ".cursor/commands".toList) with
    | .str configured => some (pp.resolve proc.projectRoot configured)
    | _ => none
  else some (pp.resolve3 proc.projectRoot ".agaile-os/generated".toList ideKey)

/-- The path `path.join(targetPath, commandName + '.md')` of the output file of an
instruction. -/
def outputPath (pp : ProcessorPath) (target : Path) (instructionFile : Path) : Path :=
  pp.join [target, pp.basename instructionFile ".md".toList ++ ".md".toList]

/-- One call of `generateAllCommands`, or a part of it: the disk after it, the calls of
`fs.writeFileSync` that succeeded, in order, and whether it ran to its end (`false` when an
exception escaped). -/
structure Generation where
  disk : Disk
  writes : List (Path × Text)
  completed : Bool

/-- The loop over the instruction files for one integration.  `none` is a run that does not
return. -/
def generateForIde (pp : ProcessorPath) (yamlLoad : Text → Option JSValue)
    (proc : CommandProcessor) (depth : Nat) (target : Path) (ideKey : Text) :
    List Path → Disk → List (Path × Text) → Option Generation
  | [], d, writes => some { disk := d, writes := writes, completed := true }
  | instructionFile :: rest, d, writes =>
      match generateCommand pp yamlLoad proc depth d.files instructionFile ideKey with
      | none => none
      | some none => generateForIde pp yamlLoad proc depth target ideKey rest d writes
      | some (some command) =>
          if d.files.writable (outputPath pp target instructionFile) then
            generateForIde pp yamlLoad proc depth target ideKey rest
              (d.writeFile pp (outputPath pp target instructionFile) command.content)
              (writes ++ [(outputPath pp target instructionFile, command.content)])
          else some { disk := d, writes := writes, completed := false }

/-- The loop over the integrations. -/
def generateForIdes (pp : ProcessorPath) (yamlLoad : Text → Option JSValue)
    (proc : CommandProcessor) (depth : Nat) (instructionFiles : List Path) :
    List (Text × IdeConfig) → Disk → List (Path × Text) → Option Generation
  | [], d, writes => some { disk := d, writes := writes, completed := true }
  | (ideKey, ideConfig) :: rest, d, writes =>
      if !ideConfig.enabled.toBoolean then
        generateForIdes pp yamlLoad proc depth instructionFiles rest d writes
      else
        match targetPath pp proc ideKey ideConfig with
        | none => some { disk := d, writes := writes, completed := false }
        | some target =>
            match ensureDirectoryExists pp d target with
            | none => some { disk := d, writes := writes, completed := false }
            | some ensured =>
                match generateForIde pp yamlLoad proc depth target ideKey instructionFiles
                    ensured writes with
                | none => none
                | some generation =>
                    if generation.completed then
                      generateForIdes pp yamlLoad proc depth instructionFiles rest
                        generation.disk generation.writes
                    else some generation

/-- The path `instructionsPath` of `generateAllCommands`; `none` is the `TypeError` of
`path.resolve` for a configured path that is not a string. -/
def instructionsPath (pp : ProcessorPath) (proc : CommandProcessor) : Option Path :=
  match (optField proc.config.project_type_default "instructions".toList).or
      (.str ".agaile-os/instructions".toList) with
  | .str configured => some (pp.resolve proc.projectRoot configured)
  | _ => none

/-- Source: `generateAllCommands()`.  `depth` bounds the include resolution and the directory
traversal; `none` is a run that does not return. -/
def generateAllCommands (pp : ProcessorPath) (yamlLoad : Text → Option JSValue)
    (proc : CommandProcessor) (depth : Nat) (d : Disk) : Option Generation :=
  match instructionsPath pp proc with
  | none => some { disk := d, writes := [], completed := false }
  | some instructions =>
      if !d.files.existsSync instructions then
        some { disk := d, writes := [], completed := true }
      else
        match findInstructionFiles pp.toNodePath d depth instructions with
        | none => none
        | some none => some { disk := d, writes := [], completed := false }
        | some (some instructionFiles) =>
            generateForIdes pp yamlLoad proc depth instructionFiles
              (proc.config.integrations.getD []) d []

/-- A disk for examples, given by its files (path and contents) and its directories (path
and entries); everything can be written and created. -/
def diskOf (files : List (Path × Text)) (dirs : List (Path × List Text)) : Disk :=
  { files :=
      { existsSync := fun p => (files.lookup p).isSome || (dirs.lookup p).isSome
        readFileSync := fun p => files.lookup p
        writable := fun _ => true }
    readdirSync := fun p => dirs.lookup p
    isDirectory := fun p =>
      if (dirs.lookup p).isSome then some true
      else if (files.lookup p).isSome then some false
      else none
    creatable := fun _ => true }

/-- An enabled integration with the configured commands directory `custom/commands`. -/
def customIntegration : IdeConfig :=
  { enabled := .bool true, commands_directory := .str "custom/commands".toList }

/-- An enabled integration without a configured commands directory. -/
def plainIntegration : IdeConfig :=
  { enabled := .bool true, commands_directory := .undefined }

/-- A project for examples: the instruction `a.md` in the default instructions directory and
the default template. -/
def catalogDisk : Disk :=
  diskOf
    [("/p/.agaile-os/instructions/a.md".toList, "---\nname: foo\n---\n# A\n".toList),
     ("/p/.agaile-os/commands/templates/claude_command.md".toList,
        "Run $\x7bcommand_name\x7d\n".toList)]
    [("/p/.agaile-os/instructions".toList, ["a.md".toList])]

/-! ## Properties of disks used to state and prove the idempotence of generation -/

/-- The data that the last of a list of writes left at a path, if the list writes there. -/
def lastWrite : List (Path × Text) → Path → Option Text
  | [], _ => none
  | (p, data) :: rest, q =>
      match lastWrite rest q with
      | some later => some later
      | none => if q = p then some data else none

/-- The disk after a list of successful calls of `fs.writeFileSync`, in order. -/
def applyWrites (pp : ProcessorPath) (writes : List (Path × Text)) (d : Disk) : Disk :=
  writes.foldl (fun s w => s.writeFile pp w.1 w.2) d

/-- The disk `after` is the disk `before` with directories made: the contents of files and
what can be written or made are the same, what existed still exists and is a directory or not
as before, and every entry of a listing is still listed. -/
def Grows (before after : Disk) : Prop :=
  after.files.readFileSync = before.files.readFileSync ∧
  after.files.writable = before.files.writable ∧
  after.creatable = before.creatable ∧
  (∀ q, before.files.existsSync q = true → after.files.existsSync q = true) ∧
  (∀ q, before.files.existsSync q = true → after.isDirectory q = before.isDirectory q) ∧
  (∀ q entries name, before.readdirSync q = some entries → name ∈ entries →
    ∃ entries2, after.readdirSync q = some entries2 ∧ name ∈ entries2)

/-- The disk holds the result of a list of writes: every path written exists, is a file and
is listed in its directory, and holds the data of the last write to it. -/
def Settled (pp : ProcessorPath) (d : Disk) (writes : List (Path × Text)) : Prop :=
  (∀ w ∈ writes, d.files.existsSync w.1 = true ∧ d.isDirectory w.1 = some false ∧
    ∃ entries, d.readdirSync (pp.dirname w.1) = some entries ∧ pp.basename w.1 [] ∈ entries) ∧
  (∀ q data, lastWrite writes q = some data → d.files.readFileSync q = some data)

/-- The directory `target` is the target directory of an enabled integration. -/
def IsTarget (pp : ProcessorPath) (proc : CommandProcessor) (target : Path) : Prop :=
  ∃ ide ∈ proc.config.integrations.getD [],
    ide.2.enabled.toBoolean = true ∧ targetPath pp proc ide.1 ide.2 = some target

/-- The instruction files that generation finds on the disk `d`. -/
def IsInstruction (pp : ProcessorPath) (proc : CommandProcessor) (depth : Nat) (d : Disk)
    (file : Path) : Prop :=
  ∃ instructions found, instructionsPath pp proc = some instructions ∧
    findInstructionFiles pp.toNodePath d depth instructions = some (some found) ∧
    file ∈ found

/-- Generation reads the same from the disk `d2` as from the disk `d`: the instructions
directory exists on both or on neither, the same instruction files are found, and for every
integration the same command is generated from each instruction file found. -/
def SameInputs (pp : ProcessorPath) (yamlLoad : Text → Option JSValue)
    (proc : CommandProcessor) (depth : Nat) (d d2 : Disk) : Prop :=
  (∀ instructions, instructionsPath pp proc = some instructions →
    d2.files.existsSync instructions = d.files.existsSync instructions ∧
    findInstructionFiles pp.toNodePath d2 depth instructions =
      findInstructionFiles pp.toNodePath d depth instructions) ∧
  (∀ file, IsInstruction pp proc depth d file →
    ∀ ide ∈ proc.config.integrations.getD [],
      generateCommand pp yamlLoad proc depth d2.files file ide.1 =
        generateCommand pp yamlLoad proc depth d.files file ide.1)

/-- The outputs of generation are not among its inputs, on the disk `d`: the property `I` of
disks holds of `d`, it is kept when generation makes the target directory of an enabled
integration and when it writes the output file of an instruction file, whatever the data, and
generation reads the same from every disk with the property as from `d`. -/
structure StableInputs (pp : ProcessorPath) (yamlLoad : Text → Option JSValue)
    (proc : CommandProcessor) (depth : Nat) (d : Disk) (I : Disk → Prop) : Prop where
  initial : I d
  same : ∀ d2, I d2 → SameInputs pp yamlLoad proc depth d d2
  mkdir : ∀ d2 target d3, I d2 → IsTarget pp proc target →
    ensureDirectoryExists pp d2 target = some d3 → I d3
  write : ∀ d2 target file data, I d2 → IsTarget pp proc target →
    IsInstruction pp proc depth d file →
    I (d2.writeFile pp (outputPath pp target file) data)

/-- A project for examples: the project of `catalogDisk` with the directory
`/p/.claude/commands` made. -/
def preparedDisk : Disk :=
  diskOf
    [("/p/.agaile-os/instructions/a.md".toList, "---\nname: foo\n---\n# A\n".toList),
     ("/p/.agaile-os/commands/templates/claude_command.md".toList,
        "Run $\x7bcommand_name\x7d\n".toList)]
    [("/p/.agaile-os/instructions".toList, ["a.md".toList]),
     ("/p/.claude/commands".toList, [])]

/-- The inputs of generation on `preparedDisk` and its target directory are in place. -/
def preparedInputs (d : Disk) : Prop :=
  d.files.existsSync "/p/.agaile-os/instructions".toList = true ∧
  d.readdirSync "/p/.agaile-os/instructions".toList = some ["a.md".toList] ∧
  d.isDirectory "/p/.agaile-os/instructions/a.md".toList = some false ∧
  d.files.readFileSync "/p/.agaile-os/instructions/a.md".toList =
    some "---\nname: foo\n---\n# A\n".toList ∧
  d.files.existsSync "/p/.agaile-os/commands/templates/claude_command.md".toList = true ∧
  d.files.readFileSync "/p/.agaile-os/commands/templates/claude_command.md".toList =
    some "Run $\x7bcommand_name\x7d\n".toList ∧
  d.files.existsSync "/p/.claude/commands".toList = true

/-- An enabled integration whose configured commands directory is the default instructions
directory. -/
def overlapIntegration : IdeConfig :=
  { enabled := .bool true, commands_directory := .str ".agaile-os/instructions".toList }

/-! # Theorems -/

/-! ### Lemmas on the template scan -/

theorem matchName_token (n w : Text) (hne : n ≠ []) (hn : '}' ∉ n) :
    matchName (n ++ '}' :: w) = some n := by
  induction n with
  | nil => exact absurd rfl hne
  | cons c n ih =>
    have hc : c ≠ '}' := fun h => hn (by simp [h])
    have hn2 : '}' ∉ n := fun h => hn (by simp [h])
    cases n with
    | nil => simp [matchName, hc]
    | cons d n =>
      have hd : d ≠ '}' := fun h => hn2 (by simp [h])
      have := ih (by simp) hn2
      simp only [List.cons_append] at this ⊢
      simp [matchName, hc, hd, this]

theorem matchName_eq_some {t n : Text} (h : matchName t = some n) :
    ∃ w, t = n ++ '}' :: w ∧ n ≠ [] ∧ '}' ∉ n := by
  induction t generalizing n with
  | nil => simp [matchName] at h
  | cons c t ih =>
    cases t with
    | nil => simp [matchName] at h
    | cons d t =>
      simp only [matchName] at h
      by_cases hc : c = '}'
      · simp [hc] at h
      · simp only [hc, if_false] at h
        by_cases hd : d = '}'
        · simp only [hd, if_true, Option.some.injEq] at h
          subst h
          exact ⟨t, by simp [hd], by simp, by simpa using fun h => hc h.symm⟩
        · simp only [hd, if_false] at h
          cases hm : matchName (d :: t) with
          | none => simp [hm] at h
          | some m =>
            simp only [hm, Option.map_some', Option.some.injEq] at h
            subst h
            obtain ⟨w, hw, -, hm2⟩ := ih hm
            refine ⟨w, by simp [hw], by simp, ?_⟩
            simp only [List.mem_cons, not_or]
            exact ⟨fun h => hc h.symm, hm2⟩

theorem applyTemplateFrom_skip (vars : JSObject) (xs ys : Text) :
    applyTemplateFrom vars xs.length (xs ++ ys) = applyTemplateFrom vars 0 ys := by
  induction xs with
  | nil => simp
  | cons x xs ih => simpa [applyTemplateFrom] using ih

theorem matchTemplateToken_eq_some {t n : Text} (h : matchTemplateToken t = some n) :
    ∃ w, t = templateToken n ++ w ∧ n ≠ [] ∧ '}' ∉ n := by
  unfold matchTemplateToken at h
  split at h
  · obtain ⟨w, hw, h1, h2⟩ := matchName_eq_some h
    exact ⟨w, by simp [templateToken, hw], h1, h2⟩
  · simp at h

theorem matchTemplateToken_token (n w : Text) (hne : n ≠ []) (hn : '}' ∉ n) :
    matchTemplateToken (templateToken n ++ w) = some n := by
  simpa [templateToken, matchTemplateToken] using matchName_token n w hne hn

/-- The scan at the start of a token: the replacement, then the scan of what follows. -/
theorem applyTemplateFrom_token (vars : JSObject) (n w : Text) (hne : n ≠ []) (hn : '}' ∉ n) :
    applyTemplateFrom vars 0 (templateToken n ++ w) =
      templateReplacement vars n ++ applyTemplateFrom vars 0 w := by
  have hm := matchTemplateToken_token n w hne hn
  have hs := applyTemplateFrom_skip vars ('{' :: (n ++ ['}'])) w
  simp only [templateToken, List.cons_append, List.append_assoc, List.singleton_append,
    List.length_cons, List.length_append, List.length_singleton, List.length_nil] at hm hs ⊢
  rw [applyTemplateFrom, hm]
  simp only
  rw [← hs]

theorem hasOpenToken_tail {c : Char} {r : Text} (h : hasOpenToken (c :: r) = false) :
    hasOpenToken r = false := by
  simp only [hasOpenToken, Bool.or_eq_false_iff] at h
  exact h.2

theorem hasOpenToken_suffix (xs : Text) {ys : Text} (h : hasOpenToken (xs ++ ys) = false) :
    hasOpenToken ys = false := by
  induction xs with
  | nil => simpa using h
  | cons x xs ih => exact ih (hasOpenToken_tail h)

theorem matchName_append (w tail : Text) (h : '}' ∈ w) :
    matchName (w ++ tail) = matchName w := by
  induction w with
  | nil => simp at h
  | cons d w ih =>
    cases w with
    | nil =>
      have hd : d = '}' := by simpa using (List.mem_singleton.1 h).symm
      subst hd
      cases tail <;> simp [matchName]
    | cons e w =>
      by_cases hd : d = '}'
      · simp [matchName, hd]
      · have he : '}' ∈ e :: w := by
          rcases List.mem_cons.1 h with h | h
          · exact absurd h.symm hd
          · exact h
        have := ih he
        simp only [List.cons_append] at this ⊢
        simp [matchName, hd, this]

/-- A prefix in which every `${` is closed does not take part in a match with the text
that follows it, unless its last `$` meets a following `\x7b`. -/
theorem matchTemplateToken_append {c : Char} {r tail : Text}
    (hclosed : hasOpenToken (c :: r) = false) (htail : ∀ t, tail ≠ '{' :: t) :
    matchTemplateToken (c :: r ++ tail) = matchTemplateToken (c :: r) := by
  by_cases hc : c = '$'
  · subst hc
    cases r with
    | nil =>
      cases tail with
      | nil => rfl
      | cons e tail =>
        have : e ≠ '{' := fun h => htail tail (by rw [h])
        simp only [List.cons_append, List.nil_append]
        unfold matchTemplateToken
        split
        · rename_i h; simp at h; exact absurd h.1 this
        · split
          · rename_i h; simp at h
          · rfl
    | cons e r =>
      by_cases he : e = '{'
      · subst he
        have hw : '}' ∈ r := by
          simp only [hasOpenToken, Bool.or_eq_false_iff] at hclosed
          simpa using hclosed.1
        simpa [matchTemplateToken] using matchName_append r tail hw
      · unfold matchTemplateToken
        split
        · rename_i h; simp at h; exact absurd h.1 he
        · split
          · rename_i h; simp at h; exact absurd h.1 he
          · rfl
  · unfold matchTemplateToken
    split
    · rename_i h; simp at h; exact absurd h.1 hc
    · split
      · rename_i h; simp at h; exact absurd h.1 hc
      · rfl

/-- The scan splits after a prefix in which every `${` is closed. -/
theorem applyTemplateFrom_append (vars : JSObject) (tail : Text)
    (htail : ∀ t, tail ≠ '{' :: t) :
    ∀ (k : Nat) (pre : Text), pre.length = k → hasOpenToken pre = false →
      applyTemplateFrom vars 0 (pre ++ tail) =
        applyTemplateFrom vars 0 pre ++ applyTemplateFrom vars 0 tail := by
  intro k
  induction k using Nat.strong_induction_on with
  | _ k ih =>
    intro pre hlen hclosed
    cases pre with
    | nil => simp [applyTemplateFrom]
    | cons c r =>
      have hm := @matchTemplateToken_append c r tail hclosed htail
      simp only [List.cons_append] at hm ⊢
      rw [applyTemplateFrom, applyTemplateFrom, hm]
      cases hmatch : matchTemplateToken (c :: r) with
      | none =>
        simp only [List.cons_append, List.cons.injEq, true_and]
        exact ih r.length (by simp at hlen; omega) r rfl (hasOpenToken_tail hclosed)
      | some n =>
        obtain ⟨w, hw, -, -⟩ := matchTemplateToken_eq_some hmatch
        simp only [templateToken, List.cons_append, List.cons.injEq, true_and] at hw
        have hr : r = ('{' :: (n ++ ['}'])) ++ w := by simp [hw.2]
        have hlenr : ('{' :: (n ++ ['}'])).length = n.length + 2 := by simp
        simp only [List.append_assoc]
        have h1 := applyTemplateFrom_skip vars ('{' :: (n ++ ['}'])) (w ++ tail)
        have h2 := applyTemplateFrom_skip vars ('{' :: (n ++ ['}'])) w
        rw [hlenr] at h1 h2
        rw [hr, List.append_assoc, h1, h2]
        have hcw : hasOpenToken w = false := by
          have : c :: r = (c :: '{' :: (n ++ ['}'])) ++ w := by simp [hr]
          rw [this] at hclosed
          exact hasOpenToken_suffix _ hclosed
        rw [ih w.length (by simp [hr] at hlen; omega) w rfl hcw]

/-- A text in which the template pattern matches nowhere is left as it is. -/
theorem applyTemplateFrom_noToken (vars : JSObject) (text : Text)
    (h : hasTemplateToken text = false) : applyTemplateFrom vars 0 text = text := by
  induction text with
  | nil => rfl
  | cons c r ih =>
    simp only [hasTemplateToken, Bool.or_eq_false_iff] at h
    have hnone : matchTemplateToken (c :: r) = none := by
      cases hm : matchTemplateToken (c :: r) with
      | none => rfl
      | some n => simp [hm] at h
    rw [applyTemplateFrom, hnone]
    simp [ih h.2]

/-! ## C1, C2: template substitution -/

/-- C1 (as amended): for every variable map, `applyTemplate` replaces a `${name}` token whose
name is a key of the map holding a truthy value by the string coercion of that value, the
text before the token (in which every `${` is closed) and the text after it being processed
on their own; and a text in which the pattern matches nowhere is returned unchanged. -/
theorem applyTemplate_replaces_truthy (vars : JSObject) :
    (∀ (pre name post : Text) (v : JSValue),
      hasOpenToken pre = false → name ≠ [] → '}' ∉ name →
      vars.own name = some v → v.toBoolean = true →
      applyTemplate (pre ++ templateToken name ++ post) vars =
        applyTemplate pre vars ++ v.toStr ++ applyTemplate post vars) ∧
    (∀ text : Text, hasTemplateToken text = false → applyTemplate text vars = text) := by
  refine ⟨?_, fun text h => applyTemplateFrom_noToken vars text h⟩
  intro pre name post v hpre hne hname hv ht
  unfold applyTemplate
  have htail : ∀ t, templateToken name ++ post ≠ '{' :: t := by
    intro t h
    simp [templateToken] at h
  rw [List.append_assoc, applyTemplateFrom_append vars _ htail pre.length pre rfl hpre,
    applyTemplateFrom_token vars name post hne hname]
  have hrep : templateReplacement vars name = v.toStr := by
    simp [templateReplacement, JSObject.get, hv, JSValue.or, ht]
  rw [hrep, List.append_assoc]

/-- C1, witness: the variable `name` holding `Bob` in the template `Hi ${name}!`. -/
theorem applyTemplate_replaces_truthy_witness :
    applyTemplate ("Hi ".toList ++ templateToken "name".toList ++ "!".toList)
        [("name".toList, .str "Bob".toList)] =
      applyTemplate "Hi ".toList [("name".toList, .str "Bob".toList)] ++
        (JSValue.str "Bob".toList).toStr ++
        applyTemplate "!".toList [("name".toList, .str "Bob".toList)] ∧
    applyTemplate "Hi $\x7bname\x7d!".toList [("name".toList, .str "Bob".toList)] =
      "Hi Bob!".toList :=
  ⟨(applyTemplate_replaces_truthy [("name".toList, .str "Bob".toList)]).1
      "Hi ".toList "name".toList "!".toList (.str "Bob".toList)
      (by decide) (by decide) (by decide) rfl rfl,
   by decide⟩

/-- C1, counterexample: the key `x` is in the variable map with the empty string as its
value, and the token `${x}` is not replaced by that value: it stays as written. -/
theorem applyTemplate_empty_value_not_substituted :
    JSObject.own [("x".toList, JSValue.str [])] "x".toList = some (JSValue.str []) ∧
    applyTemplate "a=$\x7bx\x7d;".toList [("x".toList, JSValue.str [])] =
      "a=$\x7bx\x7d;".toList ∧
    applyTemplate "a=$\x7bx\x7d;".toList [("x".toList, JSValue.str [])] ≠
      "a=".toList ++ (JSValue.str []).toStr ++ ";".toList :=
  ⟨rfl, by decide, by decide⟩

/-- C2, the code at the failing input: `constructor` is not a key of the empty variable map,
and the token `${constructor}` is not left as written: it is replaced by the text of the
function `Object`, which the lookup `variables[varName]` finds on `Object.prototype`. -/
theorem applyTemplate_inherited_name_replaced :
    JSObject.own [] "constructor".toList = none ∧
    applyTemplate "run $\x7bconstructor\x7d".toList [] =
      "run function Object() \x7b [native code] \x7d".toList ∧
    applyTemplate "run $\x7bconstructor\x7d".toList [] ≠ "run $\x7bconstructor\x7d".toList :=
  ⟨rfl, by decide, by decide⟩

/-- A token whose name is neither a key of the variable map nor a property of
`Object.prototype` is left as written. -/
theorem applyTemplate_keeps_unknown (vars : JSObject) (pre name post : Text)
    (hpre : hasOpenToken pre = false) (hne : name ≠ []) (hname : '}' ∉ name)
    (hv : vars.own name = none) (hproto : objectPrototype name = .undefined) :
    applyTemplate (pre ++ templateToken name ++ post) vars =
      applyTemplate pre vars ++ templateToken name ++ applyTemplate post vars := by
  unfold applyTemplate
  have htail : ∀ t, templateToken name ++ post ≠ '{' :: t := by
    intro t h
    simp [templateToken] at h
  rw [List.append_assoc, applyTemplateFrom_append vars _ htail pre.length pre rfl hpre,
    applyTemplateFrom_token vars name post hne hname]
  have hrep : templateReplacement vars name = templateToken name := by
    simp [templateReplacement, JSObject.get, hv, hproto, JSValue.or, JSValue.toBoolean,
      JSValue.toStr]
  rw [hrep, List.append_assoc]

/-! ## Lemmas on the include scan -/

theorem isPathChar_eq (c : Char) : isPathChar c = !isWhiteSpace c := by
  unfold isPathChar
  by_cases h : c = '\n'
  · subst h; decide
  · simp [h]

theorem replaceIncludes_skip (cb : Text → Option Text) (xs ys : Text) :
    replaceIncludes cb xs.length (xs ++ ys) = replaceIncludes cb 0 ys := by
  induction xs with
  | nil => simp
  | cons x xs ih => simpa [replaceIncludes] using ih

theorem takeWhile_append_of_endsToken (frag post : Text)
    (hfrag : frag.all (fun c => !isWhiteSpace c) = true) (hpost : endsToken post = true) :
    (frag ++ post).takeWhile isPathChar = frag := by
  induction frag with
  | nil =>
    cases post with
    | nil => rfl
    | cons c post =>
      have : isWhiteSpace c = true := by simpa [endsToken] using hpost
      simp [List.takeWhile, isPathChar_eq, this]
  | cons d frag ih =>
    simp only [List.all_cons, Bool.and_eq_true] at hfrag
    have hd : isPathChar d = true := by rw [isPathChar_eq]; exact hfrag.1
    simp [List.takeWhile, hd, ih hfrag.2]

theorem takeWhile_append_of_not_all (r tail : Text)
    (h : r.all (fun c => !isWhiteSpace c) = false) :
    (r ++ tail).takeWhile isPathChar = r.takeWhile isPathChar := by
  induction r with
  | nil => simp at h
  | cons d r ih =>
    by_cases hd : isWhiteSpace d = true
    · simp [List.takeWhile, isPathChar_eq, hd]
    · have hd2 : isWhiteSpace d = false := by simpa using hd
      have hr : r.all (fun c => !isWhiteSpace c) = false := by
        simpa [List.all_cons, hd2] using h
      have hd3 : isPathChar d = true := by rw [isPathChar_eq, hd2]; rfl
      rw [List.cons_append, List.takeWhile_cons, List.takeWhile_cons, hd3, ih hr]

theorem matchInclude_token (frag post : Text) (hne : frag ≠ [])
    (hfrag : frag.all (fun c => !isWhiteSpace c) = true) (hpost : endsToken post = true) :
    matchInclude (includeToken frag ++ post) = some frag := by
  simp only [includeToken, List.cons_append, matchInclude,
    takeWhile_append_of_endsToken frag post hfrag hpost]
  cases frag with
  | nil => exact absurd rfl hne
  | cons d frag => simp

theorem matchInclude_eq_some {t p : Text} (h : matchInclude t = some p) :
    ∃ w, t = '@' :: (p ++ w) ∧ p ≠ [] := by
  unfold matchInclude at h
  split at h
  · rename_i rest
    simp only at h
    split at h
    · simp at h
    · rename_i hne
      simp only [Option.some.injEq] at h
      refine ⟨rest.dropWhile isPathChar, ?_, ?_⟩
      · rw [← h, List.takeWhile_append_dropWhile]
      · rw [← h]; simpa using hne
  · simp at h

theorem matchInclude_append {c : Char} {r tail : Text}
    (hclosed : hasOpenInclude (c :: r) = false) :
    matchInclude (c :: r ++ tail) = matchInclude (c :: r) := by
  by_cases hc : c = '@'
  · subst hc
    have hr : r.all (fun c => !isWhiteSpace c) = false := by
      simp only [hasOpenInclude, Bool.or_eq_false_iff] at hclosed
      simpa using hclosed.1
    simp only [List.cons_append, matchInclude, takeWhile_append_of_not_all r tail hr]
  · unfold matchInclude
    split
    · rename_i h; simp at h; exact absurd h.1 hc
    · split
      · rename_i h; simp at h; exact absurd h.1 hc
      · rfl

theorem hasOpenInclude_tail {c : Char} {r : Text} (h : hasOpenInclude (c :: r) = false) :
    hasOpenInclude r = false := by
  simp only [hasOpenInclude, Bool.or_eq_false_iff] at h
  exact h.2

theorem hasOpenInclude_suffix (xs : Text) {ys : Text} (h : hasOpenInclude (xs ++ ys) = false) :
    hasOpenInclude ys = false := by
  induction xs with
  | nil => simpa using h
  | cons x xs ih => exact ih (hasOpenInclude_tail h)

/-- The scan splits after a prefix that does not end inside a token. -/
theorem replaceIncludes_append (cb : Text → Option Text) (tail : Text) :
    ∀ (k : Nat) (pre : Text), pre.length = k → hasOpenInclude pre = false →
      replaceIncludes cb 0 (pre ++ tail) =
        (replaceIncludes cb 0 pre).bind fun a =>
          (replaceIncludes cb 0 tail).map (a ++ ·) := by
  intro k
  induction k using Nat.strong_induction_on with
  | _ k ih =>
    intro pre hlen hclosed
    cases pre with
    | nil =>
      cases h : replaceIncludes cb 0 tail <;> simp [replaceIncludes, h]
    | cons c r =>
      have hm := @matchInclude_append c r tail hclosed
      simp only [List.cons_append] at hm ⊢
      rw [replaceIncludes, replaceIncludes, hm]
      cases hmatch : matchInclude (c :: r) with
      | none =>
        simp only
        rw [ih r.length (by simp at hlen; omega) r rfl (hasOpenInclude_tail hclosed)]
        cases h1 : replaceIncludes cb 0 r with
        | none => simp
        | some a =>
          cases h2 : replaceIncludes cb 0 tail <;> simp
      | some p =>
        obtain ⟨w, hw, -⟩ := matchInclude_eq_some hmatch
        simp only [List.cons.injEq, true_and] at hw
        have hcw : hasOpenInclude w = false := by
          have : c :: r = (c :: p) ++ w := by simp [hw.2]
          rw [this] at hclosed
          exact hasOpenInclude_suffix _ hclosed
        simp only
        rw [hw.2, List.append_assoc, replaceIncludes_skip, replaceIncludes_skip,
          ih w.length (by simp [hw.2] at hlen; omega) w rfl hcw]
        cases h0 : cb p with
        | none => simp
        | some x =>
          cases h1 : replaceIncludes cb 0 w with
          | none => simp
          | some a =>
            cases h2 : replaceIncludes cb 0 tail <;> simp

/-- The scan at the start of a token: the replacement, then the scan of what follows. -/
theorem replaceIncludes_token (cb : Text → Option Text) (frag post : Text) (hne : frag ≠ [])
    (hfrag : frag.all (fun c => !isWhiteSpace c) = true) (hpost : endsToken post = true) :
    replaceIncludes cb 0 (includeToken frag ++ post) =
      (cb frag).bind fun replacement =>
        (replaceIncludes cb 0 post).map (replacement ++ ·) := by
  have hm := matchInclude_token frag post hne hfrag hpost
  simp only [includeToken, List.cons_append] at hm ⊢
  rw [replaceIncludes, hm]
  simp only [replaceIncludes_skip]

/-- A text without an include token is scanned to itself, whatever the callback. -/
theorem replaceIncludes_noToken (cb : Text → Option Text) (text : Text)
    (h : hasIncludeToken text = false) : replaceIncludes cb 0 text = some text := by
  induction text with
  | nil => rfl
  | cons c r ih =>
    simp only [hasIncludeToken, Bool.or_eq_false_iff] at h
    have hnone : matchInclude (c :: r) = none := by
      by_cases hc : c = '@'
      · subst hc
        cases r with
        | nil => simp [matchInclude]
        | cons d r =>
          have hd : isWhiteSpace d = true := by simpa using h.1
          simp [matchInclude, List.takeWhile, isPathChar_eq, hd]
      · unfold matchInclude
        split
        · rename_i h'; simp at h'; exact absurd h'.1 hc
        · rfl
    rw [replaceIncludes, hnone]
    simp [ih h.2]

/-- The resolution splits around a token whose callback result is known. -/
theorem processIncludes_split (np : NodePath) (fs : FileSystem) (depth : Nat)
    (basePath : Path) (pre frag post : Text) (nested : Text → Path → Option Text)
    (hdef : ∀ content, processIncludes np fs depth content basePath =
      replaceIncludes (includeReplacement np fs nested basePath) 0 content)
    (hpre : hasOpenInclude pre = false) (hne : frag ≠ [])
    (hfrag : frag.all (fun c => !isWhiteSpace c) = true) (hpost : endsToken post = true) :
    processIncludes np fs depth (pre ++ includeToken frag ++ post) basePath =
      (processIncludes np fs depth pre basePath).bind fun a =>
        (includeReplacement np fs nested basePath frag).bind fun b =>
          (processIncludes np fs depth post basePath).map fun c => a ++ b ++ c := by
  rw [hdef, hdef, hdef, List.append_assoc,
    replaceIncludes_append _ _ pre.length pre rfl hpre,
    replaceIncludes_token _ frag post hne hfrag hpost]
  cases replaceIncludes (includeReplacement np fs nested basePath) 0 pre with
  | none => simp
  | some a =>
    cases includeReplacement np fs nested basePath frag with
    | none => simp
    | some b =>
      cases replaceIncludes (includeReplacement np fs nested basePath) 0 post <;> simp

theorem processIncludes_def_zero (np : NodePath) (fs : FileSystem) (basePath : Path)
    (content : Text) :
    processIncludes np fs 0 content basePath =
      replaceIncludes (includeReplacement np fs (fun _ _ => none) basePath) 0 content := rfl

theorem processIncludes_def_succ (np : NodePath) (fs : FileSystem) (depth : Nat)
    (basePath : Path) (content : Text) :
    processIncludes np fs (depth + 1) content basePath =
      replaceIncludes (includeReplacement np fs (processIncludes np fs depth) basePath) 0
        content := rfl

theorem endsToken_append (x y : Text) (hx : endsToken x = true) (hy : endsToken y = true) :
    endsToken (x ++ y) = true := by
  cases x with
  | nil => simpa using hy
  | cons c x => simpa [endsToken] using hx

/-- Two texts without include tokens join to a text without include tokens, unless the first
ends in `@` and the second starts with a character that is not white space. -/
theorem hasIncludeToken_append (x y : Text) (hx : hasIncludeToken x = false)
    (hy : hasIncludeToken y = false)
    (h : hasOpenInclude x = false ∨ endsToken y = true) :
    hasIncludeToken (x ++ y) = false := by
  induction x with
  | nil => simpa using hy
  | cons c r ih =>
    simp only [hasIncludeToken, Bool.or_eq_false_iff] at hx
    have hr : hasIncludeToken (r ++ y) = false :=
      ih hx.2 (h.imp hasOpenInclude_tail id)
    simp only [List.cons_append, hasIncludeToken, Bool.or_eq_false_iff]
    refine ⟨?_, hr⟩
    cases r with
    | cons d r => simpa using hx.1
    | nil =>
      by_cases hc : c = '@'
      · subst hc
        rcases h with h | h
        · simp [hasOpenInclude] at h
        · cases y with
          | nil => simp
          | cons e y =>
            have he : isWhiteSpace e = true := by simpa [endsToken] using h
            simp [he]
      · simp [hc]

theorem replaceIncludes_isSome (cb : Text → Option Text) (hcb : ∀ p, (cb p).isSome = true) :
    ∀ (text : Text) (k : Nat), (replaceIncludes cb k text).isSome = true := by
  intro text
  induction text with
  | nil => intro k; cases k <;> rfl
  | cons c r ih =>
    intro k
    cases k with
    | succ k => simpa [replaceIncludes] using ih k
    | zero =>
      rw [replaceIncludes]
      cases hm : matchInclude (c :: r) with
      | none =>
        have := ih 0
        cases h : replaceIncludes cb 0 r with
        | none => simp [h] at this
        | some t => simp
      | some p =>
        have h1 := hcb p
        have h2 := ih p.length
        cases hc : cb p with
        | none => simp [hc] at h1
        | some x =>
          cases h : replaceIncludes cb p.length r with
          | none => simp [h] at h2
          | some t => simp [hc, h]

/-- A text without an include token resolves to itself. -/
theorem processIncludes_id (np : NodePath) (fs : FileSystem) (depth : Nat)
    (content : Text) (basePath : Path) (h : hasIncludeToken content = false) :
    processIncludes np fs depth content basePath = some content := by
  cases depth with
  | zero => exact replaceIncludes_noToken _ content h
  | succ d => exact replaceIncludes_noToken _ content h

/-- The callback of `processIncludes` gives a replacement for every token: every exception
is caught. -/
theorem includeReplacement_isSome (np : NodePath) (fs : FileSystem)
    (nested : Text → Path → Option Text) (basePath : Path) (p : Text) :
    (includeReplacement np fs nested basePath p).isSome = true := by
  cases hex : fs.existsSync (np.resolve basePath p) with
  | false => simp [includeReplacement, hex]
  | true =>
    cases hr : fs.readFileSync (np.resolve basePath p) with
    | none => simp [includeReplacement, hex, hr]
    | some includeContent =>
      cases hn : nested includeContent (np.dirname (np.resolve basePath p)) with
      | none => simp [includeReplacement, hex, hr, hn]
      | some resolved => simp [includeReplacement, hex, hr, hn]

/-- Include resolution gives a text: for every text, base directory, file system and room on
the call stack. -/
theorem processIncludes_total (np : NodePath) (fs : FileSystem) (depth : Nat)
    (content : Text) (basePath : Path) :
    ∃ text, processIncludes np fs depth content basePath = some text := by
  have h : (processIncludes np fs depth content basePath).isSome = true := by
    cases depth with
    | zero => exact replaceIncludes_isSome _ (includeReplacement_isSome np fs _ basePath) content 0
    | succ d =>
      exact replaceIncludes_isSome _ (includeReplacement_isSome np fs _ basePath) content 0
  exact Option.isSome_iff_exists.1 h

/-- The replacement of a token whose file is read, when the stack has room for the nested
call: the resolution of the contents. -/
theorem includeReplacement_readable (np : NodePath) (fs : FileSystem) (depth : Nat)
    (basePath : Path) (frag includeContent : Text)
    (hex : fs.existsSync (np.resolve basePath frag) = true)
    (hread : fs.readFileSync (np.resolve basePath frag) = some includeContent) :
    includeReplacement np fs (processIncludes np fs depth) basePath frag =
      processIncludes np fs depth includeContent (np.dirname (np.resolve basePath frag)) := by
  obtain ⟨text, ht⟩ :=
    processIncludes_total np fs depth includeContent (np.dirname (np.resolve basePath frag))
  simp [includeReplacement, hex, hread, ht]

/-- The callback of `processIncludes`, whatever the room on the stack. -/
theorem processIncludes_def (np : NodePath) (fs : FileSystem) (depth : Nat)
    (basePath : Path) :
    ∃ nested : Text → Path → Option Text, ∀ content,
      processIncludes np fs depth content basePath =
        replaceIncludes (includeReplacement np fs nested basePath) 0 content := by
  cases depth with
  | zero => exact ⟨_, fun _ => rfl⟩
  | succ d => exact ⟨_, fun _ => rfl⟩

/-- The resolution around a token whose target does not exist. -/
theorem processIncludes_missing_eq (np : NodePath) (fs : FileSystem) (depth : Nat)
    (basePath : Path) (pre frag post : Text) (hpre : hasOpenInclude pre = false)
    (hne : frag ≠ []) (hfrag : frag.all (fun c => !isWhiteSpace c) = true)
    (hpost : endsToken post = true)
    (hex : fs.existsSync (np.resolve basePath frag) = false) :
    processIncludes np fs depth (pre ++ includeToken frag ++ post) basePath =
      (processIncludes np fs depth pre basePath).bind fun a =>
        (processIncludes np fs depth post basePath).map fun c =>
          a ++ missingInclude frag ++ c := by
  obtain ⟨nested, hn⟩ := processIncludes_def np fs depth basePath
  rw [processIncludes_split np fs depth basePath pre frag post nested hn hpre hne hfrag hpost]
  simp [includeReplacement, hex]

/-- The resolution around a token whose target exists and cannot be read. -/
theorem processIncludes_unreadable_eq (np : NodePath) (fs : FileSystem) (depth : Nat)
    (basePath : Path) (pre frag post : Text) (hpre : hasOpenInclude pre = false)
    (hne : frag ≠ []) (hfrag : frag.all (fun c => !isWhiteSpace c) = true)
    (hpost : endsToken post = true)
    (hex : fs.existsSync (np.resolve basePath frag) = true)
    (hread : fs.readFileSync (np.resolve basePath frag) = none) :
    processIncludes np fs depth (pre ++ includeToken frag ++ post) basePath =
      (processIncludes np fs depth pre basePath).bind fun a =>
        (processIncludes np fs depth post basePath).map fun c =>
          a ++ errorInclude frag ++ c := by
  obtain ⟨nested, hn⟩ := processIncludes_def np fs depth basePath
  rw [processIncludes_split np fs depth basePath pre frag post nested hn hpre hne hfrag hpost]
  simp [includeReplacement, hex, hread]

/-- A file that includes itself: the nested calls use up the stack, the last one throws and
the callback that made it gives the comment of the `catch`, which every caller hands on. -/
theorem processIncludes_cycle (np : NodePath) (fs : FileSystem) (frag : Text) (p : Path)
    (hne : frag ≠ []) (hfrag : frag.all (fun c => !isWhiteSpace c) = true)
    (hex : fs.existsSync p = true) (hread : fs.readFileSync p = some (includeToken frag))
    (hself : np.resolve (np.dirname p) frag = p) :
    ∀ (depth : Nat) (basePath : Path), np.resolve basePath frag = p →
      processIncludes np fs depth (includeToken frag) basePath =
        some (errorInclude frag) := by
  have htoken : ∀ cb : Text → Option Text,
      replaceIncludes cb 0 (includeToken frag) =
        (cb frag).bind fun replacement => some (replacement ++ []) := by
    intro cb
    have h := replaceIncludes_token cb frag [] hne hfrag rfl
    rw [List.append_nil] at h
    rw [h]
    rfl
  intro depth
  induction depth with
  | zero =>
    intro basePath hp
    rw [processIncludes_def_zero, htoken]
    simp [includeReplacement, hp, hex, hread]
  | succ d ih =>
    intro basePath hp
    rw [processIncludes_def_succ, htoken]
    simp [includeReplacement, hp, hex, hread, ih (np.dirname p) hself]

/-! ## C3, C4, C5: include resolution -/

/-- C3: for every text that contains no include token (no `@` immediately followed by a
character that is not white space), every base directory, every file system and every depth
bound, `processIncludes` returns the text unchanged. -/
theorem processIncludes_noToken (np : NodePath) (fs : FileSystem) (depth : Nat)
    (content : Text) (basePath : Path) (h : hasIncludeToken content = false) :
    processIncludes np fs depth content basePath = some content :=
  processIncludes_id np fs depth content basePath h

/-- C3, witness: a text with a lone `@` and no include token. -/
theorem processIncludes_noToken_witness :
    hasIncludeToken "mail me @ noon\n".toList = false ∧
    processIncludes simplePath (filesOf []) 0 "mail me @ noon\n".toList "/d".toList =
      some "mail me @ noon\n".toList :=
  ⟨by decide, processIncludes_noToken simplePath (filesOf []) 0 _ _ (by decide)⟩

/-- C4: an include token `@frag` whose target exists and can be read is replaced, in place,
by the resolution of the file's contents with the file's directory as the new base, the text
before the token (which does not end inside a token) and the text after it (empty, or starting
with white space) being resolved on their own; and for a chain in which the text includes
`B`, `B` includes `C` and no other token occurs, the resolution is the text with the contents
of `B` spliced in at the token and the contents of `C` spliced in inside them, and it holds
no include token. -/
theorem processIncludes_existing (np : NodePath) (fs : FileSystem) :
    (∀ (depth : Nat) (basePath : Path) (pre frag post includeContent : Text),
      hasOpenInclude pre = false → frag ≠ [] →
      frag.all (fun c => !isWhiteSpace c) = true → endsToken post = true →
      fs.existsSync (np.resolve basePath frag) = true →
      fs.readFileSync (np.resolve basePath frag) = some includeContent →
      processIncludes np fs (depth + 1) (pre ++ includeToken frag ++ post) basePath =
        (processIncludes np fs (depth + 1) pre basePath).bind fun a =>
          (processIncludes np fs depth includeContent
              (np.dirname (np.resolve basePath frag))).bind fun b =>
            (processIncludes np fs (depth + 1) post basePath).map fun c => a ++ b ++ c) ∧
    (∀ (depth : Nat) (basePath : Path) (a1 fragB a2 b1 fragC b2 c : Text),
      hasIncludeToken a1 = false → hasOpenInclude a1 = false →
      hasIncludeToken a2 = false → endsToken a2 = true →
      hasIncludeToken b1 = false → hasOpenInclude b1 = false →
      hasIncludeToken b2 = false → endsToken b2 = true →
      hasIncludeToken c = false →
      fragB ≠ [] → fragB.all (fun c => !isWhiteSpace c) = true →
      fragC ≠ [] → fragC.all (fun c => !isWhiteSpace c) = true →
      fs.existsSync (np.resolve basePath fragB) = true →
      fs.readFileSync (np.resolve basePath fragB) = some (b1 ++ includeToken fragC ++ b2) →
      fs.existsSync (np.resolve (np.dirname (np.resolve basePath fragB)) fragC) = true →
      fs.readFileSync (np.resolve (np.dirname (np.resolve basePath fragB)) fragC) = some c →
      processIncludes np fs (depth + 2) (a1 ++ includeToken fragB ++ a2) basePath =
        some (a1 ++ (b1 ++ c ++ b2) ++ a2) ∧
      hasIncludeToken (a1 ++ (b1 ++ c ++ b2) ++ a2) = false) := by
  have hstep : ∀ (depth : Nat) (basePath : Path) (pre frag post includeContent : Text),
      hasOpenInclude pre = false → frag ≠ [] →
      frag.all (fun c => !isWhiteSpace c) = true → endsToken post = true →
      fs.existsSync (np.resolve basePath frag) = true →
      fs.readFileSync (np.resolve basePath frag) = some includeContent →
      processIncludes np fs (depth + 1) (pre ++ includeToken frag ++ post) basePath =
        (processIncludes np fs (depth + 1) pre basePath).bind fun a =>
          (processIncludes np fs depth includeContent
              (np.dirname (np.resolve basePath frag))).bind fun b =>
            (processIncludes np fs (depth + 1) post basePath).map fun c => a ++ b ++ c := by
    intro depth basePath pre frag post includeContent hpre hne hfrag hpost hex hread
    rw [processIncludes_split np fs (depth + 1) basePath pre frag post
      (processIncludes np fs depth) (fun _ => rfl) hpre hne hfrag hpost,
      includeReplacement_readable np fs depth basePath frag includeContent hex hread]
  refine ⟨hstep, ?_⟩
  intro depth basePath a1 fragB a2 b1 fragC b2 c ha1 ha1o ha2 ha2e hb1 hb1o hb2 hb2e hc
    hB hBall hC hCall hexB hreadB hexC hreadC
  constructor
  · rw [hstep (depth + 1) basePath a1 fragB a2 _ ha1o hB hBall ha2e hexB hreadB,
      hstep depth _ b1 fragC b2 c hb1o hC hCall hb2e hexC hreadC,
      processIncludes_id np fs _ a1 _ ha1, processIncludes_id np fs _ a2 _ ha2,
      processIncludes_id np fs _ b1 _ hb1, processIncludes_id np fs _ b2 _ hb2,
      processIncludes_id np fs _ c _ hc]
    simp
  · have h1 : hasIncludeToken (b2 ++ a2) = false :=
      hasIncludeToken_append b2 a2 hb2 ha2 (Or.inr ha2e)
    have h2 : hasIncludeToken (c ++ (b2 ++ a2)) = false :=
      hasIncludeToken_append c _ hc h1 (Or.inr (endsToken_append b2 a2 hb2e ha2e))
    have h3 : hasIncludeToken (b1 ++ (c ++ (b2 ++ a2))) = false :=
      hasIncludeToken_append b1 _ hb1 h2 (Or.inl hb1o)
    have h4 : hasIncludeToken (a1 ++ (b1 ++ (c ++ (b2 ++ a2)))) = false :=
      hasIncludeToken_append a1 _ ha1 h3 (Or.inl ha1o)
    simpa [List.append_assoc] using h4

/-- C4, witness: `a.md` includes `sub/b.md`, which includes `c.md` of its own directory. -/
theorem processIncludes_existing_witness :
    processIncludes simplePath
        (filesOf [("/d/sub/b.md".toList, "B1 @c.md\nB2".toList),
          ("/d/sub/c.md".toList, "C".toList)]) 2
        ("A1 ".toList ++ includeToken "sub/b.md".toList ++ "\nA2".toList) "/d".toList =
      some ("A1 ".toList ++ ("B1 ".toList ++ "C".toList ++ "\nB2".toList) ++ "\nA2".toList) ∧
    hasIncludeToken
      ("A1 ".toList ++ ("B1 ".toList ++ "C".toList ++ "\nB2".toList) ++ "\nA2".toList) = false :=
  (processIncludes_existing simplePath
      (filesOf [("/d/sub/b.md".toList, "B1 @c.md\nB2".toList),
        ("/d/sub/c.md".toList, "C".toList)])).2
    0 "/d".toList "A1 ".toList "sub/b.md".toList "\nA2".toList "B1 ".toList "c.md".toList
    "\nB2".toList "C".toList
    (by decide) (by decide) (by decide) (by decide) (by decide) (by decide) (by decide)
    (by decide) (by decide) (by decide) (by decide) (by decide) (by decide) (by decide)
    (by decide) (by decide) (by decide)

/-- C5: `processIncludes` never fails: for every text, base directory, file system and room
on the call stack it returns a text.  An include token `@frag` whose resolved target does
not exist is replaced by exactly `<!-- MISSING INCLUDE: frag -->`, and one whose target exists
and whose read fails by exactly `<!-- ERROR PROCESSING INCLUDE: frag -->`, in both cases
between the resolution of the text before the token and the resolution of the text after it.
The other tokens are processed as usual: a file that is included and holds a token of a
missing file is spliced in with that token replaced by the comment.  And a file that
includes itself does not make the call fail: the exception of the exhausted call stack is
caught and the token is replaced by the comment of the error. -/
theorem processIncludes_soft_failure (np : NodePath) (fs : FileSystem) :
    (∀ (depth : Nat) (content : Text) (basePath : Path),
      ∃ text, processIncludes np fs depth content basePath = some text) ∧
    (∀ (depth : Nat) (basePath : Path) (pre frag post : Text),
      hasOpenInclude pre = false → frag ≠ [] →
      frag.all (fun c => !isWhiteSpace c) = true → endsToken post = true →
      fs.existsSync (np.resolve basePath frag) = false →
      ∃ a c, processIncludes np fs depth pre basePath = some a ∧
        processIncludes np fs depth post basePath = some c ∧
        processIncludes np fs depth (pre ++ includeToken frag ++ post) basePath =
          some (a ++ ("<!-- MISSING INCLUDE: ".toList ++ frag ++ " -->".toList) ++ c)) ∧
    (∀ (depth : Nat) (basePath : Path) (pre frag post : Text),
      hasOpenInclude pre = false → frag ≠ [] →
      frag.all (fun c => !isWhiteSpace c) = true → endsToken post = true →
      fs.existsSync (np.resolve basePath frag) = true →
      fs.readFileSync (np.resolve basePath frag) = none →
      ∃ a c, processIncludes np fs depth pre basePath = some a ∧
        processIncludes np fs depth post basePath = some c ∧
        processIncludes np fs depth (pre ++ includeToken frag ++ post) basePath =
          some (a ++ ("<!-- ERROR PROCESSING INCLUDE: ".toList ++ frag ++ " -->".toList) ++
            c)) ∧
    (∀ (depth : Nat) (basePath : Path) (a1 fragB a2 b1 fragGone b2 : Text),
      hasIncludeToken a1 = false → hasOpenInclude a1 = false →
      hasIncludeToken a2 = false → endsToken a2 = true →
      hasIncludeToken b1 = false → hasOpenInclude b1 = false →
      hasIncludeToken b2 = false → endsToken b2 = true →
      fragB ≠ [] → fragB.all (fun c => !isWhiteSpace c) = true →
      fragGone ≠ [] → fragGone.all (fun c => !isWhiteSpace c) = true →
      fs.existsSync (np.resolve basePath fragB) = true →
      fs.readFileSync (np.resolve basePath fragB) =
        some (b1 ++ includeToken fragGone ++ b2) →
      fs.existsSync (np.resolve (np.dirname (np.resolve basePath fragB)) fragGone) = false →
      processIncludes np fs (depth + 1) (a1 ++ includeToken fragB ++ a2) basePath =
        some (a1 ++
          (b1 ++ ("<!-- MISSING INCLUDE: ".toList ++ fragGone ++ " -->".toList) ++ b2) ++
          a2)) ∧
    (∀ (depth : Nat) (basePath : Path) (frag : Text),
      frag ≠ [] → frag.all (fun c => !isWhiteSpace c) = true →
      fs.existsSync (np.resolve basePath frag) = true →
      fs.readFileSync (np.resolve basePath frag) = some (includeToken frag) →
      np.resolve (np.dirname (np.resolve basePath frag)) frag = np.resolve basePath frag →
      processIncludes np fs depth (includeToken frag) basePath =
        some ("<!-- ERROR PROCESSING INCLUDE: ".toList ++ frag ++ " -->".toList)) := by
  refine ⟨processIncludes_total np fs, ?_, ?_, ?_, ?_⟩
  · intro depth basePath pre frag post hpre hne hfrag hpost hex
    obtain ⟨a, ha⟩ := processIncludes_total np fs depth pre basePath
    obtain ⟨c, hc⟩ := processIncludes_total np fs depth post basePath
    refine ⟨a, c, ha, hc, ?_⟩
    rw [processIncludes_missing_eq np fs depth basePath pre frag post hpre hne hfrag hpost hex,
      ha, hc]
    rfl
  · intro depth basePath pre frag post hpre hne hfrag hpost hex hread
    obtain ⟨a, ha⟩ := processIncludes_total np fs depth pre basePath
    obtain ⟨c, hc⟩ := processIncludes_total np fs depth post basePath
    refine ⟨a, c, ha, hc, ?_⟩
    rw [processIncludes_unreadable_eq np fs depth basePath pre frag post hpre hne hfrag hpost
      hex hread, ha, hc]
    rfl
  · intro depth basePath a1 fragB a2 b1 fragGone b2 ha1 ha1o ha2 ha2e hb1 hb1o hb2 hb2e
      hB hBall hG hGall hexB hreadB hexG
    rw [processIncludes_split np fs (depth + 1) basePath a1 fragB a2
      (processIncludes np fs depth) (fun _ => rfl) ha1o hB hBall ha2e,
      includeReplacement_readable np fs depth basePath fragB _ hexB hreadB,
      processIncludes_missing_eq np fs depth _ b1 fragGone b2 hb1o hG hGall hb2e hexG,
      processIncludes_id np fs _ a1 _ ha1, processIncludes_id np fs _ a2 _ ha2,
      processIncludes_id np fs _ b1 _ hb1, processIncludes_id np fs _ b2 _ hb2]
    rfl
  · intro depth basePath frag hne hfrag hex hread hself
    rw [processIncludes_cycle np fs frag (np.resolve basePath frag) hne hfrag hex hread hself
      depth basePath rfl]
    rfl

/-- C5, witness: `a.md` includes `sub/b.md`, which is read and includes `gone.md`, a file
that does not exist; and a text with a missing include, an include that is followed and a
file that includes itself resolves to a text with the two comments. -/
theorem processIncludes_soft_failure_witness :
    processIncludes simplePath
        (filesOf [("/d/sub/b.md".toList, "B1 @gone.md\nB2".toList)]) 1
        ("A1 ".toList ++ includeToken "sub/b.md".toList ++ "\nA2".toList) "/d".toList =
      some ("A1 ".toList ++
        ("B1 ".toList ++
          ("<!-- MISSING INCLUDE: ".toList ++ "gone.md".toList ++ " -->".toList) ++
          "\nB2".toList) ++ "\nA2".toList) ∧
    processIncludes simplePath
        (filesOf [("/d/b.md".toList, "B".toList), ("/d/loop.md".toList, "@loop.md".toList)]) 3
        "see @gone.md and @b.md then @loop.md\nrest".toList "/d".toList =
      some ("see <!-- MISSING INCLUDE: gone.md --> and B then ".toList ++
        "<!-- ERROR PROCESSING INCLUDE: loop.md -->\nrest".toList) :=
  ⟨(processIncludes_soft_failure simplePath
      (filesOf [("/d/sub/b.md".toList, "B1 @gone.md\nB2".toList)])).2.2.2.1
      0 "/d".toList "A1 ".toList "sub/b.md".toList "\nA2".toList "B1 ".toList
      "gone.md".toList "\nB2".toList
      (by decide) (by decide) (by decide) (by decide) (by decide) (by decide) (by decide)
      (by decide) (by decide) (by decide) (by decide) (by decide) (by decide) (by decide)
      (by decide),
   by decide⟩

/-! ## C6: the required approval level -/

/-- C6: `getRequiredApprovalLevel` returns the `minimum_approval_level` of the command's entry
of `operation_overrides` when one is set (a truthy value); otherwise the `approval_level` of
the entry of `environment_overrides` for the current environment (`NODE_ENV`, `development`
when it is not set) when one is set; otherwise the default approval level of the user
preferences when it is set; otherwise `CONFIRM`.  So a command without an override of its
own gets the level `CONFIRM` when the override of the environment is `CONFIRM`. -/
theorem getRequiredApprovalLevel_priority (P : Platform) (config : Config)
    (commandName currentPhase : Text) :
    (P.nodeEnv = none → currentEnvironment P = "development".toList) ∧
    (∀ e, P.nodeEnv = some e → e ≠ [] → currentEnvironment P = e) ∧
    (∀ level,
      sectionField config.operation_overrides commandName (·.minimum_approval_level) = level →
      level.toBoolean = true →
      getRequiredApprovalLevel P config commandName currentPhase = level) ∧
    (∀ level,
      (sectionField config.operation_overrides commandName
        (·.minimum_approval_level)).toBoolean = false →
      sectionField config.environment_overrides (currentEnvironment P) (·.approval_level) =
        level →
      level.toBoolean = true →
      getRequiredApprovalLevel P config commandName currentPhase = level) ∧
    ((sectionField config.operation_overrides commandName
        (·.minimum_approval_level)).toBoolean = false →
      (sectionField config.environment_overrides (currentEnvironment P)
        (·.approval_level)).toBoolean = false →
      config.default_approval_level.toBoolean = true →
      getRequiredApprovalLevel P config commandName currentPhase =
        config.default_approval_level) ∧
    ((sectionField config.operation_overrides commandName
        (·.minimum_approval_level)).toBoolean = false →
      (sectionField config.environment_overrides (currentEnvironment P)
        (·.approval_level)).toBoolean = false →
      config.default_approval_level.toBoolean = false →
      getRequiredApprovalLevel P config commandName currentPhase = .str "CONFIRM".toList) ∧
    (sectionField config.operation_overrides commandName (·.minimum_approval_level) =
        .undefined →
      sectionField config.environment_overrides (currentEnvironment P) (·.approval_level) =
        .str "CONFIRM".toList →
      getRequiredApprovalLevel P config commandName currentPhase = .str "CONFIRM".toList) := by
  refine ⟨?_, ?_, ?_, ?_, ?_, ?_, ?_⟩
  · intro h; simp [currentEnvironment, h]
  · intro e h hne
    cases e with
    | nil => exact absurd rfl hne
    | cons c e => simp [currentEnvironment, h]
  · intro level h ht; subst h
    simp [getRequiredApprovalLevel, ht]
  · intro level hc h ht; subst h
    simp [getRequiredApprovalLevel, hc, ht]
  · intro hc he hd
    simp [getRequiredApprovalLevel, hc, he, JSValue.or, hd]
  · intro hc he hd
    simp [getRequiredApprovalLevel, hc, he, JSValue.or, hd]
  · intro hc he
    simp [getRequiredApprovalLevel, hc, he, JSValue.toBoolean]

/-- C6, the scenario of the specification: the command `deploy` has no override of its own,
`NODE_ENV` is not set and the override of `development` is `CONFIRM`. -/
theorem getRequiredApprovalLevel_deploy :
    getRequiredApprovalLevel (examplePlatform none)
        (exampleConfig (some [("db-migrate".toList, ⟨.str "REQUIRED".toList⟩)])
          (some [("development".toList, ⟨.str "CONFIRM".toList⟩)]) (.str "NONE".toList) [])
        "deploy".toList "development".toList = .str "CONFIRM".toList :=
  (getRequiredApprovalLevel_priority (examplePlatform none)
      (exampleConfig (some [("db-migrate".toList, ⟨.str "REQUIRED".toList⟩)])
        (some [("development".toList, ⟨.str "CONFIRM".toList⟩)]) (.str "NONE".toList) [])
      "deploy".toList "development".toList).2.2.2.2.2.2 rfl rfl

/-! ## C9: the next phase -/

theorem indexOfString_first (p : Text) (pre post : List JSValue)
    (hpre : pre.all (fun v => !strictEqualsString p v) = true) :
    indexOfString p (pre ++ .str p :: post) = pre.length := by
  induction pre with
  | nil => simp [indexOfString, strictEqualsString]
  | cons v pre ih =>
    simp only [List.all_cons, Bool.and_eq_true, Bool.not_eq_true'] at hpre
    have := ih hpre.2
    simp only [List.cons_append, indexOfString, hpre.1, this, List.length_cons]
    simp
    omega

/-- C9 (as amended): for every phase list and every phase that occurs in it,
`getNextHILPhase` returns the entry that follows the first occurrence of the phase, and the
phase itself when its first occurrence is the last entry of the list. -/
theorem getNextHILPhase_after_first (config : Config) (p : Text) (pre post : List JSValue)
    (hphases : config.phases = pre ++ .str p :: post)
    (hfirst : pre.all (fun v => !strictEqualsString p v) = true) :
    getNextHILPhase config p =
      match post with
      | [] => .str p
      | next :: _ => next := by
  have hidx := indexOfString_first p pre post hfirst
  unfold getNextHILPhase
  simp only [hphases, hidx]
  cases post with
  | nil => simp
  | cons next post =>
    have h1 : ((pre.length : Int) + 1).toNat = pre.length + 1 := by omega
    have hlt : (pre.length : Int) <
        ((pre ++ JSValue.str p :: next :: post).length : Int) - 1 := by
      simp only [List.length_append, List.length_cons]
      push_cast
      omega
    simp only [hlt, and_true, Int.natCast_nonneg, if_true, h1]
    have hget : (pre ++ JSValue.str p :: next :: post)[pre.length + 1]? = some next := by
      rw [List.getElem?_append_right (by omega)]
      simp
    simp [List.getD_eq_getElem?_getD, hget]

/-- C9, witness: the phase after `design` in `plan, design, build`, and after `build`. -/
theorem getNextHILPhase_after_first_witness :
    getNextHILPhase
        (exampleConfig none none .undefined
          [.str "plan".toList, .str "design".toList, .str "build".toList])
        "design".toList = .str "build".toList ∧
    getNextHILPhase
        (exampleConfig none none .undefined
          [.str "plan".toList, .str "design".toList, .str "build".toList])
        "build".toList = .str "build".toList :=
  ⟨getNextHILPhase_after_first _ "design".toList [.str "plan".toList] [.str "build".toList]
      rfl (by decide),
   getNextHILPhase_after_first _ "build".toList [.str "plan".toList, .str "design".toList] []
      rfl (by decide)⟩

/-- C9, counterexample: in the phase list `review, build, review` the last configured phase
is `review`, and `getNextHILPhase` does not return it for itself: it returns `build`, the
entry after the first `review`. -/
theorem getNextHILPhase_repeated_last :
    (exampleConfig none none .undefined
        [.str "review".toList, .str "build".toList, .str "review".toList]).phases.getLast? =
      some (.str "review".toList) ∧
    getNextHILPhase
        (exampleConfig none none .undefined
          [.str "review".toList, .str "build".toList, .str "review".toList])
        "review".toList = .str "build".toList ∧
    getNextHILPhase
        (exampleConfig none none .undefined
          [.str "review".toList, .str "build".toList, .str "review".toList])
        "review".toList ≠ .str "review".toList := by
  refine ⟨rfl, rfl, ?_⟩
  intro h
  have h2 : getNextHILPhase
        (exampleConfig none none .undefined
          [.str "review".toList, .str "build".toList, .str "review".toList])
        "review".toList = .str "build".toList := rfl
  rw [h2] at h
  injection h with h
  revert h
  decide

/-! ## C10: the command history -/

theorem logCommandExecution_eq (h : List LogEntry) (r : Recording) :
    logCommandExecution h r.commandName r.sourceIde r.result r.now =
      (h ++ [r.entry]).drop ((h ++ [r.entry]).length - 100) := by
  unfold logCommandExecution Recording.entry
  simp only
  split
  · rfl
  · rename_i hle
    have : (h ++ [makeLogEntry r.commandName r.sourceIde r.result r.now]).length - 100 = 0 := by
      omega
    rw [this, List.drop_zero]

theorem drop_append_drop {α : Type} (a b : List α) :
    (a.drop (a.length - 100) ++ b).drop ((a.drop (a.length - 100) ++ b).length - 100) =
      (a ++ b).drop ((a ++ b).length - 100) := by
  have h1 : (a ++ b).drop (a.length - 100) = a.drop (a.length - 100) ++ b :=
    List.drop_append_of_le_length (by omega)
  have h2 : (a ++ b).length - 100 =
      (a.length - 100) + ((a.drop (a.length - 100) ++ b).length - 100) := by
    simp only [List.length_append, List.length_drop]
    omega
  rw [h2, ← List.drop_drop, h1]

theorem recordAll_eq (recordings : List Recording) :
    ∀ h : List LogEntry,
      recordAll h recordings =
        (h.drop (h.length - 100) ++ recordings.map Recording.entry).drop
          ((h.drop (h.length - 100) ++ recordings.map Recording.entry).length - 100) ∨
      recordings = [] := by
  induction recordings with
  | nil => intro h; exact Or.inr rfl
  | cons r rs ih =>
    intro h
    left
    have hstep : recordAll h (r :: rs) =
        recordAll ((h ++ [r.entry]).drop ((h ++ [r.entry]).length - 100)) rs := by
      simp only [recordAll, List.foldl_cons, logCommandExecution_eq]
    rw [hstep]
    rcases ih ((h ++ [r.entry]).drop ((h ++ [r.entry]).length - 100)) with h1 | h1
    · rw [h1]
      have e1 : ((h ++ [r.entry]).drop ((h ++ [r.entry]).length - 100)).length - 100 = 0 := by
        simp only [List.length_drop]
        omega
      rw [e1, List.drop_zero, drop_append_drop, List.map_cons, drop_append_drop]
      simp
    · subst h1
      simp only [recordAll, List.foldl_nil, List.map_cons, List.map_nil]
      rw [drop_append_drop]

/-- C10: after any number `n` of executions recorded with `logCommandExecution` from the
empty history, the history holds exactly the last `min n 100` records, in the order in which
they were recorded; so it never holds more than 100 records, and after 150 recordings it
holds the records 51 to 150. -/
theorem recordAll_keeps_last_100 (recordings : List Recording) :
    recordAll [] recordings =
      (recordings.map Recording.entry).drop (recordings.length - 100) ∧
    (recordAll [] recordings).length = min recordings.length 100 ∧
    (recordAll [] recordings).length ≤ 100 ∧
    (∀ older newer : List Recording, recordings = older ++ newer → older.length = 50 →
      newer.length = 100 → recordAll [] recordings = newer.map Recording.entry) := by
  have hmain : recordAll [] recordings =
      (recordings.map Recording.entry).drop (recordings.length - 100) := by
    rcases recordAll_eq recordings [] with h | h
    · simpa using h
    · subst h; rfl
  refine ⟨hmain, ?_, ?_, ?_⟩
  · rw [hmain]; simp only [List.length_drop, List.length_map]; omega
  · rw [hmain]; simp only [List.length_drop, List.length_map]; omega
  · intro older newer hsplit ho hn
    rw [hmain, hsplit, List.map_append, List.length_append, ho, hn]
    have : (older.map Recording.entry).length = 50 := by simp [ho]
    rw [show 50 + 100 - 100 = (older.map Recording.entry).length by omega,
      List.drop_left]

/-! ## C7, C8: the approval gate of `executeCommand` -/

theorem strictEqualsString_iff (s : Text) (v : JSValue) :
    strictEqualsString s v = true ↔ v = .str s := by
  cases v with
  | str t =>
    simp only [strictEqualsString, beq_iff_eq, JSValue.str.injEq]
    exact eq_comm
  | _ => simp [strictEqualsString]

theorem executionFailure_requiresApproval (fs : FileSystem) (b : CommandBridge)
    (commandName : Text) (options : Options) (clock : Clock) (message : Text)
    (attempted : List StepRecord) :
    (executionFailure fs b commandName options clock message attempted).outcome.requiresApproval
      = false := rfl

theorem executeApproved_requiresApproval (P : Platform) (fs : FileSystem) (b : CommandBridge)
    (commandName : Text) (options : Options) (clock : Clock) (instruction : Instruction)
    (hilStatus : HilStatus) :
    (executeApproved P fs b commandName options clock instruction
      hilStatus).outcome.requiresApproval = false := by
  unfold executeApproved
  split
  · rfl
  · split
    · rfl
    · rfl

/-- With the step executor of the code every step is attempted, in order, and none fails. -/
theorem runWorkflowSteps_shipped (parameters metadata : JSValue) (time : Nat → Text)
    (steps : List WorkflowStep) :
    ∀ (i : Nat) (results : List StepRecord),
      ((runWorkflowSteps (fun i step => executeWorkflowStep step parameters metadata (time i))
          i steps results).1.map StepRecord.step =
        results.map StepRecord.step ++ steps.map (·.name)) ∧
      (runWorkflowSteps (fun i step => executeWorkflowStep step parameters metadata (time i))
          i steps results).2 = none := by
  induction steps with
  | nil => intro i results; simp [runWorkflowSteps]
  | cons step rest ih =>
    intro i results
    have := ih (i + 1) (results ++ [.completed step.name
      { stepName := step.name, executed := true, parameters := parameters,
        timestamp := time i }])
    simpa [runWorkflowSteps, executeWorkflowStep, StepRecord.step] using this

theorem executeApproved_attempted (P : Platform) (fs : FileSystem) (b : CommandBridge)
    (commandName : Text) (options : Options) (clock : Clock) (instruction : Instruction)
    (hilStatus : HilStatus) :
    (executeApproved P fs b commandName options clock instruction hilStatus).attempted.map
        StepRecord.step =
      (parseWorkflowSteps instruction.content).map (·.name) := by
  have h := runWorkflowSteps_shipped options.params instruction.metadata clock.step
    (parseWorkflowSteps instruction.content) 0 []
  unfold executeApproved executeWorkflow
  simp only
  cases hr : runWorkflowSteps
      (fun i step => executeWorkflowStep step options.params instruction.metadata
        (clock.step i)) 0 (parseWorkflowSteps instruction.content) [] with
  | mk results thrown =>
    rw [hr] at h
    simp only [List.map_nil, List.nil_append] at h
    obtain ⟨h1, h2⟩ := h
    subst h2
    simp only
    split
    · exact h1
    · exact h1

/-- C7 (as amended): for a command that passes validation, whose instruction loads and whose
current phase is determined (the search of the ledger does not throw), `executeCommand`
returns, and it returns the blocked outcome (`success` false,
`requiresApproval` true, `approvalLevel` the resolved level, `hilPhase` the current phase, no
`error` field) if and only if the resolved level is not `NONE` and the approval mode is
`auto`; when the level is `NONE` the call goes on to the workflow, where every parsed step is
handed to the step executor. -/
theorem executeCommand_blocked_iff (P : Platform) (fs : FileSystem) (b : CommandBridge)
    (depth : Nat) (commandName : Text) (options : Options) (clock : Clock)
    (instruction : Instruction) (phase : Text)
    (hvalid : validateCommand P fs b commandName = .ok .valid)
    (hload : loadCommandInstruction P fs b depth commandName = some (.ok (some instruction)))
    (hphase : getCurrentHILPhase P b options.featureName = .ok phase) :
    ∃ e : Execution, executeCommand P fs b depth commandName options clock = some e ∧
      ((e.outcome.success = false ∧ e.outcome.requiresApproval = true ∧
          e.outcome.approvalLevel =
            some (getRequiredApprovalLevel P b.config commandName phase) ∧
          e.outcome.hilPhase = some phase ∧ e.outcome.error = none) ↔
        (getRequiredApprovalLevel P b.config commandName phase ≠ .str "NONE".toList ∧
          options.approvalMode = .str "auto".toList)) ∧
      (e.outcome.requiresApproval = true ↔
        (getRequiredApprovalLevel P b.config commandName phase ≠ .str "NONE".toList ∧
          options.approvalMode = .str "auto".toList)) ∧
      (getRequiredApprovalLevel P b.config commandName phase = .str "NONE".toList →
        e.outcome.requiresApproval = false ∧
        e.attempted.map StepRecord.step =
          (parseWorkflowSteps instruction.content).map (·.name)) := by
  have hne : (!strictEqualsString "NONE".toList
        (getRequiredApprovalLevel P b.config commandName phase)) = true ↔
      getRequiredApprovalLevel P b.config commandName phase ≠ .str "NONE".toList := by
    rw [Bool.not_eq_true', ← Bool.not_eq_true, strictEqualsString_iff]
  have hauto := strictEqualsString_iff "auto".toList options.approvalMode
  by_cases hgate : (!strictEqualsString "NONE".toList
        (getRequiredApprovalLevel P b.config commandName phase) &&
      strictEqualsString "auto".toList options.approvalMode) = true
  · have hcond := hgate
    rw [Bool.and_eq_true, hne, hauto] at hcond
    have hexec : executeCommand P fs b depth commandName options clock =
        some
          { outcome :=
              .blocked phase (getRequiredApprovalLevel P b.config commandName phase)
                ("Command ".toList ++ commandName ++ " requires ".toList ++
                  (getRequiredApprovalLevel P b.config commandName phase).toStr ++
                  " approval in ".toList ++ phase ++ " phase".toList)
            bridge := b
            fs := fs
            attempted := []
            writes := [] } := by
      simp only [executeCommand, hvalid, hload, checkHILWorkflowStatus, hphase, hgate, if_true]
    refine ⟨_, hexec, ?_, ?_, ?_⟩
    · exact ⟨fun _ => hcond, fun _ => ⟨rfl, rfl, rfl, rfl, rfl⟩⟩
    · exact ⟨fun _ => hcond, fun _ => rfl⟩
    · intro hnone
      exact absurd hnone hcond.1
  · have hcond : ¬(getRequiredApprovalLevel P b.config commandName phase ≠
          .str "NONE".toList ∧ options.approvalMode = .str "auto".toList) := by
      rw [← hne, ← hauto, ← Bool.and_eq_true]
      exact hgate
    have hexec : executeCommand P fs b depth commandName options clock =
        some (executeApproved P fs b commandName options clock instruction
          { currentPhase := phase
            requiresApproval :=
              !strictEqualsString "NONE".toList
                (getRequiredApprovalLevel P b.config commandName phase)
            approvalLevel := getRequiredApprovalLevel P b.config commandName phase
            commandPhase :=
              (sectionField b.config.commands commandName (·.phase)).or
                (.str "development".toList) }) := by
      simp only [executeCommand, hvalid, hload, checkHILWorkflowStatus, hphase, hgate]
      rfl
    refine ⟨_, hexec, ?_, ?_, ?_⟩
    · constructor
      · intro h
        rw [executeApproved_requiresApproval] at h
        exact absurd h.2.1 (by simp)
      · intro h; exact absurd h hcond
    · constructor
      · intro h
        rw [executeApproved_requiresApproval] at h
        exact absurd h (by simp)
      · intro h; exact absurd h hcond
    · intro _
      exact ⟨executeApproved_requiresApproval _ _ _ _ _ _ _ _,
        executeApproved_attempted _ _ _ _ _ _ _ _⟩

/-- C7, witness: the command `deploy` of the example project, the override `CONFIRM` of the
environment `development` and the approval mode `auto` by default: the call is blocked. -/
theorem executeCommand_blocked_iff_witness :
    ∃ e : Execution,
      executeCommand (examplePlatform none) exampleProject
        (exampleBridge (exampleConfig none
          (some [("development".toList, ⟨.str "CONFIRM".toList⟩)]) .undefined []))
        0 "deploy".toList (exampleOptions .undefined) exampleClock = some e ∧
      e.outcome.success = false ∧ e.outcome.requiresApproval = true ∧
      e.outcome.approvalLevel = some (.str "CONFIRM".toList) ∧
      e.outcome.hilPhase = some "development".toList ∧ e.outcome.error = none := by
  obtain ⟨e, he, h1, -, -⟩ := executeCommand_blocked_iff (examplePlatform none) exampleProject
    (exampleBridge (exampleConfig none
      (some [("development".toList, ⟨.str "CONFIRM".toList⟩)]) .undefined []))
    0 "deploy".toList (exampleOptions .undefined) exampleClock
    { name := "deploy".toList
      content := "### Step 1: Ship\nrun it\n".toList
      metadata := .obj []
      path := "/p/.agaile-os/instructions/core/deploy.md".toList }
    "development".toList rfl rfl rfl
  refine ⟨e, he, h1.2 ⟨?_, rfl⟩⟩
  intro h
  have h2 : getRequiredApprovalLevel (examplePlatform none)
      (exampleBridge (exampleConfig none
        (some [("development".toList, ⟨.str "CONFIRM".toList⟩)]) .undefined [])).config
      "deploy".toList "development".toList = .str "CONFIRM".toList := rfl
  rw [h2] at h
  injection h with h
  revert h
  decide

/-- C7, counterexample: the command `deploy` passes validation, its instruction loads, the
resolved approval level is `CONFIRM` and the approval mode is `auto`, and yet the call does
not return the blocked outcome: for the feature name `(` and a ledger that is not empty the
pattern of `getCurrentHILPhase` is rejected, and the call returns a failure with an `error`
field. -/
theorem executeCommand_phase_error_not_blocked :
    validateCommand rejectingPlatform exampleProject
        { exampleBridge (exampleConfig none
            (some [("development".toList, ⟨.str "CONFIRM".toList⟩)]) .undefined []) with
          masterTracking := "# Ledger\n".toList }
        "deploy".toList = .ok .valid ∧
    loadCommandInstruction rejectingPlatform exampleProject
        { exampleBridge (exampleConfig none
            (some [("development".toList, ⟨.str "CONFIRM".toList⟩)]) .undefined []) with
          masterTracking := "# Ledger\n".toList }
        0 "deploy".toList =
      some (.ok (some
        { name := "deploy".toList
          content := "### Step 1: Ship\nrun it\n".toList
          metadata := .obj []
          path := "/p/.agaile-os/instructions/core/deploy.md".toList })) ∧
    getRequiredApprovalLevel rejectingPlatform
        (exampleConfig none (some [("development".toList, ⟨.str "CONFIRM".toList⟩)])
          .undefined [])
        "deploy".toList "development".toList = .str "CONFIRM".toList ∧
    Options.approvalMode
        { sourceIde := none, featureName := .str "(".toList, parameters := .undefined,
          approval := .undefined } = .str "auto".toList ∧
    ∃ e : Execution,
      executeCommand rejectingPlatform exampleProject
        { exampleBridge (exampleConfig none
            (some [("development".toList, ⟨.str "CONFIRM".toList⟩)]) .undefined []) with
          masterTracking := "# Ledger\n".toList }
        0 "deploy".toList
        { sourceIde := none, featureName := .str "(".toList, parameters := .undefined,
          approval := .undefined }
        exampleClock = some e ∧
      e.outcome.requiresApproval = false ∧
      e.outcome.error = some ("Invalid regular expression: ".toList ++
        "/(:\\s*\\n(?:[^\\n]*\\n)*?\\s*phase:\\s*([^\\n]+)/i: Unterminated group".toList) :=
  ⟨rfl, rfl, rfl, rfl, _, rfl, rfl, rfl⟩

/-- C8: whenever `executeCommand` refuses a command for lack of approval, nothing of the
command is executed: no workflow step is handed to the step executor, `fs.writeFileSync` is
not called and the file system is as before, and the ledger text and the command history of
the instance are as before. -/
theorem executeCommand_blocked_no_effect (P : Platform) (fs : FileSystem) (b : CommandBridge)
    (depth : Nat) (commandName : Text) (options : Options) (clock : Clock) (e : Execution)
    (hrun : executeCommand P fs b depth commandName options clock = some e)
    (hblocked : e.outcome.requiresApproval = true) :
    e.attempted = [] ∧ e.writes = [] ∧ e.fs = fs ∧
      e.bridge.masterTracking = b.masterTracking ∧
      e.bridge.commandHistory = b.commandHistory := by
  unfold executeCommand at hrun
  split at hrun
  · simp only [Option.some.injEq] at hrun; subst hrun
    simp [executionFailure_requiresApproval] at hblocked
  · simp only [Option.some.injEq] at hrun; subst hrun
    simp [executionFailure_requiresApproval] at hblocked
  · split at hrun
    · simp at hrun
    · simp only [Option.some.injEq] at hrun; subst hrun
      simp [executionFailure_requiresApproval] at hblocked
    · simp only [Option.some.injEq] at hrun; subst hrun
      simp [executionFailure_requiresApproval] at hblocked
    · split at hrun
      · simp only [Option.some.injEq] at hrun; subst hrun
        simp [executionFailure_requiresApproval] at hblocked
      · split at hrun
        · simp only [Option.some.injEq] at hrun; subst hrun
          exact ⟨rfl, rfl, rfl, rfl, rfl⟩
        · simp only [Option.some.injEq] at hrun; subst hrun
          simp [executeApproved_requiresApproval] at hblocked

/-- C8, witness: the blocked call of `deploy` in the example project. -/
theorem executeCommand_blocked_no_effect_witness :
    ∃ e : Execution,
      executeCommand (examplePlatform none) exampleProject
        (exampleBridge (exampleConfig none none .undefined []))
        0 "deploy".toList (exampleOptions (.str "auto".toList)) exampleClock = some e ∧
      e.outcome.requiresApproval = true ∧
      e.attempted = [] ∧ e.writes = [] ∧ e.fs = exampleProject ∧
      e.bridge.masterTracking = [] ∧ e.bridge.commandHistory = [] :=
  ⟨_, rfl, rfl,
    executeCommand_blocked_no_effect (examplePlatform none) exampleProject
      (exampleBridge (exampleConfig none none .undefined []))
      0 "deploy".toList (exampleOptions (.str "auto".toList)) exampleClock _ rfl rfl⟩

/-! ## C11, C19: the workflow executor -/

theorem includes_self_append (needle b : Text) : includes (needle ++ b) needle = true := by
  cases h : needle ++ b with
  | nil =>
    have : needle = [] := (List.append_eq_nil.1 h).1
    simp [includes, this]
  | cons c rest =>
    have hp : needle.isPrefixOf (c :: rest) = true := by
      rw [← h, List.isPrefixOf_iff_prefix]
      exact List.prefix_append _ _
    simp [includes, hp]

theorem includes_middle (a needle b : Text) : includes (a ++ needle ++ b) needle = true := by
  induction a with
  | nil => simpa using includes_self_append needle b
  | cons c a ih =>
    simp only [List.cons_append, includes, Bool.or_eq_true]
    exact Or.inr ih

theorem matchStep_critical {s : Text} {step : WorkflowStep} {n : Nat}
    (h : matchStep s = some (step, n)) : step.critical = true := by
  unfold matchStep at h
  split at h
  · simp at h
  · split at h
    · simp at h
    · simp only [Option.some.injEq, Prod.mk.injEq] at h
      rw [← h.1]

theorem parseWorkflowStepsFrom_critical (text : Text) :
    ∀ (k : Nat) (step : WorkflowStep), step ∈ parseWorkflowStepsFrom k text →
      step.critical = true := by
  induction text with
  | nil => intro k step h; cases k <;> simp [parseWorkflowStepsFrom] at h
  | cons c rest ih =>
    intro k step h
    cases k with
    | succ k => exact ih k step (by simpa [parseWorkflowStepsFrom] using h)
    | zero =>
      rw [parseWorkflowStepsFrom] at h
      split at h
      · rename_i found n hm
        rcases List.mem_cons.1 h with h | h
        · rw [h]; exact matchStep_critical hm
        · exact ih _ step h
      · exact ih _ step h

theorem parseWorkflowSteps_critical (content : Text) (step : WorkflowStep)
    (h : step ∈ parseWorkflowSteps content) : step.critical = true :=
  parseWorkflowStepsFrom_critical content 0 step h

/-- The loop passes over a run of steps that the executor completes: one completed record for
each, in order. -/
theorem runWorkflowSteps_completed (executor : Nat → WorkflowStep → Except Text StepResult)
    (rest : List WorkflowStep) :
    ∀ (pre : List WorkflowStep) (i : Nat) (results : List StepRecord),
      (∀ (j : Nat) (h : j < pre.length), ∃ r, executor (i + j) (pre.get ⟨j, h⟩) = .ok r) →
      ∃ done : List StepRecord,
        done.map StepRecord.step = pre.map (·.name) ∧
        done.all (·.success) = true ∧
        done.length = pre.length ∧
        runWorkflowSteps executor i (pre ++ rest) results =
          runWorkflowSteps executor (i + pre.length) rest (results ++ done) := by
  intro pre
  induction pre with
  | nil => intro i results _; exact ⟨[], rfl, rfl, rfl, by simp⟩
  | cons s pre ih =>
    intro i results hok
    obtain ⟨r, hr⟩ := hok 0 (by simp)
    simp only [Nat.add_zero, List.get_eq_getElem, List.getElem_cons_zero] at hr
    have hrest : ∀ (j : Nat) (h : j < pre.length),
        ∃ r, executor (i + 1 + j) (pre.get ⟨j, h⟩) = .ok r := by
      intro j h
      have := hok (j + 1) (by simp; omega)
      simpa [Nat.add_assoc, Nat.add_comm 1 j] using this
    obtain ⟨done, h1, h2, h3, h4⟩ := ih (i + 1) (results ++ [.completed s.name r]) hrest
    refine ⟨.completed s.name r :: done, ?_, ?_, ?_, ?_⟩
    · simp [StepRecord.step, h1]
    · rw [List.all_cons, h2]; rfl
    · simp [h3]
    · rw [List.cons_append, runWorkflowSteps, hr]
      simp only
      rw [h4]
      simp [Nat.add_assoc, Nat.add_comm 1 pre.length]

theorem filter_success_of_all (done : List StepRecord) (h : done.all (·.success) = true) :
    (done.filter (·.success)).length = done.length ∧
    (done.filter (fun r => !r.success)).length = 0 := by
  induction done with
  | nil => exact ⟨rfl, rfl⟩
  | cons r done ih =>
    simp only [List.all_cons, Bool.and_eq_true] at h
    obtain ⟨h1, h2⟩ := ih h.2
    simp only [List.length_eq_zero] at h2
    simp [List.filter_cons, h.1, h1, h2]

/-- The workflow when the executor completes every parsed step. -/
theorem executeWorkflow_all_completed
    (executor : Nat → WorkflowStep → Except Text StepResult) (commandName : Text)
    (instruction : Instruction) (now : Text)
    (hok : ∀ (j : Nat) (h : j < (parseWorkflowSteps instruction.content).length),
      ∃ r, executor j ((parseWorkflowSteps instruction.content).get ⟨j, h⟩) = .ok r) :
    ∃ result : WorkflowResult,
      (executeWorkflow executor commandName instruction now).2 = .ok result ∧
      (executeWorkflow executor commandName instruction now).1 = result.results ∧
      result.results.map StepRecord.step =
        (parseWorkflowSteps instruction.content).map (·.name) ∧
      result.totalSteps = (parseWorkflowSteps instruction.content).length ∧
      result.completedSteps = result.totalSteps ∧
      result.failedSteps = 0 ∧
      result.success = true ∧
      result.results.all (·.success) = true := by
  obtain ⟨done, h1, h2, h3, h4⟩ := runWorkflowSteps_completed executor []
    (parseWorkflowSteps instruction.content) 0 [] (by simpa using hok)
  simp only [List.append_nil, List.nil_append, runWorkflowSteps] at h4
  obtain ⟨f1, f2⟩ := filter_success_of_all done h2
  unfold executeWorkflow
  simp only [h4]
  exact ⟨_, rfl, rfl, h1, rfl, by simp [f1, h3], by simp [f2], h2, h2⟩

/-- C11: every step that `parseWorkflowSteps` produces is critical; for every step executor,
`executeWorkflow` hands the parsed steps to the executor in document order, each once, as
long as they complete; and when the executor fails at a step, the steps before it having
completed, the failed step is the last one attempted, no later step is handed to the
executor, and the workflow throws an error that names the failed step. -/
theorem executeWorkflow_fail_fast (executor : Nat → WorkflowStep → Except Text StepResult)
    (commandName : Text) (instruction : Instruction) (now : Text) :
    (∀ step ∈ parseWorkflowSteps instruction.content, step.critical = true) ∧
    (∀ (pre : List WorkflowStep) (failing : WorkflowStep) (post : List WorkflowStep)
        (message : Text),
      parseWorkflowSteps instruction.content = pre ++ failing :: post →
      (∀ (j : Nat) (h : j < pre.length), ∃ r, executor j (pre.get ⟨j, h⟩) = .ok r) →
      executor pre.length failing = .error message →
      ∃ done : List StepRecord,
        (executeWorkflow executor commandName instruction now).1 =
          done ++ [.failed failing.name message] ∧
        done.map StepRecord.step = pre.map (·.name) ∧
        done.all (·.success) = true ∧
        (executeWorkflow executor commandName instruction now).1.length = pre.length + 1 ∧
        (executeWorkflow executor commandName instruction now).2 =
          .error ("Critical step failed: ".toList ++ failing.name ++ " - ".toList ++
            message) ∧
        includes ("Critical step failed: ".toList ++ failing.name ++ " - ".toList ++ message)
          failing.name = true) ∧
    ((∀ (j : Nat) (h : j < (parseWorkflowSteps instruction.content).length),
        ∃ r, executor j ((parseWorkflowSteps instruction.content).get ⟨j, h⟩) = .ok r) →
      (executeWorkflow executor commandName instruction now).1.map StepRecord.step =
        (parseWorkflowSteps instruction.content).map (·.name) ∧
      ((executeWorkflow executor commandName instruction now).1.all (·.success)) = true) := by
  refine ⟨fun step h => parseWorkflowSteps_critical _ step h, ?_, ?_⟩
  · intro pre failing post message hsteps hok hfail
    have hcrit : failing.critical = true :=
      parseWorkflowSteps_critical instruction.content failing (by rw [hsteps]; simp)
    obtain ⟨done, h1, h2, h3, h4⟩ := runWorkflowSteps_completed executor (failing :: post)
      pre 0 [] (by simpa using hok)
    simp only [Nat.zero_add, List.nil_append] at h4
    have hrun : runWorkflowSteps executor 0 (pre ++ failing :: post) [] =
        (done ++ [.failed failing.name message],
          some ("Critical step failed: ".toList ++ failing.name ++ " - ".toList ++
            message)) := by
      rw [h4, runWorkflowSteps, hfail]
      simp [hcrit]
    refine ⟨done, ?_, h1, h2, ?_, ?_, ?_⟩
    · simp only [executeWorkflow, hsteps, hrun]
    · simp only [executeWorkflow, hsteps, hrun]
      simp [h3]
    · simp only [executeWorkflow, hsteps, hrun]
    · have := includes_middle "Critical step failed: ".toList failing.name
        (" - ".toList ++ message)
      simpa [List.append_assoc] using this
  · intro hok
    obtain ⟨result, -, h2, h3, -, -, -, -, h8⟩ :=
      executeWorkflow_all_completed executor commandName instruction now hok
    exact ⟨by rw [h2]; exact h3, by rw [h2]; exact h8⟩

/-- C11, witness: three steps, the executor completes the first and fails at the second: two
steps are attempted, the third is not, and the error names the step `B`. -/
theorem executeWorkflow_fail_fast_witness :
    (executeWorkflow secondStepFails "deploy".toList
        (exampleInstruction "### Step 1: A\n### Step 2: B\n### Step 3: C\n".toList)
        "T".toList).1.length = 2 ∧
    (executeWorkflow secondStepFails "deploy".toList
        (exampleInstruction "### Step 1: A\n### Step 2: B\n### Step 3: C\n".toList)
        "T".toList).2 = .error "Critical step failed: B - boom".toList := by
  obtain ⟨done, -, -, -, h4, h5, -⟩ :=
    (executeWorkflow_fail_fast secondStepFails "deploy".toList
      (exampleInstruction "### Step 1: A\n### Step 2: B\n### Step 3: C\n".toList)
      "T".toList).2.1
      [{ number := 1, name := "A".toList, content := [], critical := true }]
      { number := 2, name := "B".toList, content := [], critical := true }
      [{ number := 3, name := "C".toList, content := [], critical := true }]
      "boom".toList rfl
      (fun j h => by
        have hj : j = 0 := by simpa using h
        subst hj
        exact ⟨_, rfl⟩)
      rfl
  exact ⟨h4, h5⟩

theorem parseWorkflowStepsFrom_no_heading (text : Text) (h : hasStepHeading text = false) :
    ∀ k : Nat, parseWorkflowStepsFrom k text = [] := by
  induction text with
  | nil => intro k; cases k <;> rfl
  | cons c rest ih =>
    simp only [hasStepHeading, Bool.or_eq_false_iff] at h
    intro k
    cases k with
    | succ k => simpa [parseWorkflowStepsFrom] using ih h.2 k
    | zero =>
      have hnone : matchStepHeading (c :: rest) = none := by
        cases hm : matchStepHeading (c :: rest) with
        | none => rfl
        | some x => simp [hm] at h
      have hstep : matchStep (c :: rest) = none := by
        unfold matchStep
        rw [hnone]
      rw [parseWorkflowStepsFrom, hstep]
      exact ih h.2 0

/-- C19: with the step executor of the code, `executeWorkflow` does not throw: for every
instruction content it returns a result whose `totalSteps` is the number of parsed steps,
whose `completedSteps` equals `totalSteps`, whose `failedSteps` is 0 and whose `success` is
true; for a content without a step heading `totalSteps` is 0 and `success` is true. -/
theorem executeWorkflow_shipped_succeeds (commandName : Text) (instruction : Instruction)
    (parameters : JSValue) (time : Nat → Text) (now : Text) :
    ∃ result : WorkflowResult,
      (executeWorkflow
        (fun i step => executeWorkflowStep step parameters instruction.metadata (time i))
        commandName instruction now).2 = .ok result ∧
      result.totalSteps = (parseWorkflowSteps instruction.content).length ∧
      result.completedSteps = result.totalSteps ∧
      result.failedSteps = 0 ∧
      result.success = true ∧
      (hasStepHeading instruction.content = false →
        result.totalSteps = 0 ∧ result.success = true) := by
  obtain ⟨result, h1, -, -, h4, h5, h6, h7, -⟩ :=
    executeWorkflow_all_completed
      (fun i step => executeWorkflowStep step parameters instruction.metadata (time i))
      commandName instruction now (fun j h => ⟨_, rfl⟩)
  refine ⟨result, h1, h4, h5, h6, h7, fun hno => ⟨?_, h7⟩⟩
  rw [h4, parseWorkflowSteps, parseWorkflowStepsFrom_no_heading _ hno 0]
  rfl

/-- C19, witness: an instruction content without a step heading. -/
theorem executeWorkflow_shipped_succeeds_witness :
    ∃ result : WorkflowResult,
      (executeWorkflow
        (fun i step => executeWorkflowStep step (.obj []) (.obj []) (exampleClock.step i))
        "deploy".toList (exampleInstruction "# Deploy\nShip it.\n".toList)
        "T".toList).2 = .ok result ∧
      result.totalSteps = 0 ∧ result.completedSteps = 0 ∧ result.failedSteps = 0 ∧
      result.success = true := by
  obtain ⟨result, h1, -, h3, h4, h5, h6⟩ :=
    executeWorkflow_shipped_succeeds "deploy".toList
      (exampleInstruction "# Deploy\nShip it.\n".toList) (.obj []) exampleClock.step
      "T".toList
  have h0 := (h6 (by decide)).1
  exact ⟨result, h1, h0, by rw [h3, h0], h4, h5⟩

/-! ## C12, C13: the tracking ledger -/

/-- C12, the code at the failing input: a bridge constructed on a ledger `# Ledger` executes
`deploy` at `T1` and then at `T2`.  Both executions succeed; after the first the ledger file
holds the ledger text and the entry of `T1`, after the second the ledger text and the entry
of `T2`: the previous content is not a prefix of the new content and the entry of `T1` is
gone (`updateTracking` writes the text loaded by the constructor plus one entry). -/
theorem updateTracking_overwrites_earlier_entry :
    ∃ (b : CommandBridge) (e1 e2 : Execution),
      newCommandBridge (examplePlatform none) trackedProject trackedConfig "/p".toList =
        .ok b ∧
      executeCommand (examplePlatform none) trackedProject b 0 "deploy".toList
        (exampleOptions .undefined) (clockAt "T1".toList) = some e1 ∧
      executeCommand (examplePlatform none) e1.fs e1.bridge 0 "deploy".toList
        (exampleOptions .undefined) (clockAt "T2".toList) = some e2 ∧
      e1.outcome.success = true ∧ e2.outcome.success = true ∧
      e1.fs.readFileSync "/p/.agaile-os/MASTER_TRACKING.md".toList =
        some ("# Ledger\n\n<!-- Command Execution Log -->\n".toList ++
          "<!-- T1: deploy executed via unknown -->\n".toList ++
          "<!-- Success: true, Steps: 1/1 -->\n".toList) ∧
      e2.fs.readFileSync "/p/.agaile-os/MASTER_TRACKING.md".toList =
        some ("# Ledger\n\n<!-- Command Execution Log -->\n".toList ++
          "<!-- T2: deploy executed via unknown -->\n".toList ++
          "<!-- Success: true, Steps: 1/1 -->\n".toList) ∧
      List.isPrefixOf
        ("# Ledger\n\n<!-- Command Execution Log -->\n".toList ++
          "<!-- T1: deploy executed via unknown -->\n".toList ++
          "<!-- Success: true, Steps: 1/1 -->\n".toList)
        ("# Ledger\n\n<!-- Command Execution Log -->\n".toList ++
          "<!-- T2: deploy executed via unknown -->\n".toList ++
          "<!-- Success: true, Steps: 1/1 -->\n".toList) = false ∧
      includes
        ("# Ledger\n\n<!-- Command Execution Log -->\n".toList ++
          "<!-- T2: deploy executed via unknown -->\n".toList ++
          "<!-- Success: true, Steps: 1/1 -->\n".toList)
        "<!-- T1: deploy executed via unknown -->".toList = false :=
  ⟨_, _, _, rfl, rfl, rfl, rfl, rfl, rfl, rfl, by decide, by decide⟩

/-- The first execution of a bridge appends to what the constructor loaded: the text that
`updateTracking` writes starts with the ledger text of the instance. -/
theorem updateTracking_writes_extension (P : Platform) (fs : FileSystem) (b : CommandBridge)
    (commandName : Text) (result : WorkflowResult) (sourceIde now : Text) (fs' : FileSystem)
    (writes : List (Path × Text))
    (h : updateTracking P fs b commandName result sourceIde now = .ok (fs', writes)) :
    ∃ trackingPath : Path,
      writes = [(trackingPath,
        b.masterTracking ++ trackingLogEntry commandName sourceIde result now)] := by
  unfold updateTracking at h
  split at h
  · simp at h
  · split at h
    · simp only at h
      split at h
      · simp only [Except.ok.injEq, Prod.mk.injEq] at h
        exact ⟨_, h.2.symm⟩
      · simp only [Except.ok.injEq, Prod.mk.injEq] at h
        exact ⟨_, h.2.symm⟩
    · simp at h

/-- C13, the code at the failing input: a configuration without the section `feature_tracking`
(the ledger path of the legacy section `project`), with which a bridge is constructed; the
workflow of `deploy` completes (its one step is attempted and none fails), and
`executeCommand` returns `success` false with the error of reading `master_tracking` of
`undefined`: the ledger path is computed outside the `try` of `updateTracking`. -/
theorem executeCommand_fails_without_feature_tracking :
    ∃ (b : CommandBridge) (e : Execution),
      newCommandBridge (examplePlatform none) trackedProject
        { trackedConfig with
          feature_tracking := none
          project := some ⟨.str ".agaile-os/MASTER_TRACKING.md".toList⟩ }
        "/p".toList = .ok b ∧
      b.masterTracking = "# Ledger\n".toList ∧
      executeCommand (examplePlatform none) trackedProject b 0 "deploy".toList
        (exampleOptions .undefined) exampleClock = some e ∧
      e.attempted.length = 1 ∧ e.attempted.all (·.success) = true ∧
      e.outcome.success = false ∧
      e.outcome.error =
        some "Cannot read properties of undefined (reading 'master_tracking')".toList :=
  ⟨_, _, rfl, rfl, rfl, rfl, rfl, rfl, rfl⟩

/-- When the ledger path is a string, a failing write of the ledger file does not change the
outcome: the call returns `success` true whether or not the file can be written. -/
theorem executeApproved_success_of_ledger_path (P : Platform) (fs : FileSystem)
    (b : CommandBridge) (commandName : Text) (options : Options) (clock : Clock)
    (instruction : Instruction) (hilStatus : HilStatus) (relative : Text)
    (hpath : b.config.feature_tracking = some ⟨.str relative⟩) :
    (executeApproved P fs b commandName options clock instruction hilStatus).outcome.success
      = true := by
  obtain ⟨result, h1, h2, -⟩ :=
    executeWorkflow_all_completed
      (fun i step => executeWorkflowStep step options.params instruction.metadata
        (clock.step i))
      commandName instruction clock.workflowEnd (fun j h => ⟨_, rfl⟩)
  unfold executeApproved
  cases hw : executeWorkflow
      (fun i step => executeWorkflowStep step options.params instruction.metadata
        (clock.step i))
      commandName instruction clock.workflowEnd with
  | mk attempted thrown =>
    rw [hw] at h1
    simp only at h1
    subst h1
    simp only [updateTracking, hpath]
    by_cases hwr : fs.writable (P.path.resolve b.projectRoot relative) = true
    · simp only [hwr, if_true, Outcome.success]
    · have hwf : fs.writable (P.path.resolve b.projectRoot relative) = false := by
        simpa using hwr
      simp only [hwf, Outcome.success]
      rfl

/-! ## C17: metadata extraction -/

/-- C17, the code at the failing input: the text starts with a front-matter block whose body
is empty; `yaml.load` yields `undefined` for the empty document, and `extractMetadata`
returns `undefined`, not an object. -/
theorem extractMetadata_empty_body_undefined :
    matchFrontmatter "---\n\n---\n# Deploy\n".toList = some [] ∧
    exampleYaml [] = some .undefined ∧
    extractMetadata exampleYaml "---\n\n---\n# Deploy\n".toList = .undefined :=
  ⟨by decide, rfl, rfl⟩

/-- What `extractMetadata` returns: the empty object when the front-matter pattern does not
match at the start of the text or when `yaml.load` throws on the body, and otherwise the
value that `yaml.load` returns for the body, whatever it is. -/
theorem extractMetadata_cases (yamlLoad : Text → Option JSValue) (content : Text) :
    (matchFrontmatter content = none → extractMetadata yamlLoad content = .obj []) ∧
    (∀ body, matchFrontmatter content = some body → yamlLoad body = none →
      extractMetadata yamlLoad content = .obj []) ∧
    (∀ body value, matchFrontmatter content = some body → yamlLoad body = some value →
      extractMetadata yamlLoad content = value) := by
  refine ⟨?_, ?_, ?_⟩
  · intro h; simp [extractMetadata, h]
  · intro body h1 h2; simp [extractMetadata, h1, h2]
  · intro body value h1 h2; simp [extractMetadata, h1, h2]

/-! ## C18: validation failures -/

/-- C18, the code at the failing input: the instruction of `deploy` exists and the project has
no `package.json`; `executeCommand` returns `success` false and the error with the reason
`Not a valid project directory`, and the list of suggestions is empty. -/
theorem executeCommand_invalid_project_no_suggestions :
    ∃ e : Execution,
      executeCommand (examplePlatform none)
        (filesOf [("/p/.agaile-os/instructions/core/deploy.md".toList,
          "### Step 1: Ship\nrun it\n".toList)])
        (exampleBridge trackedConfig) 0 "deploy".toList (exampleOptions .undefined)
        exampleClock = some e ∧
      e.outcome.success = false ∧
      e.outcome.error =
        some "Command validation failed: Not a valid project directory".toList ∧
      e.outcome.suggestions = some [] :=
  ⟨_, rfl, rfl, rfl, rfl⟩

/-- The two other validation failures come with suggestions: the error of a missing
instruction file holds `not found`, the error of an unmet dependency holds `Dependencies`. -/
theorem getErrorSuggestions_nonempty (path : Path) (missing : Text) :
    getErrorSuggestions
        ("Command validation failed: ".toList ++
          ("Instruction file not found: ".toList ++ path)) ≠ [] ∧
    getErrorSuggestions
        ("Command validation failed: ".toList ++
          ("Dependencies not satisfied: ".toList ++ missing)) ≠ [] := by
  have h1 : includes
      ("Command validation failed: ".toList ++
        ("Instruction file not found: ".toList ++ path)) "not found".toList = true := by
    have := includes_middle "Command validation failed: Instruction file ".toList
      "not found".toList (": ".toList ++ path)
    simpa using this
  have h2 : includes
      ("Command validation failed: ".toList ++
        ("Dependencies not satisfied: ".toList ++ missing)) "Dependencies".toList = true := by
    have := includes_middle "Command validation failed: ".toList
      "Dependencies".toList (" not satisfied: ".toList ++ missing)
    simpa using this
  constructor
  · unfold getErrorSuggestions
    rw [h1]
    simp
  · unfold getErrorSuggestions
    rw [h2]
    split <;> simp

/-! ## C14: the list-valued variables -/

theorem formatIntegrationPoints_fallback (v : JSValue)
    (h : ∀ item items, v ≠ .arr (item :: items)) :
    formatIntegrationPoints (v.or (.arr [])) =
      "- AgAIle OS HIL Workflow\n- MASTER_TRACKING.md updates".toList := by
  cases v with
  | arr items =>
    cases items with
    | nil => rfl
    | cons item items => exact absurd rfl (h item items)
  | bool b => cases b <;> rfl
  | num n =>
    unfold JSValue.or
    split <;> rfl
  | str s =>
    unfold JSValue.or
    split <;> rfl
  | _ => rfl

theorem formatContextRequirements_fallback (v : JSValue)
    (h : ∀ item items, v ≠ .arr (item :: items)) :
    formatContextRequirements (v.or (.arr [])) =
      "- Project context from .agaile-os/\n- Current HIL phase status".toList := by
  cases v with
  | arr items =>
    cases items with
    | nil => rfl
    | cons item items => exact absurd rfl (h item items)
  | bool b => cases b <;> rfl
  | num n =>
    unfold JSValue.or
    split <;> rfl
  | str s =>
    unfold JSValue.or
    split <;> rfl
  | _ => rfl

theorem formatExpectedOutcomes_fallback (v : JSValue)
    (h : ∀ item items, v ≠ .arr (item :: items)) :
    formatExpectedOutcomes (v.or (.arr [])) =
      ("- Successful workflow execution\n- Updated project tracking\n".toList ++
        "- HIL phase progression".toList) := by
  cases v with
  | arr items =>
    cases items with
    | nil => rfl
    | cons item items => exact absurd rfl (h item items)
  | bool b => cases b <;> rfl
  | num n =>
    unfold JSValue.or
    split <;> rfl
  | str s =>
    unfold JSValue.or
    split <;> rfl
  | _ => rfl

theorem formatDependencies_fallback (v : JSValue)
    (h : ∀ item items, v ≠ .arr (item :: items)) :
    formatDependencies (v.or (.arr [])) = "None".toList := by
  cases v with
  | arr items =>
    cases items with
    | nil => rfl
    | cons item items => exact absurd rfl (h item items)
  | bool b => cases b <;> rfl
  | num n =>
    unfold JSValue.or
    split <;> rfl
  | str s =>
    unfold JSValue.or
    split <;> rfl
  | _ => rfl

theorem generateVariables_eq_some {pp : ProcessorPath} {proc : CommandProcessor}
    {instructionPath : Path} {metadata : JSValue} {vars : JSObject}
    (h : generateVariables pp proc instructionPath metadata = some vars) :
    vars.own "integration_points".toList =
        some (.str (formatIntegrationPoints
          ((optField metadata "integrations".toList).or (.arr [])))) ∧
    vars.own "context_requirements".toList =
        some (.str (formatContextRequirements
          ((optField metadata "context".toList).or (.arr [])))) ∧
    vars.own "expected_outcomes".toList =
        some (.str (formatExpectedOutcomes
          ((optField metadata "outcomes".toList).or (.arr [])))) ∧
    vars.own "dependencies".toList =
        some (.str (formatDependencies
          ((optField metadata "dependencies".toList).or (.arr [])))) := by
  unfold generateVariables at h
  split at h
  · simp at h
  · simp at h
  · simp only [Option.some.injEq] at h
    subst h
    exact ⟨rfl, rfl, rfl, rfl⟩

/-- C14 (as amended): in the variables of `generateVariables`, each of the metadata fields
`integrations`, `context` and `outcomes` is formatted as a bulleted list: a non-empty list
gives one line `- item` for each element, in order, joined by line feeds, and an absent,
empty or non-list value gives the bulleted list of defaults of the field; the field
`dependencies` is formatted on one line: a non-empty list gives its elements joined by `, `,
and an absent, empty or non-list value gives `None`. -/
theorem generateVariables_lists (pp : ProcessorPath) (proc : CommandProcessor)
    (instructionPath : Path) (metadata : JSValue) (vars : JSObject)
    (h : generateVariables pp proc instructionPath metadata = some vars) :
    (∀ item items, optField metadata "integrations".toList = .arr (item :: items) →
      vars.own "integration_points".toList = some (.str (bulleted (item :: items)))) ∧
    ((∀ item items, optField metadata "integrations".toList ≠ .arr (item :: items)) →
      vars.own "integration_points".toList =
        some (.str "- AgAIle OS HIL Workflow\n- MASTER_TRACKING.md updates".toList)) ∧
    (∀ item items, optField metadata "context".toList = .arr (item :: items) →
      vars.own "context_requirements".toList = some (.str (bulleted (item :: items)))) ∧
    ((∀ item items, optField metadata "context".toList ≠ .arr (item :: items)) →
      vars.own "context_requirements".toList =
        some (.str "- Project context from .agaile-os/\n- Current HIL phase status".toList)) ∧
    (∀ item items, optField metadata "outcomes".toList = .arr (item :: items) →
      vars.own "expected_outcomes".toList = some (.str (bulleted (item :: items)))) ∧
    ((∀ item items, optField metadata "outcomes".toList ≠ .arr (item :: items)) →
      vars.own "expected_outcomes".toList =
        some (.str ("- Successful workflow execution\n- Updated project tracking\n".toList ++
          "- HIL phase progression".toList))) ∧
    (∀ item items, optField metadata "dependencies".toList = .arr (item :: items) →
      vars.own "dependencies".toList =
        some (.str (joinWith ", ".toList (item :: items)))) ∧
    ((∀ item items, optField metadata "dependencies".toList ≠ .arr (item :: items)) →
      vars.own "dependencies".toList = some (.str "None".toList)) := by
  obtain ⟨h1, h2, h3, h4⟩ := generateVariables_eq_some h
  refine ⟨?_, ?_, ?_, ?_, ?_, ?_, ?_, ?_⟩
  · intro item items hv; rw [h1, hv]; rfl
  · intro hv; rw [h1, formatIntegrationPoints_fallback _ hv]
  · intro item items hv; rw [h2, hv]; rfl
  · intro hv; rw [h2, formatContextRequirements_fallback _ hv]
  · intro item items hv; rw [h3, hv]; rfl
  · intro hv; rw [h3, formatExpectedOutcomes_fallback _ hv]
  · intro item items hv; rw [h4, hv]; rfl
  · intro hv; rw [h4, formatDependencies_fallback _ hv]

/-- C14, witness: metadata with two integrations. -/
theorem generateVariables_lists_witness :
    ∃ vars : JSObject,
      generateVariables simpleProcessorPath (exampleProcessor [])
          "/p/.agaile-os/instructions/core/deploy.md".toList
          (.obj [("integrations".toList, .arr [.str "git".toList, .str "ci".toList])]) =
        some vars ∧
      vars.own "integration_points".toList = some (.str "- git\n- ci".toList) ∧
      vars.own "dependencies".toList = some (.str "None".toList) :=
  ⟨_, rfl,
    (generateVariables_lists simpleProcessorPath (exampleProcessor [])
      "/p/.agaile-os/instructions/core/deploy.md".toList
      (.obj [("integrations".toList, .arr [.str "git".toList, .str "ci".toList])]) _ rfl).1
      (.str "git".toList) [.str "ci".toList] rfl,
    rfl⟩

/-- C14, counterexample: the metadata field `dependencies` holding the list `a, b` is not
formatted as a bulleted list: the variable `dependencies` is `a, b`, not `- a` and `- b` on
two lines; and without the field it is `None`. -/
theorem generateVariables_dependencies_not_bulleted :
    (generateVariables simpleProcessorPath (exampleProcessor [])
        "/p/.agaile-os/instructions/core/deploy.md".toList
        (.obj [("dependencies".toList, .arr [.str "a".toList, .str "b".toList])])).bind
      (·.own "dependencies".toList) = some (.str "a, b".toList) ∧
    "a, b".toList ≠ bulleted [.str "a".toList, .str "b".toList] ∧
    bulleted [.str "a".toList, .str "b".toList] = "- a\n- b".toList ∧
    (generateVariables simpleProcessorPath (exampleProcessor [])
        "/p/.agaile-os/instructions/core/deploy.md".toList (.obj [])).bind
      (·.own "dependencies".toList) = some (.str "None".toList) :=
  ⟨rfl, by decide, by decide, rfl⟩

/-! ## C15: the output directory of an integration -/

/-- For the integrations `claude_code` and `cursor`, the target directory is the configured
`commands_directory` when it is a truthy string, and the convention default of the
integration when none is configured, resolved against the project root. -/
theorem targetPath_known_ide (pp : ProcessorPath) (proc : CommandProcessor)
    (ideConfig : IdeConfig) :
    (∀ configured, ideConfig.commands_directory = .str configured → configured ≠ [] →
      targetPath pp proc "claude_code".toList ideConfig =
          some (pp.resolve proc.projectRoot configured) ∧
        targetPath pp proc "cursor".toList ideConfig =
          some (pp.resolve proc.projectRoot configured)) ∧
    (ideConfig.commands_directory = .undefined →
      targetPath pp proc "claude_code".toList ideConfig =
          some (pp.resolve proc.projectRoot ".claude/commands".toList) ∧
        targetPath pp proc "cursor".toList ideConfig =
          some (pp.resolve proc.projectRoot ".cursor/commands".toList)) := by
  constructor
  · intro configured h hne
    cases configured with
    | nil => exact absurd rfl hne
    | cons c cs => constructor <;> simp [targetPath, h, JSValue.or, JSValue.toBoolean]
  · intro h
    constructor <;> simp [targetPath, h, JSValue.or, JSValue.toBoolean]

/-- For every other integration the target directory is
`.agaile-os/generated/<ide name>` under the project root, whatever is configured. -/
theorem targetPath_other_ide (pp : ProcessorPath) (proc : CommandProcessor) (ideKey : Text)
    (ideConfig : IdeConfig) (h1 : ideKey ≠ "claude_code".toList)
    (h2 : ideKey ≠ "cursor".toList) :
    targetPath pp proc ideKey ideConfig =
      some (pp.resolve3 proc.projectRoot ".agaile-os/generated".toList ideKey) := by
  unfold targetPath
  rw [if_neg h1, if_neg h2]

/-- C15, the code at the failing input: the enabled integration `windsurf` has the configured
commands directory `custom/commands`; `generateAllCommands` resolves the target directory
`/p/.agaile-os/generated/windsurf` and writes the command there, not under
`/p/custom/commands`, while the same entry under the key `claude_code` is written to the
configured directory. -/
theorem generateAllCommands_ignores_configured_directory :
    targetPath simpleProcessorPath
        (exampleProcessor [("windsurf".toList, customIntegration)]) "windsurf".toList
        customIntegration = some "/p/.agaile-os/generated/windsurf".toList ∧
    (generateAllCommands simpleProcessorPath exampleYaml
        (exampleProcessor [("windsurf".toList, customIntegration)]) 5 catalogDisk).map
      (·.writes) =
      some [("/p/.agaile-os/generated/windsurf/a.md".toList, "Run foo\n".toList)] ∧
    (generateAllCommands simpleProcessorPath exampleYaml
        (exampleProcessor [("claude_code".toList, customIntegration)]) 5 catalogDisk).map
      (·.writes) =
      some [("/p/custom/commands/a.md".toList, "Run foo\n".toList)] :=
  ⟨rfl, by decide, by decide⟩

/-! ## C16: idempotence of the generation of the catalog -/

/-- The last write of a list extended at its end. -/
theorem lastWrite_append (writes : List (Path × Text)) (p : Path) (data : Text) (q : Path) :
    lastWrite (writes ++ [(p, data)]) q =
      if q = p then some data else lastWrite writes q := by
  induction writes with
  | nil =>
      by_cases h : q = p <;> simp [lastWrite, h]
  | cons w rest ih =>
      obtain ⟨p2, data2⟩ := w
      rw [List.cons_append]
      simp only [lastWrite]
      rw [ih]
      by_cases h : q = p
      · rw [if_pos h, if_pos h]
      · rw [if_neg h, if_neg h]

/-- An entry is listed after it is added. -/
theorem mem_addEntry_self (entries : List Text) (name : Text) :
    name ∈ addEntry entries name := by
  unfold addEntry
  split
  · assumption
  · simp

/-- Adding an entry keeps the entries of a listing. -/
theorem mem_addEntry_of_mem (entries : List Text) (name other : Text)
    (h : other ∈ entries) : other ∈ addEntry entries name := by
  unfold addEntry
  split
  · exact h
  · simp [h]

/-- Adding an entry that is listed changes nothing. -/
theorem addEntry_of_mem (entries : List Text) (name : Text) (h : name ∈ entries) :
    addEntry entries name = entries := by
  simp [addEntry, h]

/-- A disk is itself with no directory made. -/
theorem Grows.refl (d : Disk) : Grows d d :=
  ⟨rfl, rfl, rfl, fun _ h => h, fun _ _ => rfl, fun _ entries _ h hn => ⟨entries, h, hn⟩⟩

/-- Making a directory that did not exist at first keeps `Grows`. -/
theorem Grows.mkdir (pp : ProcessorPath) (d s : Disk) (c : Path) (h : Grows d s)
    (hc : d.files.existsSync c = false) : Grows d (s.mkdir pp c) := by
  obtain ⟨h1, h2, h3, h4, h5, h6⟩ := h
  refine ⟨h1, h2, h3, ?_, ?_, ?_⟩
  · intro q hq
    show (if q = c then true else s.files.existsSync q) = true
    split
    · rfl
    · exact h4 q hq
  · intro q hq
    have hne : q ≠ c := by
      intro e
      rw [e, hc] at hq
      exact Bool.noConfusion hq
    show (if q = c then some true else s.isDirectory q) = d.isDirectory q
    rw [if_neg hne]
    exact h5 q hq
  · intro q entries name hq hn
    obtain ⟨entries2, he, hn2⟩ := h6 q entries name hq hn
    show ∃ entries3,
      (if q = c then some ((s.readdirSync c).getD [])
        else if q = pp.dirname c then
          some (addEntry ((s.readdirSync q).getD []) (pp.basename c []))
        else s.readdirSync q) = some entries3 ∧ name ∈ entries3
    by_cases hqc : q = c
    · subst hqc
      rw [if_pos rfl, he]
      exact ⟨entries2, rfl, hn2⟩
    · rw [if_neg hqc]
      by_cases hqd : q = pp.dirname c
      · rw [if_pos hqd, he]
        exact ⟨_, rfl, mem_addEntry_of_mem _ _ _ hn2⟩
      · rw [if_neg hqd]
        exact ⟨entries2, he, hn2⟩

/-- Making a directory with its missing ancestors only makes directories, and the
directory exists afterwards. -/
theorem Grows.mkdirp (pp : ProcessorPath) (d : Disk) :
    ∀ (levels : Nat) (p : Path), d.files.existsSync p = false →
      Grows d (Disk.mkdirp pp levels d p) ∧
        (Disk.mkdirp pp levels d p).files.existsSync p = true := by
  intro levels
  induction levels with
  | zero =>
      intro p hp
      refine ⟨Grows.mkdir pp d d p (Grows.refl d) hp, ?_⟩
      show (if p = p then true else d.files.existsSync p) = true
      rw [if_pos rfl]
  | succ n ih =>
      intro p hp
      unfold Disk.mkdirp
      by_cases hd : d.files.existsSync (pp.dirname p) = true
      · rw [if_pos hd]
        refine ⟨Grows.mkdir pp d d p (Grows.refl d) hp, ?_⟩
        show (if p = p then true else d.files.existsSync p) = true
        rw [if_pos rfl]
      · rw [if_neg hd]
        have hd2 : d.files.existsSync (pp.dirname p) = false := by
          cases hx : d.files.existsSync (pp.dirname p)
          · rfl
          · exact absurd hx hd
        refine ⟨Grows.mkdir pp d _ p (ih (pp.dirname p) hd2).1 hp, ?_⟩
        show (if p = p then true else _) = true
        rw [if_pos rfl]

/-- What `ensureDirectoryExists` does: it only makes directories, and the directory exists
afterwards. -/
theorem ensureDirectoryExists_grows (pp : ProcessorPath) (d d2 : Disk) (target : Path)
    (h : ensureDirectoryExists pp d target = some d2) :
    Grows d d2 ∧ d2.files.existsSync target = true := by
  unfold ensureDirectoryExists at h
  cases he : d.files.existsSync target
  · rw [he] at h
    simp only [Bool.not_false, if_true] at h
    by_cases hc : d.creatable target = true
    · rw [if_pos hc] at h
      injection h with h
      subst h
      exact Grows.mkdirp pp d _ target he
    · rw [if_neg hc] at h
      exact Option.noConfusion h
  · rw [he] at h
    simp only [Bool.not_true] at h
    injection h with h
    subst h
    exact ⟨Grows.refl d, he⟩

/-- A directory that exists is left as it is by `ensureDirectoryExists`. -/
theorem ensureDirectoryExists_of_exists (pp : ProcessorPath) (d : Disk) (target : Path)
    (h : d.files.existsSync target = true) : ensureDirectoryExists pp d target = some d := by
  unfold ensureDirectoryExists
  rw [h]
  rfl

/-- Making directories keeps the result of a list of writes. -/
theorem Settled.grows (pp : ProcessorPath) (d d2 : Disk) (writes : List (Path × Text))
    (h : Settled pp d writes) (hg : Grows d d2) : Settled pp d2 writes := by
  obtain ⟨h1, h2, h3, h4, h5, h6⟩ := hg
  obtain ⟨ha, hb⟩ := h
  refine ⟨?_, ?_⟩
  · intro w hw
    obtain ⟨e1, e2, entries, e3, e4⟩ := ha w hw
    refine ⟨h4 _ e1, ?_, h6 _ entries _ e3 e4⟩
    rw [h5 _ e1]
    exact e2
  · intro q data hq
    rw [h1]
    exact hb q data hq

/-- A write adds itself to the result of a list of writes. -/
theorem Settled.write (pp : ProcessorPath) (d : Disk) (writes : List (Path × Text))
    (p : Path) (data : Text) (h : Settled pp d writes) :
    Settled pp (d.writeFile pp p data) (writes ++ [(p, data)]) := by
  obtain ⟨ha, hb⟩ := h
  refine ⟨?_, ?_⟩
  · intro w hw
    have hlist : ∀ (x : Path) (name : Text),
        (∃ entries, d.readdirSync x = some entries ∧ name ∈ entries) ∨
            (x = pp.dirname p ∧ name = pp.basename p []) →
          ∃ entries, (d.writeFile pp p data).readdirSync x = some entries ∧
            name ∈ entries := by
      intro x name hx
      show ∃ entries,
        (if x = pp.dirname p then
            some (addEntry ((d.readdirSync x).getD []) (pp.basename p []))
          else d.readdirSync x) = some entries ∧ name ∈ entries
      by_cases hxp : x = pp.dirname p
      · rw [if_pos hxp]
        refine ⟨_, rfl, ?_⟩
        rcases hx with ⟨entries, e1, e2⟩ | ⟨_, e2⟩
        · rw [e1]
          exact mem_addEntry_of_mem _ _ _ e2
        · rw [e2]
          exact mem_addEntry_self _ _
      · rw [if_neg hxp]
        rcases hx with ⟨entries, e1, e2⟩ | ⟨e1, _⟩
        · exact ⟨entries, e1, e2⟩
        · exact absurd e1 hxp
    rcases List.mem_append.1 hw with hw | hw
    · obtain ⟨e1, e2, e3⟩ := ha w hw
      refine ⟨?_, ?_, hlist _ _ (Or.inl e3)⟩
      · show (if w.1 = p then true else d.files.existsSync w.1) = true
        split
        · rfl
        · exact e1
      · show (if w.1 = p then some false else d.isDirectory w.1) = some false
        split
        · rfl
        · exact e2
    · have hw2 : w = (p, data) := by simpa using hw
      subst hw2
      refine ⟨?_, ?_, hlist _ _ (Or.inr ⟨rfl, rfl⟩)⟩
      · show (if p = p then true else d.files.existsSync p) = true
        rw [if_pos rfl]
      · show (if p = p then some false else d.isDirectory p) = some false
        rw [if_pos rfl]
  · intro q data2 hq
    rw [lastWrite_append] at hq
    show (if q = p then some data else d.files.readFileSync q) = some data2
    by_cases hqp : q = p
    · rw [if_pos hqp] at hq
      rw [if_pos hqp]
      exact hq
    · rw [if_neg hqp] at hq
      rw [if_neg hqp]
      exact hb q data2 hq

/-- The writes of a list, one after the other. -/
theorem applyWrites_cons (pp : ProcessorPath) (w : Path × Text) (writes : List (Path × Text))
    (d : Disk) : applyWrites pp (w :: writes) d = applyWrites pp writes (d.writeFile pp w.1 w.2) :=
  rfl

/-- The writes of two lists, one list after the other. -/
theorem applyWrites_append (pp : ProcessorPath) (ws vs : List (Path × Text)) (d : Disk) :
    applyWrites pp (ws ++ vs) d = applyWrites pp vs (applyWrites pp ws d) := by
  unfold applyWrites
  rw [List.foldl_append]

/-- Writes keep what can be written. -/
theorem applyWrites_writable (pp : ProcessorPath) (writes : List (Path × Text)) :
    ∀ d : Disk, (applyWrites pp writes d).files.writable = d.files.writable := by
  induction writes with
  | nil => intro d; rfl
  | cons w rest ih =>
      intro d
      rw [applyWrites_cons, ih]
      rfl

/-- Writes keep what exists. -/
theorem applyWrites_exists (pp : ProcessorPath) (writes : List (Path × Text)) :
    ∀ (d : Disk) (q : Path), d.files.existsSync q = true →
      (applyWrites pp writes d).files.existsSync q = true := by
  induction writes with
  | nil => intro d q h; exact h
  | cons w rest ih =>
      intro d q h
      rw [applyWrites_cons]
      apply ih
      show (if q = w.1 then true else d.files.existsSync q) = true
      split
      · rfl
      · exact h

/-- The disk after a list of writes holds their result. -/
theorem Settled.applyWrites (pp : ProcessorPath) (writes : List (Path × Text)) :
    ∀ (d : Disk) (earlier : List (Path × Text)), Settled pp d earlier →
      Settled pp (applyWrites pp writes d) (earlier ++ writes) := by
  induction writes with
  | nil =>
      intro d earlier h
      rw [List.append_nil]
      exact h
  | cons w rest ih =>
      intro d earlier h
      rw [applyWrites_cons]
      have h2 := ih _ _ (Settled.write pp d earlier w.1 w.2 h)
      rw [List.append_assoc] at h2
      exact h2

/-- Writes over a disk that holds their result, from a disk that differs from it only in
the contents of files that the writes fix, give the disk back. -/
theorem applyWrites_absorbed (pp : ProcessorPath) (writes : List (Path × Text)) :
    ∀ (d s : Disk), Settled pp d writes →
      s.files.existsSync = d.files.existsSync → s.files.writable = d.files.writable →
      s.readdirSync = d.readdirSync → s.isDirectory = d.isDirectory →
      s.creatable = d.creatable →
      (∀ q, lastWrite writes q = none → s.files.readFileSync q = d.files.readFileSync q) →
      applyWrites pp writes s = d := by
  induction writes with
  | nil =>
      intro d s _ h1 h2 h3 h4 h5 h6
      obtain ⟨⟨se, sr, sw⟩, sl, si, sc⟩ := s
      obtain ⟨⟨de, dr, dw⟩, dl, di, dc⟩ := d
      simp only at h1 h2 h3 h4 h5 h6
      have h7 : sr = dr := funext fun q => h6 q rfl
      subst h1 h2 h3 h4 h5 h7
      rfl
  | cons w rest ih =>
      intro d s hd h1 h2 h3 h4 h5 h6
      obtain ⟨p, data⟩ := w
      rw [applyWrites_cons]
      obtain ⟨ha, hb⟩ := hd
      obtain ⟨e1, e2, entries, e3, e4⟩ := ha (p, data) (List.mem_cons_self _ _)
      apply ih d
      · refine ⟨fun w hw => ha w (List.mem_cons_of_mem _ hw), ?_⟩
        intro q data2 hq
        apply hb
        simp only [lastWrite, hq]
      · funext q
        show (if q = p then true else s.files.existsSync q) = d.files.existsSync q
        by_cases hqp : q = p
        · rw [if_pos hqp, hqp]
          exact e1.symm
        · rw [if_neg hqp, h1]
      · exact h2
      · funext q
        show (if q = pp.dirname p then
            some (addEntry ((s.readdirSync q).getD []) (pp.basename p []))
          else s.readdirSync q) = d.readdirSync q
        rw [h3]
        by_cases hqp : q = pp.dirname p
        · rw [if_pos hqp, hqp, e3]
          show some (addEntry entries (pp.basename p [])) = some entries
          rw [addEntry_of_mem _ _ e4]
        · rw [if_neg hqp]
      · funext q
        show (if q = p then some false else s.isDirectory q) = d.isDirectory q
        by_cases hqp : q = p
        · rw [if_pos hqp, hqp]
          exact e2.symm
        · rw [if_neg hqp, h4]
      · exact h5
      · intro q hq
        show (if q = p then some data else s.files.readFileSync q) = d.files.readFileSync q
        by_cases hqp : q = p
        · rw [if_pos hqp]
          symm
          apply hb
          simp only [lastWrite, hq, if_pos hqp]
        · rw [if_neg hqp]
          apply h6
          simp only [lastWrite, hq, hqp, if_false]

/-- The loop over the instruction files, on two disks from which the same commands are
generated: the writes `found` of the first run are the writes of the second, and each run
leaves its disk with these writes applied. -/
theorem generateForIde_sim (pp : ProcessorPath) (yamlLoad : Text → Option JSValue)
    (proc : CommandProcessor) (depth : Nat) (I : Disk → Prop) (wr : Path → Bool)
    (target : Path) (ideKey : Text) (G : Path → Option (Option GeneratedCommand)) :
    ∀ (files : List Path),
      (∀ s, I s → ∀ f ∈ files,
        generateCommand pp yamlLoad proc depth s.files f ideKey = G f) →
      (∀ s f data, I s → f ∈ files → I (s.writeFile pp (outputPath pp target f) data)) →
      ∀ (s1 : Disk) (w1 : List (Path × Text)) (g1 : Generation), I s1 →
        s1.files.writable = wr →
        generateForIde pp yamlLoad proc depth target ideKey files s1 w1 = some g1 →
        ∃ found, g1.disk = applyWrites pp found s1 ∧ g1.writes = w1 ++ found ∧
          ∀ (s2 : Disk) (w2 : List (Path × Text)), I s2 → s2.files.writable = wr →
            I (applyWrites pp found s2) ∧
            generateForIde pp yamlLoad proc depth target ideKey files s2 w2 =
              some { disk := applyWrites pp found s2, writes := w2 ++ found,
                     completed := g1.completed } := by
  intro files
  induction files with
  | nil =>
      intro _ _ s1 w1 g1 _ _ h
      simp only [generateForIde, Option.some.injEq] at h
      subst h
      refine ⟨[], rfl, (List.append_nil _).symm, ?_⟩
      intro s2 w2 hI2 _
      refine ⟨hI2, ?_⟩
      simp only [generateForIde, List.append_nil]
      rfl
  | cons f rest ih =>
      intro hG hW s1 w1 g1 hI1 hw1 h
      have ih2 := ih (fun s hs f2 hf2 => hG s hs f2 (List.mem_cons_of_mem _ hf2))
        (fun s f2 data hs hf2 => hW s f2 data hs (List.mem_cons_of_mem _ hf2))
      have hg1 := hG s1 hI1 f (List.mem_cons_self _ _)
      unfold generateForIde at h
      rw [hg1] at h
      cases hGf : G f with
      | none =>
          rw [hGf] at h
          exact Option.noConfusion h
      | some r =>
          cases r with
          | none =>
              rw [hGf] at h
              obtain ⟨found, e1, e2, e3⟩ := ih2 s1 w1 g1 hI1 hw1 h
              refine ⟨found, e1, e2, ?_⟩
              intro s2 w2 hI2 hw2
              refine ⟨(e3 s2 w2 hI2 hw2).1, ?_⟩
              unfold generateForIde
              rw [hG s2 hI2 f (List.mem_cons_self _ _), hGf]
              exact (e3 s2 w2 hI2 hw2).2
          | some command =>
              rw [hGf] at h
              simp only at h
              by_cases hwp : wr (outputPath pp target f) = true
              · rw [hw1, if_pos hwp] at h
                obtain ⟨found, e1, e2, e3⟩ :=
                  ih2 _ _ g1
                    (hW s1 f command.content hI1 (List.mem_cons_self _ _)) hw1 h
                refine ⟨(outputPath pp target f, command.content) :: found, ?_, ?_, ?_⟩
                · rw [applyWrites_cons]
                  exact e1
                · rw [e2, List.append_assoc]
                  rfl
                · intro s2 w2 hI2 hw2
                  have e4 := e3 (s2.writeFile pp (outputPath pp target f) command.content)
                    (w2 ++ [(outputPath pp target f, command.content)])
                    (hW s2 f command.content hI2 (List.mem_cons_self _ _)) hw2
                  refine ⟨?_, ?_⟩
                  · rw [applyWrites_cons]
                    exact e4.1
                  · unfold generateForIde
                    rw [hG s2 hI2 f (List.mem_cons_self _ _), hGf]
                    simp only
                    rw [hw2, if_pos hwp, e4.2, applyWrites_cons, List.append_assoc]
                    rfl
              · rw [hw1, if_neg hwp] at h
                injection h with h
                subst h
                refine ⟨[], rfl, (List.append_nil _).symm, ?_⟩
                intro s2 w2 hI2 hw2
                refine ⟨hI2, ?_⟩
                unfold generateForIde
                rw [hG s2 hI2 f (List.mem_cons_self _ _), hGf]
                simp only
                rw [hw2, if_neg hwp, List.append_nil]
                rfl

/-- The loop over the integrations, for a run that completes from a disk `s1` and a second
run from any disk `s2` on which the target directories exist, both with the same inputs:
the second run completes with the writes of the first, and the disk of the first run holds
the result of these writes. -/
theorem generateForIdes_sim (pp : ProcessorPath) (yamlLoad : Text → Option JSValue)
    (proc : CommandProcessor) (depth : Nat) (I : Disk → Prop) (wr : Path → Bool)
    (files : List Path) (G : Path → Text → Option (Option GeneratedCommand)) :
    ∀ (ides : List (Text × IdeConfig)),
      (∀ s, I s → ∀ f ∈ files, ∀ ide ∈ ides,
        generateCommand pp yamlLoad proc depth s.files f ide.1 = G f ide.1) →
      (∀ s ide target f data, I s → ide ∈ ides → ide.2.enabled.toBoolean = true →
        targetPath pp proc ide.1 ide.2 = some target → f ∈ files →
        I (s.writeFile pp (outputPath pp target f) data)) →
      (∀ s ide target s3, I s → ide ∈ ides → ide.2.enabled.toBoolean = true →
        targetPath pp proc ide.1 ide.2 = some target →
        ensureDirectoryExists pp s target = some s3 → I s3) →
      ∀ (s1 : Disk) (w1 : List (Path × Text)) (g1 : Generation), I s1 →
        s1.files.writable = wr →
        generateForIdes pp yamlLoad proc depth files ides s1 w1 = some g1 →
        g1.completed = true →
        ∃ found, g1.writes = w1 ++ found ∧ I g1.disk ∧ g1.disk.files.writable = wr ∧
          (∀ q, s1.files.existsSync q = true → g1.disk.files.existsSync q = true) ∧
          (∀ earlier, Settled pp s1 earlier → Settled pp g1.disk (earlier ++ found)) ∧
          (∀ ide ∈ ides, ide.2.enabled.toBoolean = true → ∀ target,
            targetPath pp proc ide.1 ide.2 = some target →
            g1.disk.files.existsSync target = true) ∧
          ∀ (s2 : Disk) (w2 : List (Path × Text)), I s2 → s2.files.writable = wr →
            (∀ ide ∈ ides, ide.2.enabled.toBoolean = true → ∀ target,
              targetPath pp proc ide.1 ide.2 = some target →
              s2.files.existsSync target = true) →
            generateForIdes pp yamlLoad proc depth files ides s2 w2 =
              some { disk := applyWrites pp found s2, writes := w2 ++ found,
                     completed := true } := by
  intro ides
  induction ides with
  | nil =>
      intro _ _ _ s1 w1 g1 hI1 hw1 h _
      simp only [generateForIdes, Option.some.injEq] at h
      subst h
      refine ⟨[], (List.append_nil _).symm, hI1, hw1, fun _ hq => hq, ?_, ?_, ?_⟩
      · intro earlier hs
        rw [List.append_nil]
        exact hs
      · intro ide hide
        exact absurd hide (List.not_mem_nil _)
      · intro s2 w2 _ _ _
        simp only [generateForIdes, List.append_nil]
        rfl
  | cons e rest ih =>
      intro hG hW hM s1 w1 g1 hI1 hw1 h hc
      obtain ⟨key, cfg⟩ := e
      have ih2 := ih
        (fun s hs f hf ide hide => hG s hs f hf ide (List.mem_cons_of_mem _ hide))
        (fun s ide target f data hs hide =>
          hW s ide target f data hs (List.mem_cons_of_mem _ hide))
        (fun s ide target s3 hs hide => hM s ide target s3 hs (List.mem_cons_of_mem _ hide))
      unfold generateForIdes at h
      cases hen : cfg.enabled.toBoolean with
      | false =>
          rw [hen] at h
          simp only [Bool.not_false, if_true] at h
          obtain ⟨found, e1, e2, e3, e4, e5, e6, e7⟩ := ih2 s1 w1 g1 hI1 hw1 h hc
          refine ⟨found, e1, e2, e3, e4, e5, ?_, ?_⟩
          · intro ide hide hide2 target ht
            rcases List.mem_cons.1 hide with hide | hide
            · subst hide
              rw [hen] at hide2
              exact Bool.noConfusion hide2
            · exact e6 ide hide hide2 target ht
          · intro s2 w2 hI2 hw2 ht2
            unfold generateForIdes
            rw [hen]
            simp only [Bool.not_false, if_true]
            exact e7 s2 w2 hI2 hw2
              (fun ide hide => ht2 ide (List.mem_cons_of_mem _ hide))
      | true =>
          rw [hen] at h
          simp only [Bool.not_true, Bool.false_eq_true, if_false] at h
          cases htp : targetPath pp proc key cfg with
          | none =>
              rw [htp] at h
              simp only [Option.some.injEq] at h
              subst h
              exact Bool.noConfusion hc
          | some target =>
              rw [htp] at h
              simp only at h
              cases hens : ensureDirectoryExists pp s1 target with
              | none =>
                  rw [hens] at h
                  simp only [Option.some.injEq] at h
                  subst h
                  exact Bool.noConfusion hc
              | some ensured =>
                  rw [hens] at h
                  simp only at h
                  have hmem : (key, cfg) ∈ (key, cfg) :: rest := List.mem_cons_self _ _
                  obtain ⟨hgrow, hex⟩ := ensureDirectoryExists_grows pp s1 ensured target hens
                  have hIe : I ensured := hM s1 (key, cfg) target ensured hI1 hmem hen htp hens
                  have hwe : ensured.files.writable = wr := by
                    rw [hgrow.2.1]
                    exact hw1
                  cases hide : generateForIde pp yamlLoad proc depth target key files
                      ensured w1 with
                  | none =>
                      rw [hide] at h
                      exact Option.noConfusion h
                  | some ga =>
                      rw [hide] at h
                      simp only at h
                      obtain ⟨va, a1, a2, a3⟩ :=
                        generateForIde_sim pp yamlLoad proc depth I wr target key
                          (fun f => G f key) files
                          (fun s hs f hf => hG s hs f hf (key, cfg) hmem)
                          (fun s f data hs hf =>
                            hW s (key, cfg) target f data hs hmem hen htp hf)
                          ensured w1 ga hIe hwe hide
                      cases hca : ga.completed with
                      | false =>
                          rw [hca] at h
                          simp only [Bool.false_eq_true, if_false, Option.some.injEq] at h
                          subst h
                          rw [hca] at hc
                          exact Bool.noConfusion hc
                      | true =>
                          rw [hca] at h
                          simp only [if_true] at h
                          have hIa : I ga.disk := by
                            rw [a1]
                            exact (a3 ensured w1 hIe hwe).1
                          have hwa : ga.disk.files.writable = wr := by
                            rw [a1, applyWrites_writable]
                            exact hwe
                          obtain ⟨vb, b1, b2, b3, b4, b5, b6, b7⟩ :=
                            ih2 ga.disk ga.writes g1 hIa hwa h hc
                          have hexa : ∀ q, s1.files.existsSync q = true →
                              ga.disk.files.existsSync q = true := by
                            intro q hq
                            rw [a1]
                            exact applyWrites_exists pp va ensured q (hgrow.2.2.2.1 q hq)
                          have hta : ga.disk.files.existsSync target = true := by
                            rw [a1]
                            exact applyWrites_exists pp va ensured target hex
                          refine ⟨va ++ vb, ?_, b2, b3, ?_, ?_, ?_, ?_⟩
                          · rw [b1, a2, List.append_assoc]
                          · intro q hq
                            exact b4 q (hexa q hq)
                          · intro earlier hs
                            have hs2 := Settled.applyWrites pp va ensured earlier
                              (Settled.grows pp s1 ensured earlier hs hgrow)
                            rw [← a1] at hs2
                            have hs3 := b5 _ hs2
                            rw [List.append_assoc] at hs3
                            exact hs3
                          · intro ide hide2 hen2 target2 ht2
                            rcases List.mem_cons.1 hide2 with hide2 | hide2
                            · subst hide2
                              rw [htp] at ht2
                              injection ht2 with ht2
                              subst ht2
                              exact b4 _ hta
                            · exact b6 ide hide2 hen2 target2 ht2
                          · intro s2 w2 hI2 hw2 ht2
                            have hx2 : s2.files.existsSync target = true :=
                              ht2 (key, cfg) hmem hen target htp
                            have c1 := a3 s2 w2 hI2 hw2
                            unfold generateForIdes
                            rw [hen]
                            simp only [Bool.not_true, Bool.false_eq_true, if_false]
                            rw [htp]
                            simp only
                            rw [ensureDirectoryExists_of_exists pp s2 target hx2]
                            simp only
                            rw [c1.2]
                            simp only
                            rw [hca]
                            simp only [if_true]
                            rw [b7 (applyWrites pp va s2) (w2 ++ va) c1.1
                              (by rw [applyWrites_writable]; exact hw2)
                              (fun ide hide3 hen3 target3 ht3 =>
                                applyWrites_exists pp va s2 target3
                                  (ht2 ide (List.mem_cons_of_mem _ hide3) hen3 target3 ht3)),
                              applyWrites_append, List.append_assoc]

/-- No write has been made to a disk itself. -/
theorem Settled.nil (pp : ProcessorPath) (d : Disk) : Settled pp d [] :=
  ⟨fun _ hw => absurd hw (List.not_mem_nil _), fun _ _ h => Option.noConfusion h⟩

/-- C16 (as amended): when the outputs of generation are not among its inputs (a property
of disks holds of the initial disk, is kept by the making of the target directories and by
the writing of the output files, and generation finds the same instruction files and
generates the same commands on every disk with the property), and `generateAllCommands`
returns normally, a second run on the disk left by the first returns normally with the same
calls of `fs.writeFileSync` (same paths, same data, same order) and leaves the disk
unchanged. -/
theorem generateAllCommands_idempotent (pp : ProcessorPath)
    (yamlLoad : Text → Option JSValue) (proc : CommandProcessor) (depth : Nat) (d : Disk)
    (I : Disk → Prop) (g1 : Generation)
    (hI : StableInputs pp yamlLoad proc depth d I)
    (h1 : generateAllCommands pp yamlLoad proc depth d = some g1)
    (hc : g1.completed = true) :
    generateAllCommands pp yamlLoad proc depth g1.disk = some g1 := by
  unfold generateAllCommands at h1
  cases hip : instructionsPath pp proc with
  | none =>
      rw [hip] at h1
      simp only [Option.some.injEq] at h1
      subst h1
      exact Bool.noConfusion hc
  | some instructions =>
      rw [hip] at h1
      simp only at h1
      cases hex : d.files.existsSync instructions with
      | false =>
          rw [hex] at h1
          simp only [Bool.not_false, if_true, Option.some.injEq] at h1
          subst h1
          unfold generateAllCommands
          rw [hip]
          simp only
          rw [hex]
          rfl
      | true =>
          rw [hex] at h1
          simp only [Bool.not_true, Bool.false_eq_true, if_false] at h1
          cases hf : findInstructionFiles pp.toNodePath d depth instructions with
          | none =>
              rw [hf] at h1
              exact Option.noConfusion h1
          | some r =>
              cases r with
              | none =>
                  rw [hf] at h1
                  simp only [Option.some.injEq] at h1
                  subst h1
                  exact Bool.noConfusion hc
              | some files =>
                  rw [hf] at h1
                  simp only at h1
                  obtain ⟨found, e1, e2, e3, _, e5, e6, e7⟩ :=
                    generateForIdes_sim pp yamlLoad proc depth I d.files.writable files
                      (fun f key => generateCommand pp yamlLoad proc depth d.files f key)
                      (proc.config.integrations.getD [])
                      (fun s hs f hf2 ide hide =>
                        (hI.same s hs).2 f ⟨instructions, files, hip, hf, hf2⟩ ide hide)
                      (fun s ide target f data hs hide hen htp hf2 =>
                        hI.write s target f data hs ⟨ide, hide, hen, htp⟩
                          ⟨instructions, files, hip, hf, hf2⟩)
                      (fun s ide target s3 hs hide hen htp hens =>
                        hI.mkdir s target s3 hs ⟨ide, hide, hen, htp⟩ hens)
                      d [] g1 hI.initial rfl h1 hc
                  have hsame := (hI.same g1.disk e2).1 instructions hip
                  have habs : applyWrites pp found g1.disk = g1.disk :=
                    applyWrites_absorbed pp found g1.disk g1.disk
                      (e5 [] (Settled.nil pp d)) rfl rfl rfl rfl rfl (fun _ _ => rfl)
                  unfold generateAllCommands
                  rw [hip]
                  simp only
                  rw [hsame.1, hex, hsame.2, hf]
                  simp only [Bool.not_true, Bool.false_eq_true, if_false]
                  rw [e7 g1.disk [] e2 e3 e6, habs, ← e1]
                  obtain ⟨gd, gw, gc⟩ := g1
                  simp only at hc
                  rw [hc]

/-- The instruction file found on a disk with the inputs of `preparedDisk`. -/
theorem findInstructionFiles_prepared (s : Disk) (h : preparedInputs s) :
    findInstructionFiles simpleProcessorPath.toNodePath s 5
        "/p/.agaile-os/instructions".toList =
      some (some ["/p/.agaile-os/instructions/a.md".toList]) := by
  obtain ⟨_, h2, h3, _⟩ := h
  have hj : simpleProcessorPath.toNodePath.join
      ["/p/.agaile-os/instructions".toList, "a.md".toList] =
      "/p/.agaile-os/instructions/a.md".toList := by decide
  unfold findInstructionFiles traverse
  rw [h2]
  simp only [traverseEntries]
  rw [hj, h3]
  rfl

/-- The command generated on a disk with the inputs of `preparedDisk`. -/
theorem generateCommand_prepared (s : Disk) (h : preparedInputs s) :
    generateCommand simpleProcessorPath exampleYaml
        (exampleProcessor [("claude_code".toList, plainIntegration)]) 5 s.files
        "/p/.agaile-os/instructions/a.md".toList "claude_code".toList =
      generateCommand simpleProcessorPath exampleYaml
        (exampleProcessor [("claude_code".toList, plainIntegration)]) 5 preparedDisk.files
        "/p/.agaile-os/instructions/a.md".toList "claude_code".toList := by
  obtain ⟨_, _, _, h4, h5, h6, _⟩ := h
  have hp : ∀ fs : FileSystem, processIncludes simpleProcessorPath.toNodePath fs 5
      "---\nname: foo\n---\n# A\n".toList
      (simpleProcessorPath.dirname "/p/.agaile-os/instructions/a.md".toList) =
        some "---\nname: foo\n---\n# A\n".toList :=
    fun fs => processIncludes_id _ _ _ _ _ (by decide)
  have hr : preparedDisk.files.readFileSync "/p/.agaile-os/instructions/a.md".toList =
      some "---\nname: foo\n---\n# A\n".toList := rfl
  have ht : simpleProcessorPath.join
      [(exampleProcessor [("claude_code".toList, plainIntegration)]).configDir,
        "commands".toList, "templates".toList, "claude_command.md".toList] =
      "/p/.agaile-os/commands/templates/claude_command.md".toList := by decide
  have hm : ((sectionField
      (exampleProcessor [("claude_code".toList, plainIntegration)]).config.mappings
      "claude_code".toList (·.template)).or
        (defaultTemplateByIde.get "claude_code".toList)).or
          (JSValue.str "claude_command.md".toList) =
      JSValue.str "claude_command.md".toList := rfl
  unfold generateCommand
  rw [h4, hr]
  simp only [hp]
  rw [hm]
  simp only
  rw [ht, h5, h6]
  rfl

/-- The target directory of the project of `preparedDisk`. -/
theorem isTarget_prepared (target : Path)
    (h : IsTarget simpleProcessorPath
      (exampleProcessor [("claude_code".toList, plainIntegration)]) target) :
    target = "/p/.claude/commands".toList := by
  obtain ⟨ide, hide, _, htp⟩ := h
  have hide2 : ide = ("claude_code".toList, plainIntegration) := by
    simpa [exampleProcessor] using hide
  subst hide2
  have e : targetPath simpleProcessorPath
      (exampleProcessor [("claude_code".toList, plainIntegration)]) "claude_code".toList
      plainIntegration = some "/p/.claude/commands".toList := rfl
  rw [e] at htp
  injection htp with htp
  exact htp.symm

/-- The instruction file of the project of `preparedDisk`. -/
theorem isInstruction_prepared (file : Path)
    (h : IsInstruction simpleProcessorPath
      (exampleProcessor [("claude_code".toList, plainIntegration)]) 5 preparedDisk file) :
    file = "/p/.agaile-os/instructions/a.md".toList := by
  obtain ⟨instructions, found, hip, hf, hmem⟩ := h
  have e : instructionsPath simpleProcessorPath
      (exampleProcessor [("claude_code".toList, plainIntegration)]) =
      some "/p/.agaile-os/instructions".toList := rfl
  rw [e] at hip
  injection hip with hip
  subst hip
  have e2 : findInstructionFiles simpleProcessorPath.toNodePath preparedDisk 5
      "/p/.agaile-os/instructions".toList =
      some (some ["/p/.agaile-os/instructions/a.md".toList]) := by decide
  rw [e2] at hf
  injection hf with hf
  injection hf with hf
  subst hf
  simpa using hmem

/-- On `preparedDisk` the outputs of generation are not among its inputs: they go to
`/p/.claude/commands`, and generation reads the instructions directory and the template. -/
theorem preparedDisk_stable :
    StableInputs simpleProcessorPath exampleYaml
      (exampleProcessor [("claude_code".toList, plainIntegration)]) 5 preparedDisk
      preparedInputs := by
  refine ⟨⟨rfl, rfl, rfl, rfl, rfl, rfl, rfl⟩, ?_, ?_, ?_⟩
  · intro s hs
    refine ⟨?_, ?_⟩
    · intro instructions hip
      have e : instructionsPath simpleProcessorPath
          (exampleProcessor [("claude_code".toList, plainIntegration)]) =
          some "/p/.agaile-os/instructions".toList := rfl
      rw [e] at hip
      injection hip with hip
      subst hip
      refine ⟨?_, ?_⟩
      · rw [hs.1]
        rfl
      · rw [findInstructionFiles_prepared s hs]
        decide
    · intro file hfile ide hide
      have hfile2 := isInstruction_prepared file hfile
      have hide2 : ide = ("claude_code".toList, plainIntegration) := by
        simpa [exampleProcessor] using hide
      subst hfile2 hide2
      exact generateCommand_prepared s hs
  · intro s target s3 hs ht hens
    have ht2 := isTarget_prepared target ht
    subst ht2
    rw [ensureDirectoryExists_of_exists simpleProcessorPath s _ hs.2.2.2.2.2.2] at hens
    injection hens with hens
    subst hens
    exact hs
  · intro s target file data hs ht hfile
    have ht2 := isTarget_prepared target ht
    have hfile2 := isInstruction_prepared file hfile
    subst ht2 hfile2
    have ho : outputPath simpleProcessorPath "/p/.claude/commands".toList
        "/p/.agaile-os/instructions/a.md".toList = "/p/.claude/commands/a.md".toList := by
      decide
    rw [ho]
    obtain ⟨h1, h2, h3, h4, h5, h6, h7⟩ := hs
    have n1 : "/p/.agaile-os/instructions".toList ≠ "/p/.claude/commands/a.md".toList := by
      decide
    have n2 : "/p/.agaile-os/instructions".toList ≠
        simpleProcessorPath.dirname "/p/.claude/commands/a.md".toList := by decide
    have n3 : "/p/.agaile-os/instructions/a.md".toList ≠
        "/p/.claude/commands/a.md".toList := by decide
    have n4 : "/p/.agaile-os/commands/templates/claude_command.md".toList ≠
        "/p/.claude/commands/a.md".toList := by decide
    have n5 : "/p/.claude/commands".toList ≠ "/p/.claude/commands/a.md".toList := by decide
    refine ⟨?_, ?_, ?_, ?_, ?_, ?_, ?_⟩
    · simp only [Disk.writeFile, FileSystem.write, if_neg n1]
      exact h1
    · simp only [Disk.writeFile, if_neg n2]
      exact h2
    · simp only [Disk.writeFile, if_neg n3]
      exact h3
    · simp only [Disk.writeFile, FileSystem.write, if_neg n3]
      exact h4
    · simp only [Disk.writeFile, FileSystem.write, if_neg n4]
      exact h5
    · simp only [Disk.writeFile, FileSystem.write, if_neg n4]
      exact h6
    · simp only [Disk.writeFile, FileSystem.write, if_neg n5]
      exact h7

/-- C16, witness: on `preparedDisk` with the integration `claude_code`, the first run writes
`/p/.claude/commands/a.md`, and the second run on the disk it leaves returns the same
generation. -/
theorem generateAllCommands_idempotent_witness :
    ∃ g1 : Generation,
      generateAllCommands simpleProcessorPath exampleYaml
          (exampleProcessor [("claude_code".toList, plainIntegration)]) 5 preparedDisk =
        some g1 ∧
      g1.writes = [("/p/.claude/commands/a.md".toList, "Run foo\n".toList)] ∧
      generateAllCommands simpleProcessorPath exampleYaml
          (exampleProcessor [("claude_code".toList, plainIntegration)]) 5 g1.disk =
        some g1 := by
  have hw : (generateAllCommands simpleProcessorPath exampleYaml
      (exampleProcessor [("claude_code".toList, plainIntegration)]) 5 preparedDisk).map
        (fun g => (g.writes, g.completed)) =
      some ([("/p/.claude/commands/a.md".toList, "Run foo\n".toList)], true) := by decide
  cases h : generateAllCommands simpleProcessorPath exampleYaml
      (exampleProcessor [("claude_code".toList, plainIntegration)]) 5 preparedDisk with
  | none =>
      rw [h] at hw
      exact Option.noConfusion hw
  | some g1 =>
      rw [h] at hw
      simp only [Option.map_some', Option.some.injEq, Prod.mk.injEq] at hw
      exact ⟨g1, rfl, hw.1,
        generateAllCommands_idempotent simpleProcessorPath exampleYaml
          (exampleProcessor [("claude_code".toList, plainIntegration)]) 5 preparedDisk
          preparedInputs g1 preparedDisk_stable h hw.2⟩

/-- C16, counterexample: the integration `claude_code` is configured to write into the
instructions directory.  The first run writes `Run foo` over the instruction `a.md`; the
second run, on the disk left by the first, reads that file as the instruction and writes
`Run a`: the data written differ and the disk is changed. -/
theorem generateAllCommands_not_idempotent :
    (generateAllCommands simpleProcessorPath exampleYaml
        (exampleProcessor [("claude_code".toList, overlapIntegration)]) 5 catalogDisk).map
      (fun g => (g.writes, g.completed,
        g.disk.files.readFileSync "/p/.agaile-os/instructions/a.md".toList)) =
      some ([("/p/.agaile-os/instructions/a.md".toList, "Run foo\n".toList)], true,
        some "Run foo\n".toList) ∧
    ((generateAllCommands simpleProcessorPath exampleYaml
        (exampleProcessor [("claude_code".toList, overlapIntegration)]) 5 catalogDisk).bind
      fun g1 =>
        (generateAllCommands simpleProcessorPath exampleYaml
          (exampleProcessor [("claude_code".toList, overlapIntegration)]) 5 g1.disk).map
        (fun g => (g.writes, g.completed,
          g.disk.files.readFileSync "/p/.agaile-os/instructions/a.md".toList))) =
      some ([("/p/.agaile-os/instructions/a.md".toList, "Run a\n".toList)], true,
        some "Run a\n".toList) :=
  ⟨by decide, by decide⟩

end Agaile
